import Mathlib

/-!
# grib2tiles: field sampler, colour map, tile geodesy and tile pipeline

A shallow embedding of `src/parser/grib2.go`, `src/internal/colormap/colormap.go`,
`src/internal/render/geo.go`, `src/internal/render/tile.go` and
`src/internal/render/generator.go`.

Conventions of the embedding.

* The sampler is embedded twice.  In the namespace `Grib2` a Go `float64` is an
  exact rational (`ℚ`) and the operations are exact: this is the arithmetic in
  which the formulas, guards and index bounds of the sampler are stated.  In
  the namespace `Binary64` a `float64` is the rational it denotes and every
  operation rounds its exact result to the nearest binary64 value (ties to
  even, gradual underflow): this is the arithmetic the program runs, and the
  statements about the exact value returned are made there.  Infinities, NaN
  and the sign of zero are outside both.  In `Grib2`, `1.001` is `1001/1000`;
  in `Binary64` it is the binary64 value nearest to it.
* A Go `int` is an unbounded `Int`; the conversions `uint8(..)` and
  `uint32(..)` and the `uint32` arithmetic of the stored row reduce modulo
  `2^8` and `2^32`, the 64-bit product and sum of the tile count reduce modulo
  `2^64` (`wrapInt64`), and `strconv.Atoi` saturates at the bounds of `int`.
* A slice read `data[i]` is `sliceAt data i : Option ℚ`; `none` is the runtime
  panic "index out of range".  Every function that reads the slice returns an
  `Option`, and `none` propagates like the panic does.
* `math.Sqrt` has no rational value.  In `Grib2`,
  `gradientAdaptiveInterpolation` only uses the distance in `dist <= radius`
  and in `point.distance*point.distance`, so a `DataPoint` carries the squared
  distance: `dist <= radius` is `distSq <= radius*radius` and
  `point.distance*point.distance` is `distSq`.  In `Binary64`, `Sqrt` is the
  correctly rounded square root and a `DataPoint` carries the distance.
-/

namespace Grib2

/-- Header fields of `GribHeader` that the sampler reads. -/
structure GribHeader where
  Nx : Int
  Ny : Int
  La1 : ℚ
  La2 : ℚ
  Lo1 : ℚ
  Lo2 : ℚ
  DX : ℚ
  DY : ℚ
  MissingValue : ℚ

/-- A decoded field, `GRIBFile`: header and flattened row-major samples. -/
structure GRIBFile where
  Header : GribHeader
  DataValues : List ℚ

/-- Slice read `data[i]`; `none` when `i` is negative or past the end. -/
def sliceAt (data : List ℚ) (i : Int) : Option ℚ :=
  if 0 ≤ i then data[i.toNat]? else none

/-- Go helper `min(a, b int) int`. -/
def imin (a b : Int) : Int :=
  if a < b then a else b

/-- The normalisation `if lo1 > 180 { lo1 -= 360 }`. -/
def normLo1 (lo1 : ℚ) : ℚ :=
  if lo1 > 180 then lo1 - 360 else lo1

/-- The wrap `if lng > 180 { lng -= 360 } else if lng < -180 { lng += 360 }`. -/
def wrapLng (lng : ℚ) : ℚ :=
  if lng > 180 then lng - 360 else if lng < -180 then lng + 360 else lng

/-- Closure `getPixel` of `tryBilinearInterpolation`. -/
def getPixel (data : List ℚ) (width height : Int) (missingValue : ℚ)
    (row col : Int) : Option (ℚ × Bool) :=
  if row < 0 ∨ row ≥ height ∨ col < 0 ∨ col ≥ width then
    some (missingValue, false)
  else
    match sliceAt data (row * width + col) with
    | none => none
    | some val => some (val, decide (val ≠ missingValue))

/-- The four `if validXY { validCount++ }` statements. -/
def validCount (valid00 valid01 valid10 valid11 : Bool) : Nat :=
  (if valid00 then 1 else 0) + (if valid01 then 1 else 0)
    + (if valid10 then 1 else 0) + (if valid11 then 1 else 0)

/-- One `if valid { weight := w; result += v*weight; totalWeight += weight }`
block, on the pair `(result, totalWeight)`. -/
def addCorner (valid : Bool) (v weight : ℚ) (acc : ℚ × ℚ) : ℚ × ℚ :=
  if valid then (acc.1 + v * weight, acc.2 + weight) else acc

/-- Lines 232-282 of `tryBilinearInterpolation`: the blend of the four corner
reads `(v, valid)` at offsets `u`, `v`. -/
def blendCorners (u v : ℚ) (v00 : ℚ) (valid00 : Bool) (v01 : ℚ) (valid01 : Bool)
    (v10 : ℚ) (valid10 : Bool) (v11 : ℚ) (valid11 : Bool) : ℚ × Bool :=
  let n := validCount valid00 valid01 valid10 valid11
  if n < 2 then
    (0, false)
  else if n = 4 then
    (v00 * (1 - u) * (1 - v) + v01 * u * (1 - v) + v10 * (1 - u) * v + v11 * u * v, true)
  else
    let acc := addCorner valid11 v11 (u * v)
      (addCorner valid10 v10 ((1 - u) * v)
        (addCorner valid01 v01 (u * (1 - v))
          (addCorner valid00 v00 ((1 - u) * (1 - v)) (0, 0))))
    if acc.2 > 0 then (acc.1 / acc.2, true) else (0, false)

/-- Function `tryBilinearInterpolation`. -/
def tryBilinearInterpolation (data : List ℚ) (x y : ℚ) (x0 y0 width height : Int)
    (missingValue : ℚ) : Option (ℚ × Bool) :=
  let u := x - (x0 : ℚ)
  let v := y - (y0 : ℚ)
  match getPixel data width height missingValue y0 x0,
        getPixel data width height missingValue y0 (x0 + 1),
        getPixel data width height missingValue (y0 + 1) x0,
        getPixel data width height missingValue (y0 + 1) (x0 + 1) with
  | some (v00, valid00), some (v01, valid01), some (v10, valid10), some (v11, valid11) =>
    some (blendCorners u v v00 valid00 v01 valid01 v10 valid10 v11 valid11)
  | _, _, _, _ => none

/-- Local type `DataPoint`; `distSq` is the square of the field `distance`. -/
structure DataPoint where
  value : ℚ
  distSq : ℚ

/-- The constant `radius := 3.0`. -/
def radius : ℚ := 3

/-- The values `-int(radius) .. int(radius)` of the two loop counters. -/
def radiusRange : List Int := [-3, -2, -1, 0, 1, 2, 3]

/-- The pairs `(dy, dx)` in the order the nested loops visit them. -/
def scanOffsets : List (Int × Int) :=
  radiusRange.flatMap (fun dy => radiusRange.map (fun dx => (dy, dx)))

/-- The nested loops of `gradientAdaptiveInterpolation` over the remaining
offsets, with `acc` the slice `validPoints` built so far. -/
def scanNeighbours (data : List ℚ) (x y : ℚ) (x0 y0 width height : Int)
    (missingValue : ℚ) : List (Int × Int) → List DataPoint → Option (List DataPoint)
  | [], acc => some acc
  | (dy, dx) :: rest, acc =>
    let nx := x0 + dx
    let ny := y0 + dy
    if nx < 0 ∨ nx ≥ width ∨ ny < 0 ∨ ny ≥ height then
      scanNeighbours data x y x0 y0 width height missingValue rest acc
    else
      match sliceAt data (ny * width + nx) with
      | none => none
      | some val =>
        if val ≠ missingValue then
          let px := (nx : ℚ) + 1 / 2
          let py := (ny : ℚ) + 1 / 2
          let distSq := (px - x) * (px - x) + (py - y) * (py - y)
          if distSq ≤ radius * radius then
            scanNeighbours data x y x0 y0 width height missingValue rest
              (acc ++ [{ value := val, distSq := distSq }])
          else
            scanNeighbours data x y x0 y0 width height missingValue rest acc
        else
          scanNeighbours data x y x0 y0 width height missingValue rest acc

/-- One iteration of the weighting loop on `(weightedSum, totalWeight)`. -/
def addPoint (acc : ℚ × ℚ) (point : DataPoint) : ℚ × ℚ :=
  let weight := 1 / (point.distSq + 1 / 1000)
  (acc.1 + point.value * weight, acc.2 + weight)

/-- Function `gradientAdaptiveInterpolation`. -/
def gradientAdaptiveInterpolation (data : List ℚ) (x y : ℚ) (x0 y0 width height : Int)
    (missingValue : ℚ) : Option ℚ :=
  match scanNeighbours data x y x0 y0 width height missingValue scanOffsets [] with
  | none => none
  | some validPoints =>
    match validPoints with
    | [] => some missingValue
    | [p] => some p.value
    | _ =>
      let acc := validPoints.foldl addPoint (0, 0)
      if acc.2 > 0 then some (acc.1 / acc.2) else some missingValue

/-- Function `adaptiveInterpolation`. -/
def adaptiveInterpolation (data : List ℚ) (x y : ℚ) (x0 y0 width height : Int)
    (missingValue : ℚ) (edgeMargin : Int) : Option ℚ :=
  let maxLeft := imin x0 edgeMargin
  let maxRight := imin (width - 1 - x0) edgeMargin
  let maxTop := imin y0 edgeMargin
  let maxBottom := imin (height - 1 - y0) edgeMargin
  if maxLeft ≥ 1 ∧ maxRight ≥ 2 ∧ maxTop ≥ 1 ∧ maxBottom ≥ 2 then
    if maxTop ≥ 1 ∧ maxBottom ≥ 1 ∧ maxLeft ≥ 1 ∧ maxRight ≥ 1 then
      match tryBilinearInterpolation data x y x0 y0 width height missingValue with
      | none => none
      | some (result, valid) =>
        if valid then some result
        else gradientAdaptiveInterpolation data x y x0 y0 width height missingValue
    else
      gradientAdaptiveInterpolation data x y x0 y0 width height missingValue
  else
    gradientAdaptiveInterpolation data x y x0 y0 width height missingValue

/-- The cubic-convolution weights `w0..w3` of lines 148-155 at offset `t`. -/
def cubicWeights (t : ℚ) : List ℚ :=
  let t2 := t * t
  let t3 := t2 * t
  [ (-(1 / 2) * t3) + t2 - ((1 / 2) * t),
    ((3 / 2) * t3) - ((5 / 2) * t2) + 1,
    (-(3 / 2) * t3) + (2 * t2) + ((1 / 2) * t),
    ((1 / 2) * t3) - ((1 / 2) * t2) ]

/-- The table `indices` of `(row, col)` pairs of the 4x4 window. -/
def windowIndices (x0 y0 : Int) : List (Int × Int) :=
  [ (y0 - 1, x0 - 1), (y0 - 1, x0), (y0 - 1, x0 + 1), (y0 - 1, x0 + 2),
    (y0, x0 - 1), (y0, x0), (y0, x0 + 1), (y0, x0 + 2),
    (y0 + 1, x0 - 1), (y0 + 1, x0), (y0 + 1, x0 + 1), (y0 + 1, x0 + 2),
    (y0 + 2, x0 - 1), (y0 + 2, x0), (y0 + 2, x0 + 1), (y0 + 2, x0 + 2) ]

/-- The reads `values[i] = data[row*width+col]` of the gathering loop. -/
def readWindow (data : List ℚ) (width : Int) : List (Int × Int) → Option (List ℚ)
  | [] => some []
  | (row, col) :: rest =>
    match sliceAt data (row * width + col) with
    | none => none
    | some val =>
      match readWindow data width rest with
      | none => none
      | some vals => some (val :: vals)

/-- The slice `weights`: `wx_j * wy_i` in row-major order. -/
def windowWeights (wx wy : List ℚ) : List ℚ :=
  wy.flatMap (fun wyi => wx.map (fun wxj => wxj * wyi))

/-- The loop `result += values[i] * weights[i]` from `result := 0.0`. -/
def weightedTotal (values weights : List ℚ) : ℚ :=
  (List.zipWith (fun a b => a * b) values weights).foldl (fun acc t => acc + t) 0

/-- Lines 130-193 of `GetInterpolatedData`: the sampler at the clamped
fractional grid coordinates `(x, y)`. -/
def sampleGrid (data : List ℚ) (x y : ℚ) (width height : Int) (missingValue : ℚ) :
    Option ℚ :=
  let x0 : Int := ⌊x⌋
  let y0 : Int := ⌊y⌋
  let u := x - (x0 : ℚ)
  let v := y - (y0 : ℚ)
  let edgeMargin : Int := 3
  if x0 < edgeMargin ∨ x0 ≥ width - (edgeMargin + 1) ∨ y0 < edgeMargin
      ∨ y0 ≥ height - (edgeMargin + 1) then
    adaptiveInterpolation data x y x0 y0 width height missingValue edgeMargin
  else
    match readWindow data width (windowIndices x0 y0) with
    | none => none
    | some values =>
      if values.any (fun val => decide (val = missingValue)) then
        adaptiveInterpolation data x y x0 y0 width height missingValue edgeMargin
      else
        some (weightedTotal values (windowWeights (cubicWeights u) (cubicWeights v)))

/-- The clamp of lines 117-122 (and 123-128) against a dimension `n`. -/
def clampCoord (t : ℚ) (n : Int) : ℚ :=
  let t := if t < 0 then 0 else t
  if t ≥ ((n - 1 : Int) : ℚ) then (n : ℚ) - 1001 / 1000 else t

/-- The envelope test of line 102, on the wrapped longitude. -/
def outsideEnvelope (g : GRIBFile) (lat lng : ℚ) : Prop :=
  lat < min g.Header.La1 g.Header.La2 ∨ lat > max g.Header.La1 g.Header.La2
    ∨ lng < min (normLo1 g.Header.Lo1) g.Header.Lo2
    ∨ lng > max (normLo1 g.Header.Lo1) g.Header.Lo2

instance (g : GRIBFile) (lat lng : ℚ) : Decidable (outsideEnvelope g lat lng) := by
  unfold outsideEnvelope; infer_instance

/-- Lines 107-128: the clamped fractional column `x` of a wrapped longitude. -/
def gridX (g : GRIBFile) (lng : ℚ) : ℚ :=
  clampCoord ((lng - normLo1 g.Header.Lo1) / g.Header.DX) g.Header.Nx

/-- Lines 107-128: the clamped fractional row `y` of a latitude. -/
def gridY (g : GRIBFile) (lat : ℚ) : ℚ :=
  let absDy := |g.Header.DY|
  let y := if g.Header.La1 < g.Header.La2 then (lat - g.Header.La1) / absDy
           else (g.Header.La1 - lat) / absDy
  clampCoord y g.Header.Ny

/-- Method `GRIBFile.GetInterpolatedData`. -/
def GetInterpolatedData (g : GRIBFile) (lat lng : ℚ) : Option ℚ :=
  let lng := wrapLng lng
  if outsideEnvelope g lat lng then
    some g.Header.MissingValue
  else
    sampleGrid g.DataValues (gridX g lng) (gridY g lat) g.Header.Nx g.Header.Ny
      g.Header.MissingValue

/-! ### Specification-side vocabulary of the sampler -/

/-- A cell counts as usable when it is inside the grid and its sample is not
the sentinel `missingValue`. -/
def cornerValid (data : List ℚ) (width height : Int) (missingValue : ℚ)
    (row col : Int) : Prop :=
  0 ≤ row ∧ row < height ∧ 0 ≤ col ∧ col < width
    ∧ sliceAt data (row * width + col) ≠ some missingValue

instance (data : List ℚ) (width height : Int) (missingValue : ℚ) (row col : Int) :
    Decidable (cornerValid data width height missingValue row col) := by
  unfold cornerValid; infer_instance

/-- The sample stored for cell `(row, col)` (`0` when the cell is not stored). -/
def cellValue (data : List ℚ) (width : Int) (row col : Int) : ℚ :=
  (sliceAt data (row * width + col)).getD 0

/-- The weights `w0..w3` as the specification writes them. -/
def specCubic (k : Fin 4) (t : ℚ) : ℚ :=
  match k with
  | 0 => -(1 / 2) * t ^ 3 + t ^ 2 - (1 / 2) * t
  | 1 => (3 / 2) * t ^ 3 - (5 / 2) * t ^ 2 + 1
  | 2 => -(3 / 2) * t ^ 3 + 2 * t ^ 2 + (1 / 2) * t
  | 3 => (1 / 2) * t ^ 3 - (1 / 2) * t ^ 2

/-- The cubic-convolution sum of the specification over the 4x4 window
around the floor cell `(x0, y0)`: `Σ value[i][j] * wx[j] * wy[i]`. -/
def cubicConvolution (data : List ℚ) (width : Int) (x0 y0 : Int) (u v : ℚ) : ℚ :=
  ∑ i : Fin 4, ∑ j : Fin 4,
    cellValue data width (y0 - 1 + (i.val : Int)) (x0 - 1 + (j.val : Int))
      * specCubic j u * specCubic i v

/-- The four corners `(row, col, weight)` of the bilinear recovery with the
weights `(1-u)(1-v)`, `u(1-v)`, `(1-u)v`, `uv`. -/
def bilinearCorners (x y : ℚ) (x0 y0 : Int) : List (Int × Int × ℚ) :=
  let u := x - (x0 : ℚ)
  let v := y - (y0 : ℚ)
  [ (y0, x0, (1 - u) * (1 - v)), (y0, x0 + 1, u * (1 - v)),
    (y0 + 1, x0, (1 - u) * v), (y0 + 1, x0 + 1, u * v) ]

/-- The usable corners of the bilinear recovery. -/
def validCorners (data : List ℚ) (x y : ℚ) (x0 y0 width height : Int)
    (missingValue : ℚ) : List (Int × Int × ℚ) :=
  (bilinearCorners x y x0 y0).filter
    (fun c => decide (cornerValid data width height missingValue c.1 c.2.1))

/-- Sum of the weights of the usable corners. -/
def validWeight (data : List ℚ) (x y : ℚ) (x0 y0 width height : Int)
    (missingValue : ℚ) : ℚ :=
  ((validCorners data x y x0 y0 width height missingValue).map (fun c => c.2.2)).sum

/-- Weighted sum over the usable corners divided by the sum of their weights. -/
def renormalisedBlend (data : List ℚ) (x y : ℚ) (x0 y0 width height : Int)
    (missingValue : ℚ) : ℚ :=
  ((validCorners data x y x0 y0 width height missingValue).map
      (fun c => cellValue data width c.1 c.2.1 * c.2.2)).sum
    / validWeight data x y x0 y0 width height missingValue

/-- A value `val` is a usable sample of the 7x7 neighbourhood of `(x0, y0)`: it
is stored in an in-bounds cell at most 3 rows and 3 columns away whose sample
is not `missingValue`. -/
def neighbourSample (data : List ℚ) (width height : Int) (missingValue : ℚ)
    (x0 y0 : Int) (val : ℚ) : Prop :=
  ∃ d ∈ scanOffsets, cornerValid data width height missingValue (y0 + d.1) (x0 + d.2)
    ∧ val = cellValue data width (y0 + d.1) (x0 + d.2)

/-- A usable neighbour of the query point `(x, y)` with floor cell `(x0, y0)`:
an in-bounds cell of the 7x7 neighbourhood of `(x0, y0)` whose sample is not
`missingValue` and whose centre `(col + 0.5, row + 0.5)` is within the radius 3
of `(x, y)`, so that `gradientAdaptiveInterpolation` collects it. -/
def usableNeighbour (data : List ℚ) (width height : Int) (missingValue : ℚ) (x y : ℚ)
    (x0 y0 : Int) : Prop :=
  ∃ d ∈ scanOffsets, cornerValid data width height missingValue (y0 + d.1) (x0 + d.2)
    ∧ (((x0 + d.2 : Int) : ℚ) + 1 / 2 - x) * (((x0 + d.2 : Int) : ℚ) + 1 / 2 - x)
        + (((y0 + d.1 : Int) : ℚ) + 1 / 2 - y) * (((y0 + d.1 : Int) : ℚ) + 1 / 2 - y)
      ≤ radius * radius

instance (data : List ℚ) (width height : Int) (missingValue : ℚ) (x y : ℚ) (x0 y0 : Int) :
    Decidable (usableNeighbour data width height missingValue x y x0 y0) := by
  unfold usableNeighbour; infer_instance

/-- A 3x3 grid with a gap at the centre. -/
def gapGrid : List ℚ := [1, 2, 3, 4, 9999, 6, 7, 8, 9]

/-! ### Concrete fields -/

/-- An 8x8 field of constant 7 whose columns run from longitude 178 to 185. -/
def wrapField : GRIBFile :=
  ⟨⟨8, 8, 0, 7, 178, 185, 1, 1, 9999⟩, List.replicate 64 7⟩

/-- An 8x8 field of constant 7 on longitudes 0..7 and latitudes 0..7. -/
def plainField : GRIBFile :=
  ⟨⟨8, 8, 0, 7, 0, 7, 1, 1, 9999⟩, List.replicate 64 7⟩

/-- An 8x9 field whose sample in column `c` is `c^2`. -/
def squareField : GRIBFile :=
  ⟨⟨8, 9, 0, 8, 0, 7, 1, 1, 9999⟩,
    (List.replicate 9 [0, 1, 4, 9, 16, 25, 36, 49]).flatten⟩

/-- A 9x10 field whose sample in column `c` is `c^2`. -/
def squareFieldWide : GRIBFile :=
  ⟨⟨9, 10, 0, 9, 0, 8, 1, 1, 9999⟩,
    (List.replicate 10 [0, 1, 4, 9, 16, 25, 36, 49, 64]).flatten⟩

/-- A 9x9 field that is missing everywhere except one sample 7 at row 4,
column 2. -/
def loneSampleField : GRIBFile :=
  ⟨⟨9, 9, 0, 8, 0, 8, 1, 1, 9999⟩,
    List.replicate 38 9999 ++ [7] ++ List.replicate 42 9999⟩

/-- A 9x9 field that is missing everywhere. -/
def emptyField : GRIBFile :=
  ⟨⟨9, 9, 0, 8, 0, 8, 1, 1, 9999⟩, List.replicate 81 9999⟩

/-- The 4x4 field of the end-to-end scenario: `la1=10, la2=7, lo1=0, lo2=3`,
all samples 5 except the interior cell (1, 1). -/
def scenarioField : GRIBFile :=
  ⟨⟨4, 4, 10, 7, 0, 3, 1, -1, 9999⟩,
    [5, 5, 5, 5, 5, 9999, 5, 5, 5, 5, 5, 5, 5, 5, 5, 5]⟩

/-- A 2x2 grid whose first sample is missing. -/
def cornerGrid : List ℚ := [9999, 1, 2, 3]

end Grib2

namespace Binary64

/-! ### The sampler in binary64 arithmetic

The functions of `src/parser/grib2.go` once more, now with every `float64`
operation rounded: a `float64` is the rational it denotes, and `a + b`, `a - b`,
`a * b`, `a / b`, `float64(n)` and `math.Sqrt` return the exact result rounded
to the nearest binary64 value, ties to even, each operation on its own (no
fused multiply-add, as on amd64).  Infinities, NaN and the sign of zero are
outside the model: the values of the theorems below stay far from overflow. -/

open Grib2 (GRIBFile sliceAt imin getPixel validCount windowIndices readWindow scanOffsets)

/-- The power `2^e` for an integer exponent `e`. -/
def pow2 (e : Int) : ℚ :=
  if 0 ≤ e then ((2 ^ e.toNat : Nat) : ℚ) else 1 / ((2 ^ (-e).toNat : Nat) : ℚ)

/-- Halving `n` until it is below 2, at most `fuel` times: the number of
halvings. -/
def log2Aux : Nat → Nat → Nat
  | 0, _ => 0
  | fuel + 1, n => if n ≥ 2 then log2Aux fuel (n / 2) + 1 else 0

/-- The binary logarithm `⌊log₂ n⌋` of a positive natural number. -/
def log2 (n : Nat) : Nat :=
  log2Aux n n

/-- The binary exponent of a non-zero rational: the `e` with
`2^e ≤ |x| < 2^(e+1)`. -/
def binExp (x : ℚ) : Int :=
  let e0 : Int := (log2 x.num.natAbs : Int) - (log2 x.den : Int)
  if pow2 e0 ≤ |x| then e0 else e0 - 1

/-- Rounding to the nearest integer, a tie going to the even neighbour. -/
def roundHalfEven (q : ℚ) : Int :=
  let f : Int := ⌊q⌋
  let r : ℚ := q - (f : ℚ)
  if r < 1 / 2 then f else if 1 / 2 < r then f + 1 else if f % 2 = 0 then f else f + 1

/-- The binary64 value of a real result under the default rounding of IEEE 754
(to nearest, ties to even): 53 significant bits, least exponent `-1022` with
gradual underflow. -/
def nearest (x : ℚ) : ℚ :=
  if x = 0 then 0
  else
    let e := max (binExp x) (-1022)
    (roundHalfEven (x / pow2 (e - 52)) : ℚ) * pow2 (e - 52)

/-- Go `a + b` on `float64`. -/
def add (a b : ℚ) : ℚ := nearest (a + b)

/-- Go `a - b` on `float64`. -/
def sub (a b : ℚ) : ℚ := nearest (a - b)

/-- Go `a * b` on `float64`. -/
def mul (a b : ℚ) : ℚ := nearest (a * b)

/-- Go `a / b` on `float64`, for `b ≠ 0`. -/
def div (a b : ℚ) : ℚ := nearest (a / b)

/-- Go conversion `float64(n)` of an `int`. -/
def ofInt (n : Int) : ℚ := nearest (n : ℚ)

/-- The digits of an integer square root, from bit `k - 1` down to bit 0. -/
def isqrtAux (n : Nat) : Nat → Nat → Nat
  | 0, r => r
  | k + 1, r => if (r + 2 ^ k) * (r + 2 ^ k) ≤ n then isqrtAux n k (r + 2 ^ k) else isqrtAux n k r

/-- The integer square root `⌊√n⌋`. -/
def isqrt (n : Nat) : Nat :=
  isqrtAux n (log2 n / 2 + 1) 0

/-- Go `math.Sqrt(x)` for `x ≥ 0`: the square root rounded to binary64. -/
def Sqrt (x : ℚ) : ℚ :=
  if x ≤ 0 then 0
  else
    let e : Int := binExp x / 2
    let k : ℚ := x / pow2 (2 * (e - 52))
    let m : Nat := isqrt (⌊k⌋).toNat
    let half : ℚ := ((m : ℚ) + 1 / 2) * ((m : ℚ) + 1 / 2)
    let r : Nat := if k < half then m else if half < k then m + 1
      else if m % 2 = 0 then m else m + 1
    (r : ℚ) * pow2 (e - 52)

/-- The constant `1.001` of lines 121 and 127 as a `float64`. -/
def c1001 : ℚ := nearest (1001 / 1000)

/-- The constant `0.001` of line 332 as a `float64`. -/
def c0001 : ℚ := nearest (1 / 1000)

/-- The normalisation `if lo1 > 180 { lo1 -= 360 }`. -/
def normLo1 (lo1 : ℚ) : ℚ :=
  if lo1 > 180 then sub lo1 360 else lo1

/-- The wrap `if lng > 180 { lng -= 360 } else if lng < -180 { lng += 360 }`. -/
def wrapLng (lng : ℚ) : ℚ :=
  if lng > 180 then sub lng 360 else if lng < -180 then add lng 360 else lng

/-- Method `GRIBFile.GetLatLng`. -/
def GetLatLng (g : GRIBFile) (x y : Int) : ℚ × ℚ :=
  if x < 0 ∨ x ≥ g.Header.Nx ∨ y < 0 ∨ y ≥ g.Header.Ny then
    (9999, 9999)
  else
    let lo1 := normLo1 g.Header.Lo1
    let lat := add g.Header.La1 (mul (ofInt y) g.Header.DY)
    let lng := add lo1 (mul (ofInt x) g.Header.DX)
    (lat, lng)

/-- One `if valid { weight := w; result += v*weight; totalWeight += weight }`
block, on the pair `(result, totalWeight)`. -/
def addCorner (valid : Bool) (v weight : ℚ) (acc : ℚ × ℚ) : ℚ × ℚ :=
  if valid then (add acc.1 (mul v weight), add acc.2 weight) else acc

/-- Lines 232-282 of `tryBilinearInterpolation`: the blend of the four corner
reads `(v, valid)` at offsets `u`, `v`. -/
def blendCorners (u v : ℚ) (v00 : ℚ) (valid00 : Bool) (v01 : ℚ) (valid01 : Bool)
    (v10 : ℚ) (valid10 : Bool) (v11 : ℚ) (valid11 : Bool) : ℚ × Bool :=
  let n := validCount valid00 valid01 valid10 valid11
  if n < 2 then
    (0, false)
  else if n = 4 then
    (add (add (add (mul (mul v00 (sub 1 u)) (sub 1 v)) (mul (mul v01 u) (sub 1 v)))
        (mul (mul v10 (sub 1 u)) v)) (mul (mul v11 u) v), true)
  else
    let acc := addCorner valid11 v11 (mul u v)
      (addCorner valid10 v10 (mul (sub 1 u) v)
        (addCorner valid01 v01 (mul u (sub 1 v))
          (addCorner valid00 v00 (mul (sub 1 u) (sub 1 v)) (0, 0))))
    if acc.2 > 0 then (div acc.1 acc.2, true) else (0, false)

/-- Function `tryBilinearInterpolation`. -/
def tryBilinearInterpolation (data : List ℚ) (x y : ℚ) (x0 y0 width height : Int)
    (missingValue : ℚ) : Option (ℚ × Bool) :=
  let u := sub x (ofInt x0)
  let v := sub y (ofInt y0)
  match getPixel data width height missingValue y0 x0,
        getPixel data width height missingValue y0 (x0 + 1),
        getPixel data width height missingValue (y0 + 1) x0,
        getPixel data width height missingValue (y0 + 1) (x0 + 1) with
  | some (v00, valid00), some (v01, valid01), some (v10, valid10), some (v11, valid11) =>
    some (blendCorners u v v00 valid00 v01 valid01 v10 valid10 v11 valid11)
  | _, _, _, _ => none

/-- Local type `DataPoint`. -/
structure DataPoint where
  value : ℚ
  distance : ℚ

/-- The nested loops of `gradientAdaptiveInterpolation` over the remaining
offsets, with `acc` the slice `validPoints` built so far. -/
def scanNeighbours (data : List ℚ) (x y : ℚ) (x0 y0 width height : Int)
    (missingValue : ℚ) : List (Int × Int) → List DataPoint → Option (List DataPoint)
  | [], acc => some acc
  | (dy, dx) :: rest, acc =>
    let nx := x0 + dx
    let ny := y0 + dy
    if nx < 0 ∨ nx ≥ width ∨ ny < 0 ∨ ny ≥ height then
      scanNeighbours data x y x0 y0 width height missingValue rest acc
    else
      match sliceAt data (ny * width + nx) with
      | none => none
      | some val =>
        if val ≠ missingValue then
          let px := add (ofInt nx) (1 / 2)
          let py := add (ofInt ny) (1 / 2)
          let dist := Sqrt (add (mul (sub px x) (sub px x)) (mul (sub py y) (sub py y)))
          if dist ≤ 3 then
            scanNeighbours data x y x0 y0 width height missingValue rest
              (acc ++ [{ value := val, distance := dist }])
          else
            scanNeighbours data x y x0 y0 width height missingValue rest acc
        else
          scanNeighbours data x y x0 y0 width height missingValue rest acc

/-- One iteration of the weighting loop on `(weightedSum, totalWeight)`. -/
def addPoint (acc : ℚ × ℚ) (point : DataPoint) : ℚ × ℚ :=
  let weight := div 1 (add (mul point.distance point.distance) c0001)
  (add acc.1 (mul point.value weight), add acc.2 weight)

/-- Function `gradientAdaptiveInterpolation`. -/
def gradientAdaptiveInterpolation (data : List ℚ) (x y : ℚ) (x0 y0 width height : Int)
    (missingValue : ℚ) : Option ℚ :=
  match scanNeighbours data x y x0 y0 width height missingValue scanOffsets [] with
  | none => none
  | some validPoints =>
    match validPoints with
    | [] => some missingValue
    | [p] => some p.value
    | _ =>
      let acc := validPoints.foldl addPoint (0, 0)
      if acc.2 > 0 then some (div acc.1 acc.2) else some missingValue

/-- Function `adaptiveInterpolation`. -/
def adaptiveInterpolation (data : List ℚ) (x y : ℚ) (x0 y0 width height : Int)
    (missingValue : ℚ) (edgeMargin : Int) : Option ℚ :=
  let maxLeft := imin x0 edgeMargin
  let maxRight := imin (width - 1 - x0) edgeMargin
  let maxTop := imin y0 edgeMargin
  let maxBottom := imin (height - 1 - y0) edgeMargin
  if maxLeft ≥ 1 ∧ maxRight ≥ 2 ∧ maxTop ≥ 1 ∧ maxBottom ≥ 2 then
    if maxTop ≥ 1 ∧ maxBottom ≥ 1 ∧ maxLeft ≥ 1 ∧ maxRight ≥ 1 then
      match tryBilinearInterpolation data x y x0 y0 width height missingValue with
      | none => none
      | some (result, valid) =>
        if valid then some result
        else gradientAdaptiveInterpolation data x y x0 y0 width height missingValue
    else
      gradientAdaptiveInterpolation data x y x0 y0 width height missingValue
  else
    gradientAdaptiveInterpolation data x y x0 y0 width height missingValue

/-- The cubic-convolution weights `w0..w3` of lines 143-155 at offset `t`. -/
def cubicWeights (t : ℚ) : List ℚ :=
  let t2 := mul t t
  let t3 := mul t2 t
  [ sub (add (mul (-(1 / 2)) t3) t2) (mul (1 / 2) t),
    add (sub (mul (3 / 2) t3) (mul (5 / 2) t2)) 1,
    add (add (mul (-(3 / 2)) t3) (mul 2 t2)) (mul (1 / 2) t),
    sub (mul (1 / 2) t3) (mul (1 / 2) t2) ]

/-- The slice `weights`: `wx_j * wy_i` in row-major order. -/
def windowWeights (wx wy : List ℚ) : List ℚ :=
  wy.flatMap (fun wyi => wx.map (fun wxj => mul wxj wyi))

/-- The loop `result += values[i] * weights[i]` from `result := 0.0`. -/
def weightedTotal (values weights : List ℚ) : ℚ :=
  (List.zipWith (fun a b => mul a b) values weights).foldl (fun acc t => add acc t) 0

/-- Lines 130-193 of `GetInterpolatedData`: the sampler at the clamped
fractional grid coordinates `(x, y)`. -/
def sampleGrid (data : List ℚ) (x y : ℚ) (width height : Int) (missingValue : ℚ) :
    Option ℚ :=
  let x0 : Int := ⌊x⌋
  let y0 : Int := ⌊y⌋
  let u := sub x (ofInt x0)
  let v := sub y (ofInt y0)
  let edgeMargin : Int := 3
  if x0 < edgeMargin ∨ x0 ≥ width - (edgeMargin + 1) ∨ y0 < edgeMargin
      ∨ y0 ≥ height - (edgeMargin + 1) then
    adaptiveInterpolation data x y x0 y0 width height missingValue edgeMargin
  else
    match readWindow data width (windowIndices x0 y0) with
    | none => none
    | some values =>
      if values.any (fun val => decide (val = missingValue)) then
        adaptiveInterpolation data x y x0 y0 width height missingValue edgeMargin
      else
        some (weightedTotal values (windowWeights (cubicWeights u) (cubicWeights v)))

/-- The clamp of lines 117-122 (and 123-128) against a dimension `n`. -/
def clampCoord (t : ℚ) (n : Int) : ℚ :=
  let t := if t < 0 then 0 else t
  if t ≥ ofInt (n - 1) then sub (ofInt n) c1001 else t

/-- The envelope test of line 102, on the wrapped longitude. -/
def outsideEnvelope (g : GRIBFile) (lat lng : ℚ) : Prop :=
  lat < min g.Header.La1 g.Header.La2 ∨ lat > max g.Header.La1 g.Header.La2
    ∨ lng < min (normLo1 g.Header.Lo1) g.Header.Lo2
    ∨ lng > max (normLo1 g.Header.Lo1) g.Header.Lo2

instance (g : GRIBFile) (lat lng : ℚ) : Decidable (outsideEnvelope g lat lng) := by
  unfold outsideEnvelope; infer_instance

/-- Lines 107-128: the clamped fractional column `x` of a wrapped longitude. -/
def gridX (g : GRIBFile) (lng : ℚ) : ℚ :=
  clampCoord (div (sub lng (normLo1 g.Header.Lo1)) g.Header.DX) g.Header.Nx

/-- Lines 107-128: the clamped fractional row `y` of a latitude. -/
def gridY (g : GRIBFile) (lat : ℚ) : ℚ :=
  let absDy := |g.Header.DY|
  let y := if g.Header.La1 < g.Header.La2 then div (sub lat g.Header.La1) absDy
           else div (sub g.Header.La1 lat) absDy
  clampCoord y g.Header.Ny

/-- Method `GRIBFile.GetInterpolatedData`. -/
def GetInterpolatedData (g : GRIBFile) (lat lng : ℚ) : Option ℚ :=
  let lng := wrapLng lng
  if outsideEnvelope g lat lng then
    some g.Header.MissingValue
  else
    sampleGrid g.DataValues (gridX g lng) (gridY g lat) g.Header.Nx g.Header.Ny
      g.Header.MissingValue

/-- A 9x9 field with longitude spacing `0.1` (as a `float64`) whose sample in
column `c` is `c^2`. -/
def tenthField : GRIBFile :=
  ⟨⟨9, 9, 0, 8, 0, 8 * nearest (1 / 10), nearest (1 / 10), 1, 9999⟩,
    (List.replicate 9 [0, 1, 4, 9, 16, 25, 36, 49, 64]).flatten⟩

end Binary64

namespace Colormap

/-- Go `color.RGBA`; the channels are `uint8` values. -/
structure RGBA where
  R : Nat
  G : Nat
  B : Nat
  A : Nat
  deriving DecidableEq

/-- Go `ColorMapEntry`; the threshold is a rational or `⊥` for `-inf`. -/
structure ColorMapEntry where
  ValueThreshold : WithBot ℚ
  Color : RGBA

/-- The package variable `defaultColor`. -/
def defaultColor : RGBA := ⟨13, 26, 43, 255⟩

/-- Function `GetColor`, with the package variable `colorMap` as a parameter.
The loop `for i := len(colorMap) - 1; i >= 0; i--` returns at the first hit
of the table read backwards. -/
def GetColor (colorMap : List ColorMapEntry) (value : ℚ) : RGBA :=
  if value ≤ 0 then
    defaultColor
  else
    match colorMap.reverse.find? (fun e => decide (e.ValueThreshold ≤ (value : WithBot ℚ))) with
    | some e => e.Color
    | none =>
      match colorMap with
      | e :: _ => e.Color
      | [] => defaultColor

/-- Colours of the example tables. -/
def blue : RGBA := ⟨0, 0, 255, 255⟩

/-- Colours of the example tables. -/
def red : RGBA := ⟨255, 0, 0, 255⟩

/-- The two-entry table of the end-to-end scenario, `[(-inf, blue), (5, red)]`. -/
def scenarioTable : List ColorMapEntry := [⟨⊥, blue⟩, ⟨(5 : ℚ), red⟩]

/-- A table loaded in decreasing threshold order. -/
def descendingTable : List ColorMapEntry := [⟨(5 : ℚ), red⟩, ⟨(1 : ℚ), blue⟩]

/-- A table with a single negative threshold. -/
def negativeTable : List ColorMapEntry := [⟨((-5 : ℚ) : WithBot ℚ), blue⟩]

end Colormap

namespace Render

/-- Go conversion `int(f)` of a float: truncation toward zero. -/
def truncToInt (q : ℚ) : Int :=
  if 0 ≤ q then ⌊q⌋ else ⌈q⌉

/-- The latitude limit `85.05112878`. -/
def maxLat : ℚ := 8505112878 / 100000000

/-- Function `LatLonToTile`.  The parameter `mercatorFraction` stands for
`lat ↦ (1.0 - math.Log(math.Tan(latRad) + 1.0/math.Cos(latRad))/math.Pi) / 2.0`
with `latRad = lat * math.Pi / 180.0`, which has no rational value. -/
def LatLonToTile (mercatorFraction : ℚ → ℚ) (lat lon : ℚ) (zoom : Int) : Int × Int :=
  let lat := if lat < -maxLat then -maxLat else if lat > maxLat then maxLat else lat
  let lon := if lon < -180 then -180 else if lon > 180 then 180 else lon
  let n : ℚ := (2 : ℚ) ^ zoom
  let x : Int := ⌊(lon + 180) / 360 * n⌋
  let x := if x ≥ truncToInt n then truncToInt n - 1 else x
  let y : Int := ⌊mercatorFraction lat * n⌋
  let y := if y < 0 then 0 else if y ≥ truncToInt n then truncToInt n - 1 else y
  (x, y)

end Render

namespace Colormap

/-- Go conversion `uint8(n)` of an `int`: the value modulo 256. -/
def uint8 (n : Int) : Nat :=
  (n % 256).toNat

/-- The greatest `int` of the 64-bit targets of the program, `2^63 - 1`. -/
def maxInt : Int := 9223372036854775807

/-- The least `int` of the 64-bit targets of the program, `-2^63`. -/
def minInt : Int := -9223372036854775808

/-- The value `v` of `v, _ := strconv.Atoi(field)` for a field that is the
decimal numeral (with an optional sign) of the integer `n`: `n` itself when it
fits an `int`; otherwise `Atoi` reports a range error, which `Load` discards,
and returns the nearest bound of the type, `2^63 - 1` or `-2^63`. -/
def Atoi (n : Int) : Int :=
  if n > maxInt then maxInt else if n < minInt then minInt else n

/-- The entry `Load` appends (lines 54-67) for a line whose threshold field
parsed to `threshold` and whose channel fields are the decimal numerals of the
integers `r`, `g`, `b`, `a`: each is parsed with `strconv.Atoi`, the error
dropped, and converted with `uint8(..)`. -/
def loadEntry (threshold : WithBot ℚ) (r g b a : Int) : ColorMapEntry :=
  ⟨threshold, ⟨uint8 (Atoi r), uint8 (Atoi g), uint8 (Atoi b), uint8 (Atoi a)⟩⟩

/-- Clamping to the byte range as the specification words it:
`min(max(n, 0), 255)`. -/
def clampByte (n : Int) : Nat :=
  (min (max n 0) 255).toNat

end Colormap

namespace Render

/-- The array `Config.Bounds`: `[minLat, minLon, maxLat, maxLon]`. -/
structure Bounds where
  b0 : ℚ
  b1 : ℚ
  b2 : ℚ
  b3 : ℚ

/-- The fields of `config.Config` that enumeration reads. -/
structure Config where
  MinZoom : Int
  MaxZoom : Int
  NumWorkers : Int
  Bounds : Bounds

/-- Go `TileJob`: `Z` is a `uint8`, `X` and `Y` are `uint32` values. -/
structure TileJob where
  Z : Nat
  X : Nat
  Y : Nat
  deriving DecidableEq

/-- Go `TileResult`; `Data` holds the encoded bytes. -/
structure TileResult where
  Z : Nat
  X : Nat
  Y : Nat
  Data : List Nat
  deriving DecidableEq

/-- Go conversion `uint8(z)` of an `int`. -/
def uint8 (z : Int) : Nat :=
  (z % 256).toNat

/-- Go conversion `uint32(x)` of an `int`. -/
def uint32 (x : Int) : Nat :=
  (x % 4294967296).toNat

/-- Function `computeBoundsFromGRIB`: the value assigned to `config.Bounds`. -/
def computeBoundsFromGRIB (gribFile : Grib2.GRIBFile) : Bounds :=
  let la1 := gribFile.Header.La1
  let la2 := gribFile.Header.La2
  let lo1 := gribFile.Header.Lo1
  let lo2 := gribFile.Header.Lo2
  let dx := gribFile.Header.DX
  let dy := gribFile.Header.DY
  let lo1 := if lo1 > 180 then lo1 - 360 else lo1
  let gribMinLat := min la1 la2
  let gribMaxLat := max la1 la2
  let gribMinLon := min lo1 lo2
  let gribMaxLon := max lo1 lo2
  let latBuffer := |dy|
  let lonBuffer := |dx|
  ⟨gribMinLat - latBuffer, gribMinLon - lonBuffer, gribMaxLat + latBuffer,
    gribMaxLon + lonBuffer⟩

/-- Lines 152-160 (and 232-240) of `generateTiles`: the tile range
`(minX, maxX, minY, maxY)` of zoom `z` after the two swaps. -/
def tileRange (mercatorFraction : ℚ → ℚ) (cfg : Config) (z : Int) : Int × Int × Int × Int :=
  let lo := LatLonToTile mercatorFraction cfg.Bounds.b0 cfg.Bounds.b1 z
  let hi := LatLonToTile mercatorFraction cfg.Bounds.b2 cfg.Bounds.b3 z
  let minX := lo.1
  let minY := lo.2
  let maxX := hi.1
  let maxY := hi.2
  let xs := if minX > maxX then (maxX, minX) else (minX, maxX)
  let ys := if minY > maxY then (maxY, minY) else (minY, maxY)
  (xs.1, xs.2, ys.1, ys.2)

/-- The values a loop `for i := lo; i <= hi; i++` visits, in order. -/
def intRange (lo hi : Int) : List Int :=
  (List.range (hi + 1 - lo).toNat).map (fun (k : Nat) => lo + (k : Int))

/-- The result of a 64-bit signed operation (`int` on the 64-bit targets of the
program, `int64`): the mathematical result reduced modulo `2^64` into
`[-2^63, 2^63)`. -/
def wrapInt64 (n : Int) : Int :=
  (n + 9223372036854775808) % 18446744073709551616 - 9223372036854775808

/-- The number of tiles of the range of zoom `z` as a mathematical integer:
`(maxX - minX + 1) * (maxY - minY + 1)` without the 64-bit reduction. -/
def tileCount (mercatorFraction : ℚ → ℚ) (cfg : Config) (z : Int) : Int :=
  let r := tileRange mercatorFraction cfg z
  (r.2.1 - r.1 + 1) * (r.2.2.2 - r.2.2.1 + 1)

/-- Line 162: `tilesAtZoom := int64((maxX - minX + 1) * (maxY - minY + 1))` for
zoom `z`; the product is a 64-bit `int` multiplication. -/
def tilesAtZoom (mercatorFraction : ℚ → ℚ) (cfg : Config) (z : Int) : Int :=
  let r := tileRange mercatorFraction cfg z
  wrapInt64 ((r.2.1 - r.1 + 1) * (r.2.2.2 - r.2.2.1 + 1))

/-- Lines 150-164: the total `totalTiles` computed before rendering, an `int64`
accumulated with `totalTiles += tilesAtZoom`. -/
def totalTiles (mercatorFraction : ℚ → ℚ) (cfg : Config) : Int :=
  (intRange cfg.MinZoom cfg.MaxZoom).foldl
    (fun acc z => wrapInt64 (acc + tilesAtZoom mercatorFraction cfg z)) 0

/-- Lines 231-256: the loop coordinates `(z, x, y)` of the sends to `jobQueue`,
in the order of the three nested loops. -/
def enumerateCoords (mercatorFraction : ℚ → ℚ) (cfg : Config) : List (Int × Int × Int) :=
  (intRange cfg.MinZoom cfg.MaxZoom).flatMap (fun z =>
    let r := tileRange mercatorFraction cfg z
    (intRange r.1 r.2.1).flatMap (fun x =>
      (intRange r.2.2.1 r.2.2.2).map (fun y => (z, x, y))))

/-- Lines 249-253: the job `TileJob{Z: uint8(z), X: uint32(x), Y: uint32(y)}`. -/
def makeJob (c : Int × Int × Int) : TileJob :=
  ⟨uint8 c.1, uint32 c.2.1, uint32 c.2.2⟩

/-- The jobs sent to `jobQueue`, in order. -/
def enumerateJobs (mercatorFraction : ℚ → ℚ) (cfg : Config) : List TileJob :=
  (enumerateCoords mercatorFraction cfg).map makeJob

/-- Line 221: `tmsY := (1 << result.Z) - 1 - result.Y`, computed in `uint32`
(the untyped constant 1 takes the type of `result.Y`). -/
def tmsY (result : TileResult) : Nat :=
  ((((2 : Int) ^ result.Z % 4294967296 - 1) % 4294967296 - (result.Y : Int))
    % 4294967296).toNat

/-- The value of `mercatorFraction` on the equator: at `lat = 0` the projection
`(1 - ln(tan 0 + 1/cos 0)/π)/2` is exactly `1/2`. -/
def equatorFraction : ℚ → ℚ :=
  fun _ => 1 / 2

/-- A one-point bounding box on the equator at longitude 179.9999, zoom 33. -/
def deepZoomConfig : Config :=
  ⟨33, 33, 1, ⟨0, 1799999 / 10000, 0, 1799999 / 10000⟩⟩

/-- The full world at zoom levels 0 to 2. -/
def worldConfig : Config :=
  ⟨0, 2, 1, ⟨0, -180, 0, 180⟩⟩

/-- A field on longitudes 0..20 and latitudes 0..10 with one-degree spacing. -/
def boxField : Grib2.GRIBFile :=
  ⟨⟨21, 11, 0, 10, 0, 20, 1, 1, 9999⟩, List.replicate 231 1⟩

end Render

namespace Render

/-! ### The worker pool of `generateTiles` as a transition system

The goroutines of `generateTiles` (lines 126-274, after `db.Prepare` succeeded)
are interleaved one atomic action at a time.  `RenderTile` is a parameter
`render`: `none` is a render error, `some data` the encoded tile.  The progress
reporter only reads the counter and is left out. -/

/-- The state of one worker goroutine of lines 130-148. -/
inductive Worker where
  | idle : Worker
  | sending : TileResult → Worker
  | done : Worker
  deriving DecidableEq

/-- The shared state of a run: what the enumeration loop has still to send,
the two buffered channels and whether they are closed, the workers, the
counter `completedTiles`, whether the writer goroutine has returned, and the
value of `final` (line 266) once the main goroutine has read it. -/
structure Pipeline where
  pending : List TileJob
  jobQueue : List TileJob
  jobClosed : Bool
  workers : List Worker
  resultQueue : List TileResult
  resultClosed : Bool
  completedTiles : Nat
  writerDone : Bool
  final : Option Nat
  deriving DecidableEq

/-- The atomic actions of the goroutines; `i` names a worker. -/
inductive Action where
  | send : Action
  | closeJobs : Action
  | receive : Nat → Action
  | push : Nat → Action
  | workerExit : Nat → Action
  | closeResults : Action
  | write : Action
  | writerExit : Action
  | finish : Action
  deriving DecidableEq

/-- Capacity of `jobQueue` and of `resultQueue` (`make(chan ..., 1000)`). -/
def queueCap : Nat := 1000

/-- One action of a run; `none` when the action is not enabled.

* `send`: line 249, `jobQueue <- TileJob{...}`, blocked while the buffer is full.
* `closeJobs`: line 258, after the enumeration loop.
* `receive i`: lines 134-137, worker `i` takes a job and renders it; on an
  error it `continue`s, otherwise it holds the result to send.
* `push i`: line 140, `resultQueue <- TileResult{...}`, blocked while full.
* `workerExit i`: the `range jobQueue` of worker `i` ends (closed and empty).
* `closeResults`: lines 259-261, `wg.Wait()` has returned.
* `write`: lines 220-227, the writer takes a result, inserts it (an insert
  error is only logged) and adds 1 to `completedTiles`.
* `writerExit`: the `range resultQueue` of the writer ends.
* `finish`: lines 262-273, `dbWg.Wait()` has returned; `final` is read and the
  function returns `nil`. -/
def step (render : TileJob → Option (List Nat)) (s : Pipeline) : Action → Option Pipeline
  | Action.send =>
    match s.pending with
    | j :: rest =>
      if s.jobQueue.length < queueCap then
        some { s with pending := rest, jobQueue := s.jobQueue ++ [j] }
      else none
    | [] => none
  | Action.closeJobs =>
    if s.pending = [] ∧ s.jobClosed = false then some { s with jobClosed := true } else none
  | Action.receive i =>
    match s.workers[i]?, s.jobQueue with
    | some Worker.idle, j :: q =>
      match render j with
      | none => some { s with jobQueue := q }
      | some data =>
        some { s with jobQueue := q,
                      workers := s.workers.set i (Worker.sending ⟨j.Z, j.X, j.Y, data⟩) }
    | _, _ => none
  | Action.push i =>
    match s.workers[i]? with
    | some (Worker.sending r) =>
      if s.resultQueue.length < queueCap then
        some { s with workers := s.workers.set i Worker.idle,
                      resultQueue := s.resultQueue ++ [r] }
      else none
    | _ => none
  | Action.workerExit i =>
    match s.workers[i]? with
    | some Worker.idle =>
      if s.jobQueue = [] ∧ s.jobClosed = true then
        some { s with workers := s.workers.set i Worker.done }
      else none
    | _ => none
  | Action.closeResults =>
    if s.jobClosed = true ∧ s.workers.all (fun w => decide (w = Worker.done)) = true
        ∧ s.resultClosed = false then
      some { s with resultClosed := true }
    else none
  | Action.write =>
    match s.resultQueue with
    | _ :: q => some { s with resultQueue := q, completedTiles := s.completedTiles + 1 }
    | [] => none
  | Action.writerExit =>
    if s.resultQueue = [] ∧ s.resultClosed = true ∧ s.writerDone = false then
      some { s with writerDone := true }
    else none
  | Action.finish =>
    if s.writerDone = true ∧ s.final = none then
      some { s with final := some s.completedTiles }
    else none

/-- A run under a schedule: the actions are taken in order; `none` when one of
them is not enabled. -/
def run (render : TileJob → Option (List Nat)) : List Action → Pipeline → Option Pipeline
  | [], s => some s
  | a :: rest, s =>
    match step render s a with
    | none => none
    | some t => run render rest t

/-- The state after lines 126-148: `NumWorkers` idle workers (none when
`NumWorkers ≤ 0`), empty queues, and `jobs` still to enumerate. -/
def initPipeline (numWorkers : Int) (jobs : List TileJob) : Pipeline :=
  { pending := jobs, jobQueue := [], jobClosed := false,
    workers := List.replicate numWorkers.toNat Worker.idle,
    resultQueue := [], resultClosed := false, completedTiles := 0,
    writerDone := false, final := none }

/-- The number of jobs of a list whose render succeeds. -/
def successCount (render : TileJob → Option (List Nat)) (jobs : List TileJob) : Nat :=
  (jobs.filter (fun j => (render j).isSome)).length

/-- The number of workers that hold a rendered result. -/
def sendingCount (ws : List Worker) : Nat :=
  (ws.filter (fun w => decide (w ≠ Worker.idle ∧ w ≠ Worker.done))).length

/-- The invariant of the runs that start from `initPipeline` with `n` workers
and the jobs `jobs`: every job whose render succeeds is counted exactly once
(still to send, queued, held by a worker, queued as a result, or written), and
the closing flags follow the program order of the main goroutine. -/
structure PipelineInv (render : TileJob → Option (List Nat)) (n : Nat) (jobs : List TileJob)
    (s : Pipeline) : Prop where
  conserve : s.completedTiles + s.resultQueue.length + sendingCount s.workers
      + successCount render s.jobQueue + successCount render s.pending
    = successCount render jobs
  workersLen : s.workers.length = n
  closedPending : s.jobClosed = true → s.pending = []
  doneQueue : Worker.done ∈ s.workers → s.jobClosed = true ∧ s.jobQueue = []
  closedWorkers : s.resultClosed = true →
    s.jobClosed = true ∧ ∀ w ∈ s.workers, w = Worker.done
  writerQueue : s.writerDone = true → s.resultClosed = true ∧ s.resultQueue = []
  finalValue : ∀ k, s.final = some k → s.writerDone = true ∧ k = s.completedTiles

/-- A measure that every action decreases: the work left in the pipeline. -/
def workLeft (s : Pipeline) : Nat :=
  5 * s.pending.length + 4 * s.jobQueue.length + 3 * sendingCount s.workers
    + 2 * s.resultQueue.length
    + (s.workers.filter (fun w => decide (w ≠ Worker.done))).length
    + (if s.jobClosed then 0 else 1) + (if s.resultClosed then 0 else 1)
    + (if s.writerDone then 0 else 1) + (if s.final.isSome then 0 else 1)

/-- The jobs for the tiles `(0, 0, 0)` and `(1, 0, 0)`. -/
def twoJobs : List TileJob := [⟨0, 0, 0⟩, ⟨1, 0, 0⟩]

/-- A complete run of one worker on two jobs. -/
def oneWorkerSchedule : List Action :=
  [Action.send, Action.send, Action.receive 0, Action.push 0, Action.receive 0, Action.write,
    Action.closeJobs, Action.workerExit 0, Action.closeResults, Action.writerExit,
    Action.finish]

/-- A complete run without any worker on one job. -/
def noWorkerSchedule : List Action :=
  [Action.send, Action.closeJobs, Action.closeResults, Action.writerExit, Action.finish]

/-- A render that never fails. -/
def renderAlways : TileJob → Option (List Nat) :=
  fun _ => some []

/-- A render that fails on the tile `(1, 0, 0)` only. -/
def renderFailing : TileJob → Option (List Nat) :=
  fun j => if j = ⟨1, 0, 0⟩ then none else some []

end Render

/-! ## Theorems: the field sampler -/

namespace Grib2

/-! ### Slice reads -/

theorem sliceAt_of_lt (data : List ℚ) (i : Int) (h0 : 0 ≤ i) (h1 : i < data.length) :
    ∃ v, sliceAt data i = some v ∧ v ∈ data := by
  have hlt : i.toNat < data.length := by omega
  refine ⟨data[i.toNat], ?_, List.getElem_mem hlt⟩
  simp [sliceAt, h0, List.getElem?_eq_getElem hlt]

theorem sliceAt_mem {data : List ℚ} {i : Int} {v : ℚ} (h : sliceAt data i = some v) :
    v ∈ data := by
  unfold sliceAt at h
  split at h
  · exact List.getElem?_mem h
  · cases h

theorem flat_index_range {row col width height : Int} (hr0 : 0 ≤ row) (hr1 : row < height)
    (hc0 : 0 ≤ col) (hc1 : col < width) :
    0 ≤ row * width + col ∧ row * width + col < width * height := by
  constructor
  · nlinarith
  · nlinarith

theorem sliceAt_cell {data : List ℚ} {width height : Int}
    (hlen : (data.length : Int) = width * height) {row col : Int}
    (hr0 : 0 ≤ row) (hr1 : row < height) (hc0 : 0 ≤ col) (hc1 : col < width) :
    ∃ v, sliceAt data (row * width + col) = some v ∧ v ∈ data := by
  obtain ⟨h0, h1⟩ := flat_index_range hr0 hr1 hc0 hc1
  exact sliceAt_of_lt data _ h0 (by rw [hlen]; exact h1)

theorem sliceAt_cellValue {data : List ℚ} {width height : Int}
    (hlen : (data.length : Int) = width * height) {row col : Int}
    (hr0 : 0 ≤ row) (hr1 : row < height) (hc0 : 0 ≤ col) (hc1 : col < width) :
    sliceAt data (row * width + col) = some (cellValue data width row col) := by
  obtain ⟨v, hv, -⟩ := sliceAt_cell hlen hr0 hr1 hc0 hc1
  simp [cellValue, hv]

/-! ### The bilinear recovery -/

theorem getPixel_eq {data : List ℚ} {width height : Int}
    (hlen : (data.length : Int) = width * height) (mv : ℚ) (row col : Int) :
    ∃ val, getPixel data width height mv row col
        = some (val, decide (cornerValid data width height mv row col))
      ∧ (cornerValid data width height mv row col →
          val = cellValue data width row col ∧ val ≠ mv ∧ val ∈ data) := by
  unfold getPixel
  by_cases hb : row < 0 ∨ row ≥ height ∨ col < 0 ∨ col ≥ width
  · have hnv : ¬ cornerValid data width height mv row col := by
      rintro ⟨h1, h2, h3, h4, -⟩; omega
    exact ⟨mv, by simp [hb, hnv], fun h => absurd h hnv⟩
  · have hb2 : 0 ≤ row ∧ row < height ∧ 0 ≤ col ∧ col < width := by omega
    obtain ⟨v, hv, hmem⟩ := sliceAt_cell hlen hb2.1 hb2.2.1 hb2.2.2.1 hb2.2.2.2
    refine ⟨v, ?_, ?_⟩
    · have : cornerValid data width height mv row col ↔ v ≠ mv := by
        simp [cornerValid, hb2, hv]
      simp [hb, hv, this]
    · intro h
      refine ⟨by simp [cellValue, hv], ?_, hmem⟩
      intro hvm
      exact h.2.2.2.2 (by rw [hv, hvm])

theorem tryBilinear_eq {data : List ℚ} {width height : Int}
    (hlen : (data.length : Int) = width * height) (mv x y : ℚ) (x0 y0 : Int) :
    ∃ v00 v01 v10 v11 : ℚ,
      tryBilinearInterpolation data x y x0 y0 width height mv
        = some (blendCorners (x - (x0 : ℚ)) (y - (y0 : ℚ))
            v00 (decide (cornerValid data width height mv y0 x0))
            v01 (decide (cornerValid data width height mv y0 (x0 + 1)))
            v10 (decide (cornerValid data width height mv (y0 + 1) x0))
            v11 (decide (cornerValid data width height mv (y0 + 1) (x0 + 1))))
      ∧ (cornerValid data width height mv y0 x0 →
          v00 = cellValue data width y0 x0 ∧ v00 ≠ mv ∧ v00 ∈ data)
      ∧ (cornerValid data width height mv y0 (x0 + 1) →
          v01 = cellValue data width y0 (x0 + 1) ∧ v01 ≠ mv ∧ v01 ∈ data)
      ∧ (cornerValid data width height mv (y0 + 1) x0 →
          v10 = cellValue data width (y0 + 1) x0 ∧ v10 ≠ mv ∧ v10 ∈ data)
      ∧ (cornerValid data width height mv (y0 + 1) (x0 + 1) →
          v11 = cellValue data width (y0 + 1) (x0 + 1) ∧ v11 ≠ mv ∧ v11 ∈ data) := by
  obtain ⟨v00, h00, p00⟩ := getPixel_eq hlen mv y0 x0
  obtain ⟨v01, h01, p01⟩ := getPixel_eq hlen mv y0 (x0 + 1)
  obtain ⟨v10, h10, p10⟩ := getPixel_eq hlen mv (y0 + 1) x0
  obtain ⟨v11, h11, p11⟩ := getPixel_eq hlen mv (y0 + 1) (x0 + 1)
  refine ⟨v00, v01, v10, v11, ?_, p00, p01, p10, p11⟩
  simp only [tryBilinearInterpolation, h00, h01, h10, h11]

/-! ### The gradient-adaptive scan -/

theorem scanNeighbours_spec {data : List ℚ} {width height : Int}
    (hlen : (data.length : Int) = width * height) (mv x y : ℚ) (x0 y0 : Int) :
    ∀ (offs : List (Int × Int)) (acc : List DataPoint),
      ∃ pts, scanNeighbours data x y x0 y0 width height mv offs acc = some (acc ++ pts)
        ∧ ∀ p ∈ pts, ∃ d ∈ offs,
            cornerValid data width height mv (y0 + d.1) (x0 + d.2)
            ∧ p.value = cellValue data width (y0 + d.1) (x0 + d.2)
            ∧ p.value ∈ data ∧ p.value ≠ mv ∧ 0 ≤ p.distSq := by
  intro offs
  induction offs with
  | nil => intro acc; exact ⟨[], by simp [scanNeighbours], by simp⟩
  | cons d rest ih =>
    intro acc
    obtain ⟨dy, dx⟩ := d
    have lift : ∀ acc2 : List DataPoint,
        (∃ pts, scanNeighbours data x y x0 y0 width height mv rest acc2 = some (acc ++ pts)
          ∧ ∀ p ∈ pts, (∃ d ∈ rest,
            cornerValid data width height mv (y0 + d.1) (x0 + d.2)
            ∧ p.value = cellValue data width (y0 + d.1) (x0 + d.2)
            ∧ p.value ∈ data ∧ p.value ≠ mv ∧ 0 ≤ p.distSq)
            ∨ (cornerValid data width height mv (y0 + dy) (x0 + dx)
            ∧ p.value = cellValue data width (y0 + dy) (x0 + dx)
            ∧ p.value ∈ data ∧ p.value ≠ mv ∧ 0 ≤ p.distSq)) →
        ∃ pts, scanNeighbours data x y x0 y0 width height mv rest acc2 = some (acc ++ pts)
          ∧ ∀ p ∈ pts, ∃ d ∈ (dy, dx) :: rest,
            cornerValid data width height mv (y0 + d.1) (x0 + d.2)
            ∧ p.value = cellValue data width (y0 + d.1) (x0 + d.2)
            ∧ p.value ∈ data ∧ p.value ≠ mv ∧ 0 ≤ p.distSq := by
      rintro acc2 ⟨pts, h1, h2⟩
      refine ⟨pts, h1, fun p hp => ?_⟩
      rcases h2 p hp with ⟨d, hd, hrest⟩ | hhere
      · exact ⟨d, List.mem_cons_of_mem _ hd, hrest⟩
      · exact ⟨(dy, dx), List.mem_cons_self _ _, hhere⟩
    have keep : ∃ pts, scanNeighbours data x y x0 y0 width height mv rest acc = some (acc ++ pts)
          ∧ ∀ p ∈ pts, ∃ d ∈ (dy, dx) :: rest,
            cornerValid data width height mv (y0 + d.1) (x0 + d.2)
            ∧ p.value = cellValue data width (y0 + d.1) (x0 + d.2)
            ∧ p.value ∈ data ∧ p.value ≠ mv ∧ 0 ≤ p.distSq := by
      obtain ⟨pts, h1, h2⟩ := ih acc
      exact lift acc ⟨pts, h1, fun p hp => Or.inl (h2 p hp)⟩
    rw [scanNeighbours]
    by_cases hb : x0 + dx < 0 ∨ x0 + dx ≥ width ∨ y0 + dy < 0 ∨ y0 + dy ≥ height
    · simp only [hb, if_true]; exact keep
    · have hb2 : 0 ≤ y0 + dy ∧ y0 + dy < height ∧ 0 ≤ x0 + dx ∧ x0 + dx < width := by omega
      obtain ⟨v, hv, hmem⟩ := sliceAt_cell hlen hb2.1 hb2.2.1 hb2.2.2.1 hb2.2.2.2
      simp only [hb, if_false, hv]
      by_cases hvm : v ≠ mv
      · rw [if_pos hvm]
        split
        · let pt : DataPoint := ⟨v,
              ((x0 + dx : Int) + 1 / 2 - x) * ((x0 + dx : Int) + 1 / 2 - x)
                + ((y0 + dy : Int) + 1 / 2 - y) * ((y0 + dy : Int) + 1 / 2 - y)⟩
          obtain ⟨pts, h1, h2⟩ := ih (acc ++ [pt])
          apply lift
          rw [List.append_assoc] at h1
          refine ⟨pt :: pts, h1, ?_⟩
          intro p hp
          rcases List.mem_cons.1 hp with rfl | hp
          · right
            refine ⟨⟨hb2.1, hb2.2.1, hb2.2.2.1, hb2.2.2.2, ?_⟩, ?_, hmem, hvm, ?_⟩
            · rw [hv]; simpa using hvm
            · simp [cellValue, hv]
            · exact add_nonneg (mul_self_nonneg _) (mul_self_nonneg _)
          · exact Or.inl (h2 p hp)
        · exact keep
      · rw [if_neg hvm]; exact keep

theorem foldl_addPoint_const (c : ℚ) :
    ∀ (pts : List DataPoint) (acc : ℚ × ℚ), (∀ p ∈ pts, p.value = c) →
      (pts.foldl addPoint acc).1 - c * (pts.foldl addPoint acc).2 = acc.1 - c * acc.2 := by
  intro pts
  induction pts with
  | nil => intro acc _; rfl
  | cons p rest ih =>
    intro acc h
    rw [List.foldl_cons, ih _ (fun q hq => h q (List.mem_cons_of_mem _ hq))]
    have hp : p.value = c := h p (List.mem_cons_self _ _)
    simp only [addPoint, hp]
    ring

theorem gradient_spec {data : List ℚ} {width height : Int}
    (hlen : (data.length : Int) = width * height) (mv x y : ℚ) (x0 y0 : Int) :
    ∃ pts, scanNeighbours data x y x0 y0 width height mv scanOffsets [] = some pts
      ∧ (∀ p ∈ pts, ∃ d ∈ scanOffsets,
            cornerValid data width height mv (y0 + d.1) (x0 + d.2)
            ∧ p.value = cellValue data width (y0 + d.1) (x0 + d.2)
            ∧ p.value ∈ data ∧ p.value ≠ mv ∧ 0 ≤ p.distSq) := by
  obtain ⟨pts, h1, h2⟩ := scanNeighbours_spec hlen mv x y x0 y0 scanOffsets []
  exact ⟨pts, by simpa using h1, h2⟩

theorem gradient_const {data : List ℚ} {width height : Int}
    (hlen : (data.length : Int) = width * height) (mv c x y : ℚ) (x0 y0 : Int)
    (hc : ∀ v ∈ data, v = mv ∨ v = c) :
    gradientAdaptiveInterpolation data x y x0 y0 width height mv = some c
      ∨ gradientAdaptiveInterpolation data x y x0 y0 width height mv = some mv := by
  obtain ⟨pts, h1, h2⟩ := gradient_spec hlen mv x y x0 y0
  have hval : ∀ p ∈ pts, p.value = c := by
    intro p hp
    obtain ⟨d, -, -, -, hmem, hne, -⟩ := h2 p hp
    rcases hc _ hmem with h | h
    · exact absurd h hne
    · exact h
  unfold gradientAdaptiveInterpolation
  rw [h1]
  match pts, hval with
  | [], _ => right; rfl
  | [p], hval => left; simp [hval p (List.mem_singleton_self p)]
  | p :: q :: rest, hval =>
    have hf := foldl_addPoint_const c (p :: q :: rest) (0, 0) hval
    simp only [mul_zero, sub_zero] at hf
    by_cases hpos : ((p :: q :: rest).foldl addPoint (0, 0)).2 > 0
    · left
      simp only [hpos, if_true]
      congr 1
      rw [div_eq_iff (ne_of_gt hpos)]
      linarith
    · right
      simp only [hpos, if_false]

theorem gradient_all_missing {data : List ℚ} {width height : Int}
    (hlen : (data.length : Int) = width * height) (mv x y : ℚ) (x0 y0 : Int)
    (hall : ∀ d ∈ scanOffsets, ¬ cornerValid data width height mv (y0 + d.1) (x0 + d.2)) :
    gradientAdaptiveInterpolation data x y x0 y0 width height mv = some mv := by
  obtain ⟨pts, h1, h2⟩ := gradient_spec hlen mv x y x0 y0
  have : pts = [] := by
    cases pts with
    | nil => rfl
    | cons p rest =>
      obtain ⟨d, hd, hv, -⟩ := h2 p (List.mem_cons_self _ _)
      exact absurd hv (hall d hd)
  subst this
  unfold gradientAdaptiveInterpolation
  rw [h1]

/-! ### The adaptive fallback -/

theorem blendCorners_const (u v c v00 v01 v10 v11 : ℚ) (b00 b01 b10 b11 : Bool)
    (h00 : b00 = true → v00 = c) (h01 : b01 = true → v01 = c)
    (h10 : b10 = true → v10 = c) (h11 : b11 = true → v11 = c)
    (hvalid : (blendCorners u v v00 b00 v01 b01 v10 b10 v11 b11).2 = true) :
    (blendCorners u v v00 b00 v01 b01 v10 b10 v11 b11).1 = c := by
  have key : ∀ s w : ℚ, s = c * w → (if w > 0 then (s / w, true) else ((0 : ℚ), false)).2 = true →
      (if w > 0 then (s / w, true) else ((0 : ℚ), false)).1 = c := by
    intro s w hs h
    by_cases hw : w > 0
    · simp only [hw, if_true]
      rw [hs, mul_div_assoc, div_self (ne_of_gt hw), mul_one]
    · simp [hw] at h
  cases b00 <;> cases b01 <;> cases b10 <;> cases b11 <;>
    simp only [blendCorners, validCount, addCorner, if_true, if_false, Bool.false_eq_true,
      Nat.reduceAdd, Nat.reduceLT, Nat.reduceEqDiff, zero_add, add_zero] at hvalid ⊢ <;>
    first
    | exact absurd hvalid (by decide)
    | (simp only [forall_true_left] at h00 h01 h10 h11
       first
       | (subst_vars; ring1)
       | (refine key _ _ ?_ hvalid
          subst_vars; ring1))

theorem blendCorners_none_valid (u v v00 v01 v10 v11 : ℚ) :
    blendCorners u v v00 false v01 false v10 false v11 false = (0, false) := by
  simp [blendCorners, validCount]

theorem adaptive_cases (data : List ℚ) (x y : ℚ) (x0 y0 width height : Int) (mv : ℚ)
    (edgeMargin : Int) :
    adaptiveInterpolation data x y x0 y0 width height mv edgeMargin
        = gradientAdaptiveInterpolation data x y x0 y0 width height mv
      ∨ (∃ r, tryBilinearInterpolation data x y x0 y0 width height mv = some (r, true)
          ∧ adaptiveInterpolation data x y x0 y0 width height mv edgeMargin = some r)
      ∨ (tryBilinearInterpolation data x y x0 y0 width height mv = none
          ∧ adaptiveInterpolation data x y x0 y0 width height mv edgeMargin = none) := by
  unfold adaptiveInterpolation
  simp only []
  split
  · split
    · cases hb : tryBilinearInterpolation data x y x0 y0 width height mv with
      | none => right; right; simp
      | some p =>
        obtain ⟨r, b⟩ := p
        cases b with
        | true => right; left; exact ⟨r, rfl, by simp⟩
        | false => left; simp
    · left; rfl
  · left; rfl

theorem adaptive_total {data : List ℚ} {width height : Int}
    (hlen : (data.length : Int) = width * height) (mv x y : ℚ) (x0 y0 edgeMargin : Int) :
    ∃ r, adaptiveInterpolation data x y x0 y0 width height mv edgeMargin = some r := by
  rcases adaptive_cases data x y x0 y0 width height mv edgeMargin with h | ⟨r, -, h⟩ | ⟨h, -⟩
  · obtain ⟨pts, h1, -⟩ := gradient_spec hlen mv x y x0 y0
    rw [h]
    unfold gradientAdaptiveInterpolation
    rw [h1]
    match pts with
    | [] => exact ⟨_, rfl⟩
    | [p] => exact ⟨_, rfl⟩
    | p :: q :: rest =>
      simp only []
      split
      · exact ⟨_, rfl⟩
      · exact ⟨_, rfl⟩
  · exact ⟨r, h⟩
  · obtain ⟨v00, v01, v10, v11, he, -⟩ := tryBilinear_eq hlen mv x y x0 y0
    rw [he] at h
    cases h

theorem adaptive_const {data : List ℚ} {width height : Int}
    (hlen : (data.length : Int) = width * height) (mv c x y : ℚ) (x0 y0 edgeMargin : Int)
    (hc : ∀ v ∈ data, v = mv ∨ v = c) :
    adaptiveInterpolation data x y x0 y0 width height mv edgeMargin = some c
      ∨ adaptiveInterpolation data x y x0 y0 width height mv edgeMargin = some mv := by
  have total := adaptive_total hlen mv x y x0 y0 edgeMargin
  rcases adaptive_cases data x y x0 y0 width height mv edgeMargin with h | ⟨r, hb, h⟩ | ⟨-, h⟩
  · rw [h]; exact gradient_const hlen mv c x y x0 y0 hc
  · left
    obtain ⟨v00, v01, v10, v11, he, p00, p01, p10, p11⟩ := tryBilinear_eq hlen mv x y x0 y0
    have pick : ∀ {val : ℚ}, val ≠ mv → val ∈ data → val = c := by
      intro val hne hmem
      rcases hc val hmem with h | h
      · exact absurd h hne
      · exact h
    rw [he] at hb
    have hbl := Option.some.inj hb
    have h2 : (blendCorners (x - (x0 : ℚ)) (y - (y0 : ℚ))
            v00 (decide (cornerValid data width height mv y0 x0))
            v01 (decide (cornerValid data width height mv y0 (x0 + 1)))
            v10 (decide (cornerValid data width height mv (y0 + 1) x0))
            v11 (decide (cornerValid data width height mv (y0 + 1) (x0 + 1)))).2 = true := by
      rw [hbl]
    have h1 := blendCorners_const (x - (x0 : ℚ)) (y - (y0 : ℚ)) c v00 v01 v10 v11 _ _ _ _
      (fun hv => pick (p00 (of_decide_eq_true hv)).2.1 (p00 (of_decide_eq_true hv)).2.2)
      (fun hv => pick (p01 (of_decide_eq_true hv)).2.1 (p01 (of_decide_eq_true hv)).2.2)
      (fun hv => pick (p10 (of_decide_eq_true hv)).2.1 (p10 (of_decide_eq_true hv)).2.2)
      (fun hv => pick (p11 (of_decide_eq_true hv)).2.1 (p11 (of_decide_eq_true hv)).2.2) h2
    rw [hbl] at h1
    rw [h, ← h1]
  · obtain ⟨r, hr⟩ := total
    rw [h] at hr
    cases hr

/-! ### The bicubic window -/

theorem readWindow_eq {data : List ℚ} {width height : Int}
    (hlen : (data.length : Int) = width * height) :
    ∀ idxs : List (Int × Int),
      (∀ rc ∈ idxs, 0 ≤ rc.1 ∧ rc.1 < height ∧ 0 ≤ rc.2 ∧ rc.2 < width) →
      readWindow data width idxs = some (idxs.map (fun rc => cellValue data width rc.1 rc.2)) := by
  intro idxs
  induction idxs with
  | nil => intro _; rfl
  | cons rc rest ih =>
    intro h
    obtain ⟨row, col⟩ := rc
    have hrc := h (row, col) (List.mem_cons_self _ _)
    have hv := sliceAt_cellValue hlen hrc.1 hrc.2.1 hrc.2.2.1 hrc.2.2.2
    rw [readWindow, hv, ih (fun q hq => h q (List.mem_cons_of_mem _ hq))]
    rfl

theorem windowIndices_in_range {x0 y0 width height : Int}
    (hx0 : 3 ≤ x0) (hx1 : x0 < width - 4) (hy0 : 3 ≤ y0) (hy1 : y0 < height - 4) :
    ∀ rc ∈ windowIndices x0 y0, 0 ≤ rc.1 ∧ rc.1 < height ∧ 0 ≤ rc.2 ∧ rc.2 < width := by
  intro rc hrc
  simp only [windowIndices, List.mem_cons, List.mem_singleton, List.not_mem_nil, or_false] at hrc
  rcases hrc with h | h | h | h | h | h | h | h | h | h | h | h | h | h | h | h <;>
    (subst h; simp only []; omega)

theorem sampleGrid_edge (data : List ℚ) (x y : ℚ) (width height : Int) (mv : ℚ)
    (h : ⌊x⌋ < 3 ∨ ⌊x⌋ ≥ width - 4 ∨ ⌊y⌋ < 3 ∨ ⌊y⌋ ≥ height - 4) :
    sampleGrid data x y width height mv
      = adaptiveInterpolation data x y ⌊x⌋ ⌊y⌋ width height mv 3 := by
  have h2 : ⌊x⌋ < 3 ∨ ⌊x⌋ ≥ width - (3 + 1) ∨ ⌊y⌋ < 3 ∨ ⌊y⌋ ≥ height - (3 + 1) := by
    omega
  simp only [sampleGrid, h2, if_true]

theorem sampleGrid_interior {data : List ℚ} {width height : Int}
    (hlen : (data.length : Int) = width * height) (x y mv : ℚ)
    (hx0 : 3 ≤ ⌊x⌋) (hx1 : ⌊x⌋ < width - 4) (hy0 : 3 ≤ ⌊y⌋) (hy1 : ⌊y⌋ < height - 4) :
    sampleGrid data x y width height mv
      = if ((windowIndices ⌊x⌋ ⌊y⌋).map (fun rc => cellValue data width rc.1 rc.2)).any
            (fun val => decide (val = mv)) then
          adaptiveInterpolation data x y ⌊x⌋ ⌊y⌋ width height mv 3
        else
          some (weightedTotal
            ((windowIndices ⌊x⌋ ⌊y⌋).map (fun rc => cellValue data width rc.1 rc.2))
            (windowWeights (cubicWeights (x - (⌊x⌋ : ℚ))) (cubicWeights (y - (⌊y⌋ : ℚ))))) := by
  have h2 : ¬ (⌊x⌋ < 3 ∨ ⌊x⌋ ≥ width - (3 + 1) ∨ ⌊y⌋ < 3 ∨ ⌊y⌋ ≥ height - (3 + 1)) := by
    omega
  simp only [sampleGrid, h2, if_false,
    readWindow_eq hlen _ (windowIndices_in_range hx0 hx1 hy0 hy1)]

theorem weightedTotal_expand (v0 v1 v2 v3 v4 v5 v6 v7 v8 v9 v10 v11 v12 v13 v14 v15 : ℚ)
    (a0 a1 a2 a3 b0 b1 b2 b3 : ℚ) :
    weightedTotal [v0, v1, v2, v3, v4, v5, v6, v7, v8, v9, v10, v11, v12, v13, v14, v15]
        (windowWeights [a0, a1, a2, a3] [b0, b1, b2, b3])
      = 0 + v0 * (a0 * b0) + v1 * (a1 * b0) + v2 * (a2 * b0) + v3 * (a3 * b0)
          + v4 * (a0 * b1) + v5 * (a1 * b1) + v6 * (a2 * b1) + v7 * (a3 * b1)
          + v8 * (a0 * b2) + v9 * (a1 * b2) + v10 * (a2 * b2) + v11 * (a3 * b2)
          + v12 * (a0 * b3) + v13 * (a1 * b3) + v14 * (a2 * b3) + v15 * (a3 * b3) := rfl

theorem cubicWeights_shape (t : ℚ) :
    ∃ a0 a1 a2 a3 : ℚ, cubicWeights t = [a0, a1, a2, a3] ∧ a0 + a1 + a2 + a3 = 1 :=
  ⟨_, _, _, _, rfl, by ring⟩

theorem weightedTotal_const (c u v : ℚ) (values : List ℚ) (hlen : values.length = 16)
    (hc : ∀ val ∈ values, val = c) :
    weightedTotal values (windowWeights (cubicWeights u) (cubicWeights v)) = c := by
  have hv : values = [c, c, c, c, c, c, c, c, c, c, c, c, c, c, c, c] := by
    rw [List.eq_replicate_iff.2 ⟨hlen, hc⟩]; rfl
  obtain ⟨a0, a1, a2, a3, ha, hsa⟩ := cubicWeights_shape u
  obtain ⟨b0, b1, b2, b3, hb, hsb⟩ := cubicWeights_shape v
  rw [hv, ha, hb, weightedTotal_expand]
  have : 0 + c * (a0 * b0) + c * (a1 * b0) + c * (a2 * b0) + c * (a3 * b0)
          + c * (a0 * b1) + c * (a1 * b1) + c * (a2 * b1) + c * (a3 * b1)
          + c * (a0 * b2) + c * (a1 * b2) + c * (a2 * b2) + c * (a3 * b2)
          + c * (a0 * b3) + c * (a1 * b3) + c * (a2 * b3) + c * (a3 * b3)
        = c * ((a0 + a1 + a2 + a3) * (b0 + b1 + b2 + b3)) := by ring
  rw [this, hsa, hsb]; ring

theorem sampleGrid_total {data : List ℚ} {width height : Int}
    (hlen : (data.length : Int) = width * height) (x y mv : ℚ) :
    ∃ r, sampleGrid data x y width height mv = some r := by
  by_cases h : ⌊x⌋ < 3 ∨ ⌊x⌋ ≥ width - 4 ∨ ⌊y⌋ < 3 ∨ ⌊y⌋ ≥ height - 4
  · rw [sampleGrid_edge data x y width height mv h]
    exact adaptive_total hlen mv x y _ _ 3
  · rw [sampleGrid_interior hlen x y mv (by omega) (by omega) (by omega) (by omega)]
    split
    · exact adaptive_total hlen mv x y _ _ 3
    · exact ⟨_, rfl⟩

theorem cellValue_mem {data : List ℚ} {width height : Int}
    (hlen : (data.length : Int) = width * height) {row col : Int}
    (hr0 : 0 ≤ row) (hr1 : row < height) (hc0 : 0 ≤ col) (hc1 : col < width) :
    cellValue data width row col ∈ data := by
  obtain ⟨v, hv, hmem⟩ := sliceAt_cell hlen hr0 hr1 hc0 hc1
  simpa [cellValue, hv] using hmem

theorem sampleGrid_const {data : List ℚ} {width height : Int}
    (hlen : (data.length : Int) = width * height) (x y mv c : ℚ)
    (hc : ∀ v ∈ data, v = mv ∨ v = c) :
    sampleGrid data x y width height mv = some c
      ∨ sampleGrid data x y width height mv = some mv := by
  by_cases h : ⌊x⌋ < 3 ∨ ⌊x⌋ ≥ width - 4 ∨ ⌊y⌋ < 3 ∨ ⌊y⌋ ≥ height - 4
  · rw [sampleGrid_edge data x y width height mv h]
    exact adaptive_const hlen mv c x y _ _ 3 hc
  · rw [sampleGrid_interior hlen x y mv (by omega) (by omega) (by omega) (by omega)]
    split
    · exact adaptive_const hlen mv c x y _ _ 3 hc
    · rename_i hany
      left
      congr 1
      apply weightedTotal_const
      · simp [windowIndices]
      · intro val hval
        have hne : val ≠ mv := by
          intro hvm
          apply hany
          rw [List.any_eq_true]
          exact ⟨val, hval, by simpa using hvm⟩
        obtain ⟨rc, hrc, rfl⟩ := List.mem_map.1 hval
        have hr := @windowIndices_in_range _ _ width height
          (by omega) (by omega) (by omega) (by omega) rc hrc
        rcases hc _ (cellValue_mem hlen hr.1 hr.2.1 hr.2.2.1 hr.2.2.2) with h | h
        · exact absurd h hne
        · exact h

/-! ### The clamp and the whole sampler -/

theorem clampCoord_floor (t : ℚ) (n : Int) (hn : 2 ≤ n) :
    0 ≤ ⌊clampCoord t n⌋ ∧ ⌊clampCoord t n⌋ ≤ n - 2 := by
  unfold clampCoord
  simp only []
  by_cases hge : (if t < 0 then (0 : ℚ) else t) ≥ ((n - 1 : Int) : ℚ)
  · rw [if_pos hge]
    have h : ⌊(n : ℚ) - 1001 / 1000⌋ = n - 2 := by
      rw [Int.floor_eq_iff]
      push_cast
      constructor <;> linarith
    rw [h]; omega
  · rw [if_neg hge]
    have hlt2 := lt_of_not_ge hge
    have hnn : (0 : ℚ) ≤ (if t < 0 then 0 else t) := by
      split
      · exact le_refl _
      · rename_i h; exact le_of_not_lt h
    constructor
    · exact Int.floor_nonneg.2 hnn
    · have := Int.floor_lt.2 hlt2
      omega

theorem scanOffsets_mem (d : Int × Int) :
    d ∈ scanOffsets ↔ (-3 ≤ d.1 ∧ d.1 ≤ 3) ∧ (-3 ≤ d.2 ∧ d.2 ≤ 3) := by
  obtain ⟨a, b⟩ := d
  have hr : ∀ k : Int, k ∈ radiusRange ↔ -3 ≤ k ∧ k ≤ 3 := by
    intro k
    simp only [radiusRange, List.mem_cons, List.mem_singleton, List.not_mem_nil, or_false]
    omega
  simp only [scanOffsets, List.mem_flatMap, List.mem_map, Prod.mk.injEq]
  constructor
  · rintro ⟨dy, hdy, dx, hdx, rfl, rfl⟩
    exact ⟨(hr _).1 hdy, (hr _).1 hdx⟩
  · rintro ⟨ha, hb⟩
    exact ⟨a, (hr a).2 ha, b, (hr b).2 hb, rfl, rfl⟩

theorem adaptive_all_missing {data : List ℚ} {width height : Int}
    (hlen : (data.length : Int) = width * height) (mv x y : ℚ) (x0 y0 edgeMargin : Int)
    (hall : ∀ d ∈ scanOffsets, ¬ cornerValid data width height mv (y0 + d.1) (x0 + d.2)) :
    adaptiveInterpolation data x y x0 y0 width height mv edgeMargin = some mv := by
  have hcorner : ∀ a b : Int, (0 ≤ a ∧ a ≤ 1) → (0 ≤ b ∧ b ≤ 1) →
      decide (cornerValid data width height mv (y0 + a) (x0 + b)) = false := by
    intro a b ha hb
    have := hall (a, b) ((scanOffsets_mem (a, b)).2 ⟨by constructor <;> simp <;> omega,
      by constructor <;> simp <;> omega⟩)
    simpa using this
  rcases adaptive_cases data x y x0 y0 width height mv edgeMargin with h | ⟨r, hb, -⟩ | ⟨hb, -⟩
  · rw [h]; exact gradient_all_missing hlen mv x y x0 y0 hall
  · obtain ⟨v00, v01, v10, v11, he, -⟩ := tryBilinear_eq hlen mv x y x0 y0
    have c00 := hcorner 0 0 (by omega) (by omega)
    have c01 := hcorner 0 1 (by omega) (by omega)
    have c10 := hcorner 1 0 (by omega) (by omega)
    have c11 := hcorner 1 1 (by omega) (by omega)
    simp only [add_zero] at c00 c01 c10 c11
    rw [he, c00, c01, c10, c11, blendCorners_none_valid] at hb
    simp at hb
  · obtain ⟨v00, v01, v10, v11, he, -⟩ := tryBilinear_eq hlen mv x y x0 y0
    rw [he] at hb
    cases hb

theorem sampleGrid_all_missing {data : List ℚ} {width height : Int}
    (hlen : (data.length : Int) = width * height) (x y mv : ℚ)
    (hall : ∀ d ∈ scanOffsets, ¬ cornerValid data width height mv (⌊y⌋ + d.1) (⌊x⌋ + d.2)) :
    sampleGrid data x y width height mv = some mv := by
  by_cases h : ⌊x⌋ < 3 ∨ ⌊x⌋ ≥ width - 4 ∨ ⌊y⌋ < 3 ∨ ⌊y⌋ ≥ height - 4
  · rw [sampleGrid_edge data x y width height mv h]
    exact adaptive_all_missing hlen mv x y _ _ 3 hall
  · rw [sampleGrid_interior hlen x y mv (by omega) (by omega) (by omega) (by omega)]
    have hany : ((windowIndices ⌊x⌋ ⌊y⌋).map (fun rc => cellValue data width rc.1 rc.2)).any
        (fun val => decide (val = mv)) = true := by
      rw [List.any_eq_true]
      refine ⟨cellValue data width ⌊y⌋ ⌊x⌋, ?_, ?_⟩
      · exact List.mem_map.2 ⟨(⌊y⌋, ⌊x⌋), by simp [windowIndices], rfl⟩
      · have h0 := hall (0, 0) ((scanOffsets_mem (0, 0)).2 (by simp))
        simp only [add_zero] at h0
        have hs := @sliceAt_cellValue data width height hlen ⌊y⌋ ⌊x⌋
          (by omega) (by omega) (by omega) (by omega)
        have : ¬ (sliceAt data (⌊y⌋ * width + ⌊x⌋) ≠ some mv) := by
          intro hne
          exact h0 ⟨by omega, by omega, by omega, by omega, hne⟩
        rw [hs] at this
        simpa using this
    rw [if_pos hany]
    exact adaptive_all_missing hlen mv x y _ _ 3 hall

/-- C4: with `len(DataValues) = Nx*Ny` no slice read of `GetInterpolatedData`
or of its helpers `adaptiveInterpolation`, `tryBilinearInterpolation`,
`gradientAdaptiveInterpolation` leaves `[0, Nx*Ny)` (none of them panics, for any
arguments), and after the clamp the floor indices satisfy `0 ≤ x0 ≤ Nx-2` and
`0 ≤ y0 ≤ Ny-2` whenever `Nx ≥ 2` and `Ny ≥ 2`. -/
theorem GetInterpolatedData_reads_in_range (g : GRIBFile)
    (_hdx : g.Header.DX ≠ 0) (_hdy : g.Header.DY ≠ 0)
    (hlen : (g.DataValues.length : Int) = g.Header.Nx * g.Header.Ny) (lat lng : ℚ) :
    (∃ r, GetInterpolatedData g lat lng = some r)
    ∧ (∀ (x y : ℚ) (x0 y0 m : Int), ∃ r, adaptiveInterpolation g.DataValues x y x0 y0
          g.Header.Nx g.Header.Ny g.Header.MissingValue m = some r)
    ∧ (∀ (x y : ℚ) (x0 y0 : Int), ∃ r, tryBilinearInterpolation g.DataValues x y x0 y0
          g.Header.Nx g.Header.Ny g.Header.MissingValue = some r)
    ∧ (∀ (x y : ℚ) (x0 y0 : Int), ∃ r, gradientAdaptiveInterpolation g.DataValues x y x0 y0
          g.Header.Nx g.Header.Ny g.Header.MissingValue = some r)
    ∧ (2 ≤ g.Header.Nx → 0 ≤ ⌊gridX g (wrapLng lng)⌋
          ∧ ⌊gridX g (wrapLng lng)⌋ ≤ g.Header.Nx - 2)
    ∧ (2 ≤ g.Header.Ny → 0 ≤ ⌊gridY g lat⌋ ∧ ⌊gridY g lat⌋ ≤ g.Header.Ny - 2) := by
  refine ⟨?_, ?_, ?_, ?_, ?_, ?_⟩
  · unfold GetInterpolatedData
    simp only []
    split
    · exact ⟨_, rfl⟩
    · exact sampleGrid_total hlen _ _ _
  · intro x y x0 y0 m
    exact adaptive_total hlen _ x y x0 y0 m
  · intro x y x0 y0
    obtain ⟨v00, v01, v10, v11, he, -⟩ := tryBilinear_eq hlen g.Header.MissingValue x y x0 y0
    exact ⟨_, he⟩
  · intro x y x0 y0
    obtain ⟨pts, h1, -⟩ := gradient_spec hlen g.Header.MissingValue x y x0 y0
    unfold gradientAdaptiveInterpolation
    rw [h1]
    match pts with
    | [] => exact ⟨_, rfl⟩
    | [p] => exact ⟨_, rfl⟩
    | p :: q :: rest =>
      simp only []
      split
      · exact ⟨_, rfl⟩
      · exact ⟨_, rfl⟩
  · intro h; exact clampCoord_floor _ _ h
  · intro h; exact clampCoord_floor _ _ h

/-- C4 at the scenario field. -/
theorem GetInterpolatedData_reads_in_range_witness :
    (∃ r, GetInterpolatedData scenarioField 9 1 = some r)
    ∧ (2 ≤ scenarioField.Header.Nx → 0 ≤ ⌊gridX scenarioField (wrapLng 1)⌋
          ∧ ⌊gridX scenarioField (wrapLng 1)⌋ ≤ scenarioField.Header.Nx - 2) :=
  have h := GetInterpolatedData_reads_in_range scenarioField (by decide!) (by decide!)
    (by decide) 9 1
  ⟨h.1, h.2.2.2.2.1⟩

theorem scanNeighbours_collects {data : List ℚ} {width height : Int}
    (hlen : (data.length : Int) = width * height) (mv x y : ℚ) (x0 y0 : Int) :
    ∀ (offs : List (Int × Int)) (acc : List DataPoint),
      (∃ d ∈ offs, cornerValid data width height mv (y0 + d.1) (x0 + d.2)
        ∧ (((x0 + d.2 : Int) : ℚ) + 1 / 2 - x) * (((x0 + d.2 : Int) : ℚ) + 1 / 2 - x)
            + (((y0 + d.1 : Int) : ℚ) + 1 / 2 - y) * (((y0 + d.1 : Int) : ℚ) + 1 / 2 - y)
          ≤ radius * radius) →
      ∃ p pts, scanNeighbours data x y x0 y0 width height mv offs acc
        = some (acc ++ p :: pts) := by
  intro offs
  induction offs with
  | nil => rintro acc ⟨d, hd, -⟩; cases hd
  | cons e rest ih =>
    rintro acc ⟨d, hd, hvalid, hdist⟩
    obtain ⟨dy, dx⟩ := e
    have tail : (d ≠ (dy, dx)) →
        ∃ p pts, scanNeighbours data x y x0 y0 width height mv rest acc
          = some (acc ++ p :: pts) := by
      intro hne
      rcases List.mem_cons.1 hd with h | h
      · exact absurd h hne
      · exact ih acc ⟨d, h, hvalid, hdist⟩
    rw [scanNeighbours]
    by_cases hb : x0 + dx < 0 ∨ x0 + dx ≥ width ∨ y0 + dy < 0 ∨ y0 + dy ≥ height
    · simp only [hb, if_true]
      apply tail
      rintro rfl
      obtain ⟨h1, h2, h3, h4, -⟩ := hvalid
      simp only [] at h1 h2 h3 h4
      omega
    · have hb2 : 0 ≤ y0 + dy ∧ y0 + dy < height ∧ 0 ≤ x0 + dx ∧ x0 + dx < width := by omega
      obtain ⟨v, hv, hmem⟩ := sliceAt_cell hlen hb2.1 hb2.2.1 hb2.2.2.1 hb2.2.2.2
      simp only [hb, if_false, hv]
      by_cases hvm : v ≠ mv
      · rw [if_pos hvm]
        split
        · obtain ⟨pts, h1, -⟩ := scanNeighbours_spec hlen mv x y x0 y0 rest
            (acc ++ [⟨v, ((x0 + dx : Int) + 1 / 2 - x) * ((x0 + dx : Int) + 1 / 2 - x)
                + ((y0 + dy : Int) + 1 / 2 - y) * ((y0 + dy : Int) + 1 / 2 - y)⟩])
          rw [List.append_assoc] at h1
          exact ⟨_, pts, h1⟩
        · rename_i hfar
          apply tail
          rintro rfl
          exact hfar hdist
      · rw [if_neg hvm]
        apply tail
        rintro rfl
        apply hvalid.2.2.2.2
        rw [hv]
        simp only [not_not] at hvm
        rw [hvm]

theorem foldl_addPoint_weight_pos : ∀ (pts : List DataPoint) (acc : ℚ × ℚ),
    (∀ p ∈ pts, 0 ≤ p.distSq) → pts ≠ [] → 0 ≤ acc.2 → 0 < (pts.foldl addPoint acc).2 := by
  intro pts
  induction pts with
  | nil => intro acc _ h; exact absurd rfl h
  | cons p rest ih =>
    intro acc hd _ hacc
    rw [List.foldl_cons]
    have hp : 0 ≤ p.distSq := hd p (List.mem_cons_self _ _)
    have hw : 0 < 1 / (p.distSq + 1 / 1000) := by
      apply div_pos (by norm_num)
      linarith
    have hacc2 : 0 < (addPoint acc p).2 := by
      simp only [addPoint]
      linarith
    by_cases hr : rest = []
    · subst hr
      simpa using hacc2
    · exact ih _ (fun q hq => hd q (List.mem_cons_of_mem _ hq)) hr (le_of_lt hacc2)

theorem gradient_const_usable {data : List ℚ} {width height : Int}
    (hlen : (data.length : Int) = width * height) (mv c x y : ℚ) (x0 y0 : Int)
    (hc : ∀ v ∈ data, v = mv ∨ v = c)
    (hu : usableNeighbour data width height mv x y x0 y0) :
    gradientAdaptiveInterpolation data x y x0 y0 width height mv = some c := by
  obtain ⟨pts, h1, h2⟩ := gradient_spec hlen mv x y x0 y0
  obtain ⟨p0, pts0, h3⟩ := scanNeighbours_collects hlen mv x y x0 y0 scanOffsets [] hu
  rw [h1, List.nil_append] at h3
  have hpts : pts = p0 :: pts0 := Option.some.inj h3
  have hval : ∀ p ∈ pts, p.value = c := by
    intro p hp
    obtain ⟨d, -, -, -, hmem, hne, -⟩ := h2 p hp
    rcases hc _ hmem with h | h
    · exact absurd h hne
    · exact h
  have hdist : ∀ p ∈ pts, 0 ≤ p.distSq := by
    intro p hp
    obtain ⟨d, -, -, -, -, -, hd⟩ := h2 p hp
    exact hd
  unfold gradientAdaptiveInterpolation
  rw [h1]
  subst hpts
  match pts0, hval, hdist with
  | [], hval, _ => simp [hval p0 (List.mem_singleton_self p0)]
  | q :: rest, hval, hdist =>
    have hf := foldl_addPoint_const c (p0 :: q :: rest) (0, 0) hval
    simp only [mul_zero, sub_zero] at hf
    have hpos := foldl_addPoint_weight_pos (p0 :: q :: rest) (0, 0) hdist
      (List.cons_ne_nil _ _) (le_refl _)
    simp only [gt_iff_lt, hpos, if_true]
    congr 1
    rw [div_eq_iff (ne_of_gt hpos)]
    linarith

theorem adaptive_const_usable {data : List ℚ} {width height : Int}
    (hlen : (data.length : Int) = width * height) (mv c x y : ℚ) (x0 y0 edgeMargin : Int)
    (hc : ∀ v ∈ data, v = mv ∨ v = c)
    (hu : usableNeighbour data width height mv x y x0 y0) :
    adaptiveInterpolation data x y x0 y0 width height mv edgeMargin = some c := by
  rcases adaptive_cases data x y x0 y0 width height mv edgeMargin with h | ⟨r, hb, h⟩ | ⟨-, h⟩
  · rw [h]; exact gradient_const_usable hlen mv c x y x0 y0 hc hu
  · obtain ⟨v00, v01, v10, v11, he, p00, p01, p10, p11⟩ := tryBilinear_eq hlen mv x y x0 y0
    have pick : ∀ {val : ℚ}, val ≠ mv → val ∈ data → val = c := by
      intro val hne hmem
      rcases hc val hmem with h | h
      · exact absurd h hne
      · exact h
    rw [he] at hb
    have hbl := Option.some.inj hb
    have h2 : (blendCorners (x - (x0 : ℚ)) (y - (y0 : ℚ))
            v00 (decide (cornerValid data width height mv y0 x0))
            v01 (decide (cornerValid data width height mv y0 (x0 + 1)))
            v10 (decide (cornerValid data width height mv (y0 + 1) x0))
            v11 (decide (cornerValid data width height mv (y0 + 1) (x0 + 1)))).2 = true := by
      rw [hbl]
    have h1 := blendCorners_const (x - (x0 : ℚ)) (y - (y0 : ℚ)) c v00 v01 v10 v11 _ _ _ _
      (fun hv => pick (p00 (of_decide_eq_true hv)).2.1 (p00 (of_decide_eq_true hv)).2.2)
      (fun hv => pick (p01 (of_decide_eq_true hv)).2.1 (p01 (of_decide_eq_true hv)).2.2)
      (fun hv => pick (p10 (of_decide_eq_true hv)).2.1 (p10 (of_decide_eq_true hv)).2.2)
      (fun hv => pick (p11 (of_decide_eq_true hv)).2.1 (p11 (of_decide_eq_true hv)).2.2) h2
    rw [hbl] at h1
    rw [h, ← h1]
  · obtain ⟨r, hr⟩ := adaptive_total hlen mv x y x0 y0 edgeMargin
    rw [h] at hr
    cases hr

theorem sampleGrid_const_usable {data : List ℚ} {width height : Int}
    (hlen : (data.length : Int) = width * height) (x y mv c : ℚ)
    (hc : ∀ v ∈ data, v = mv ∨ v = c)
    (hu : usableNeighbour data width height mv x y ⌊x⌋ ⌊y⌋) :
    sampleGrid data x y width height mv = some c := by
  rcases sampleGrid_const hlen x y mv c hc with h | h
  · exact h
  · by_cases he : ⌊x⌋ < 3 ∨ ⌊x⌋ ≥ width - 4 ∨ ⌊y⌋ < 3 ∨ ⌊y⌋ ≥ height - 4
    · rw [sampleGrid_edge data x y width height mv he]
      exact adaptive_const_usable hlen mv c x y _ _ 3 hc hu
    · rw [sampleGrid_interior hlen x y mv (by omega) (by omega) (by omega) (by omega)]
      split
      · exact adaptive_const_usable hlen mv c x y _ _ 3 hc hu
      · rename_i hany
        congr 1
        apply weightedTotal_const
        · simp [windowIndices]
        · intro val hval
          have hne : val ≠ mv := by
            intro hvm
            apply hany
            rw [List.any_eq_true]
            exact ⟨val, hval, by simpa using hvm⟩
          obtain ⟨rc, hrc, rfl⟩ := List.mem_map.1 hval
          have hr := @windowIndices_in_range _ _ width height
            (by omega) (by omega) (by omega) (by omega) rc hrc
          rcases hc _ (cellValue_mem hlen hr.1 hr.2.1 hr.2.2.1 hr.2.2.2) with h | h
          · exact absurd h hne
          · exact h

/-- C5 (as amended): in exact arithmetic, in a field whose samples are all
`missingValue` or one constant `c`, every query returns `c` or `missingValue`,
whichever tier answers; a query inside the envelope that has a usable neighbour
(an in-bounds sample other than `missingValue` in the 7x7 neighbourhood of its
floor cell, within the radius 3) returns `c`. -/
theorem GetInterpolatedData_const (g : GRIBFile)
    (hlen : (g.DataValues.length : Int) = g.Header.Nx * g.Header.Ny)
    (_hdx : g.Header.DX ≠ 0) (_hdy : g.Header.DY ≠ 0) (c : ℚ)
    (hc : ∀ v ∈ g.DataValues, v = g.Header.MissingValue ∨ v = c) (lat lng : ℚ) :
    (GetInterpolatedData g lat lng = some c
      ∨ GetInterpolatedData g lat lng = some g.Header.MissingValue)
    ∧ (¬ outsideEnvelope g lat (wrapLng lng) →
        usableNeighbour g.DataValues g.Header.Nx g.Header.Ny g.Header.MissingValue
          (gridX g (wrapLng lng)) (gridY g lat) ⌊gridX g (wrapLng lng)⌋ ⌊gridY g lat⌋ →
        GetInterpolatedData g lat lng = some c) := by
  constructor
  · unfold GetInterpolatedData
    simp only []
    split
    · right; rfl
    · exact sampleGrid_const hlen _ _ _ c hc
  · intro hin hu
    unfold GetInterpolatedData
    simp only []
    rw [if_neg hin]
    exact sampleGrid_const_usable hlen _ _ _ c hc hu

/-- C5 (as amended) on the end-to-end scenario: the query over the missing cell
(1, 1) has usable neighbours and resolves, in exact arithmetic, to the
constant 5. -/
theorem GetInterpolatedData_const_witness :
    sliceAt scenarioField.DataValues (1 * 4 + 1) = some scenarioField.Header.MissingValue
    ∧ ⌊gridX scenarioField (wrapLng 1)⌋ = 1 ∧ ⌊gridY scenarioField 9⌋ = 1
    ∧ GetInterpolatedData scenarioField 9 1 = some 5 :=
  ⟨by decide!, by decide!, by decide!,
    (GetInterpolatedData_const scenarioField (by decide) (by decide!) (by decide!) 5
      (by decide!) 9 1).2 (by decide!) (by decide!)⟩

/-- C3 (as amended): when every in-grid sample of the 7x7 neighbourhood (rows
`y0-3..y0+3`, columns `x0-3..x0+3`) of the floor cell equals `missingValue`,
`GetInterpolatedData` returns `missingValue`. -/
theorem GetInterpolatedData_all_missing (g : GRIBFile)
    (hlen : (g.DataValues.length : Int) = g.Header.Nx * g.Header.Ny) (lat lng : ℚ)
    (hall : ∀ row col : Int,
      ⌊gridY g lat⌋ - 3 ≤ row → row ≤ ⌊gridY g lat⌋ + 3 →
      ⌊gridX g (wrapLng lng)⌋ - 3 ≤ col → col ≤ ⌊gridX g (wrapLng lng)⌋ + 3 →
      0 ≤ row → row < g.Header.Ny → 0 ≤ col → col < g.Header.Nx →
      sliceAt g.DataValues (row * g.Header.Nx + col) = some g.Header.MissingValue) :
    GetInterpolatedData g lat lng = some g.Header.MissingValue := by
  unfold GetInterpolatedData
  simp only []
  split
  · rfl
  · apply sampleGrid_all_missing hlen
    intro d hd hv
    obtain ⟨⟨h1, h2⟩, h3, h4⟩ := (scanOffsets_mem d).1 hd
    obtain ⟨r0, r1, c0, c1, hne⟩ := hv
    exact hne (hall _ _ (by omega) (by omega) (by omega) (by omega) r0 r1 c0 c1)

/-- C3 (as amended) on a field that is missing everywhere. -/
theorem GetInterpolatedData_all_missing_witness :
    GetInterpolatedData emptyField 4 4 = some emptyField.Header.MissingValue :=
  GetInterpolatedData_all_missing emptyField (by decide) 4 4 (by
    intro row col _ _ _ _ r0 r1 c0 c1
    have hr : row < 9 := r1
    have hc : col < 9 := c1
    obtain ⟨v, hv, hmem⟩ := @sliceAt_cell emptyField.DataValues 9 9 (by decide) row col
      r0 hr c0 hc
    have : v = 9999 := List.eq_of_mem_replicate hmem
    rw [this] at hv
    exact hv)

/-- C3 as stated fails: in `loneSampleField` the query (4, 4) is inside the
envelope, its floor cell is (4, 4), all 16 samples of its 4x4 neighbourhood are
`missingValue`, yet the sampler returns the sample 7 stored two columns to the
left. -/
theorem GetInterpolatedData_window_missing_counterexample :
    (loneSampleField.DataValues.length : Int)
        = loneSampleField.Header.Nx * loneSampleField.Header.Ny
    ∧ ¬ outsideEnvelope loneSampleField 4 (wrapLng 4)
    ∧ ⌊gridX loneSampleField (wrapLng 4)⌋ = 4 ∧ ⌊gridY loneSampleField 4⌋ = 4
    ∧ (∀ rc ∈ windowIndices 4 4,
        sliceAt loneSampleField.DataValues (rc.1 * loneSampleField.Header.Nx + rc.2)
          = some loneSampleField.Header.MissingValue)
    ∧ GetInterpolatedData loneSampleField 4 4 = some 7
    ∧ GetInterpolatedData loneSampleField 4 4 ≠ some loneSampleField.Header.MissingValue := by
  refine ⟨by decide, by decide!, by decide!, by decide!, by decide!, by decide!, by decide!⟩

/-- C6 (as amended): with the four corners `(y0,x0)`, `(y0,x0+1)`, `(y0+1,x0)`,
`(y0+1,x0+1)` counted usable iff in bounds and different from `missingValue`,
`tryBilinearInterpolation` reports a valid result iff at least two corners are
usable and the sum of their weights is positive; the result is then the sum over
the usable corners of value*weight divided by the sum of their weights, with
weights `(1-u)(1-v)`, `u(1-v)`, `(1-u)v`, `uv`; with four usable corners it is
valid and equal to the standard bilinear blend.  This holds for every `(x, y)`,
in particular when `u`, `v` lie in `[0, 1)`. -/
theorem tryBilinearInterpolation_renormalised (data : List ℚ) (width height : Int)
    (hlen : (data.length : Int) = width * height) (mv x y : ℚ) (x0 y0 : Int) :
    ∃ r b, tryBilinearInterpolation data x y x0 y0 width height mv = some (r, b)
      ∧ (b = true ↔ 2 ≤ (validCorners data x y x0 y0 width height mv).length
                    ∧ 0 < validWeight data x y x0 y0 width height mv)
      ∧ (b = true → r = renormalisedBlend data x y x0 y0 width height mv)
      ∧ ((validCorners data x y x0 y0 width height mv).length = 4 →
          b = true ∧ r = cellValue data width y0 x0 * (1 - (x - (x0 : ℚ))) * (1 - (y - (y0 : ℚ)))
            + cellValue data width y0 (x0 + 1) * (x - (x0 : ℚ)) * (1 - (y - (y0 : ℚ)))
            + cellValue data width (y0 + 1) x0 * (1 - (x - (x0 : ℚ))) * (y - (y0 : ℚ))
            + cellValue data width (y0 + 1) (x0 + 1) * (x - (x0 : ℚ)) * (y - (y0 : ℚ))) := by
  obtain ⟨v00, v01, v10, v11, he, p00, p01, p10, p11⟩ := tryBilinear_eq hlen mv x y x0 y0
  have q00 : decide (cornerValid data width height mv y0 x0) = true →
      v00 = cellValue data width y0 x0 := fun h => (p00 (of_decide_eq_true h)).1
  have q01 : decide (cornerValid data width height mv y0 (x0 + 1)) = true →
      v01 = cellValue data width y0 (x0 + 1) := fun h => (p01 (of_decide_eq_true h)).1
  have q10 : decide (cornerValid data width height mv (y0 + 1) x0) = true →
      v10 = cellValue data width (y0 + 1) x0 := fun h => (p10 (of_decide_eq_true h)).1
  have q11 : decide (cornerValid data width height mv (y0 + 1) (x0 + 1)) = true →
      v11 = cellValue data width (y0 + 1) (x0 + 1) := fun h => (p11 (of_decide_eq_true h)).1
  generalize hbc : blendCorners (x - (x0 : ℚ)) (y - (y0 : ℚ))
      v00 (decide (cornerValid data width height mv y0 x0))
      v01 (decide (cornerValid data width height mv y0 (x0 + 1)))
      v10 (decide (cornerValid data width height mv (y0 + 1) x0))
      v11 (decide (cornerValid data width height mv (y0 + 1) (x0 + 1))) = rb at he
  obtain ⟨r, b⟩ := rb
  refine ⟨r, b, he, ?_⟩
  clear he p00 p01 p10 p11
  simp only [validCorners, validWeight, renormalisedBlend, bilinearCorners, List.filter_cons,
    List.filter_nil]
  generalize decide (cornerValid data width height mv y0 x0) = b00 at q00 hbc ⊢
  generalize decide (cornerValid data width height mv y0 (x0 + 1)) = b01 at q01 hbc ⊢
  generalize decide (cornerValid data width height mv (y0 + 1) x0) = b10 at q10 hbc ⊢
  generalize decide (cornerValid data width height mv (y0 + 1) (x0 + 1)) = b11 at q11 hbc ⊢
  generalize x - (x0 : ℚ) = u at hbc ⊢
  generalize y - (y0 : ℚ) = v at hbc ⊢
  cases b00 <;> cases b01 <;> cases b10 <;> cases b11 <;>
    simp only [blendCorners, validCount, addCorner, if_true, if_false, Bool.false_eq_true,
      Nat.reduceAdd, Nat.reduceLT, Nat.reduceEqDiff, Nat.reduceLeDiff, zero_add, add_zero,
      List.length_cons, List.length_nil, List.map_cons, List.map_nil, List.sum_cons,
      List.sum_nil, forall_true_left, Prod.mk.injEq] at hbc q00 q01 q10 q11 ⊢
  all_goals try simp only [← add_assoc]
  all_goals first
    | (obtain ⟨rfl, rfl⟩ := hbc
       first
       | (refine ⟨?_, ?_, ?_⟩ <;> simp <;> done)
       | (subst_vars
          have hW : (1 - u) * (1 - v) + u * (1 - v) + (1 - u) * v + u * v = 1 := by ring
          rw [hW]
          refine ⟨?_, ?_, rfl, ?_⟩
          · simp
          · intro _; ring
          · ring))
    | (split at hbc <;> rename_i hW <;> simp only [Prod.mk.injEq] at hbc <;>
        obtain ⟨rfl, rfl⟩ := hbc <;> subst_vars <;> simp [hW])

/-- C6 (as amended) on `cornerGrid` at the cell centre, where three corners are
usable. -/
theorem tryBilinearInterpolation_renormalised_witness :
    ∃ r b, tryBilinearInterpolation cornerGrid (1 / 2) (1 / 2) 0 0 2 2 9999 = some (r, b)
      ∧ (b = true ↔ 2 ≤ (validCorners cornerGrid (1 / 2) (1 / 2) 0 0 2 2 9999).length
                    ∧ 0 < validWeight cornerGrid (1 / 2) (1 / 2) 0 0 2 2 9999)
      ∧ (b = true → r = renormalisedBlend cornerGrid (1 / 2) (1 / 2) 0 0 2 2 9999)
      ∧ ((validCorners cornerGrid (1 / 2) (1 / 2) 0 0 2 2 9999).length = 4 →
          b = true ∧ r = cellValue cornerGrid 2 0 0 * (1 - (1 / 2 - ((0 : Int) : ℚ)))
              * (1 - (1 / 2 - ((0 : Int) : ℚ)))
            + cellValue cornerGrid 2 0 (0 + 1) * (1 / 2 - ((0 : Int) : ℚ))
              * (1 - (1 / 2 - ((0 : Int) : ℚ)))
            + cellValue cornerGrid 2 (0 + 1) 0 * (1 - (1 / 2 - ((0 : Int) : ℚ)))
              * (1 / 2 - ((0 : Int) : ℚ))
            + cellValue cornerGrid 2 (0 + 1) (0 + 1) * (1 / 2 - ((0 : Int) : ℚ))
              * (1 / 2 - ((0 : Int) : ℚ))) :=
  tryBilinearInterpolation_renormalised cornerGrid 2 2 (by decide) 9999 (1 / 2) (1 / 2) 0 0

/-- C6 as stated fails: on `cornerGrid` at `(x, y) = (0, 0)` the offsets are
`u = v = 0`, three of the four corners are usable, yet their weights sum to 0
and `tryBilinearInterpolation` reports no valid result. -/
theorem tryBilinearInterpolation_zero_weight_counterexample :
    (cornerGrid.length : Int) = 2 * 2
    ∧ (0 : ℚ) ≤ 0 - ((0 : Int) : ℚ) ∧ (0 : ℚ) - ((0 : Int) : ℚ) < 1
    ∧ (validCorners cornerGrid 0 0 0 0 2 2 9999).length = 3
    ∧ validWeight cornerGrid 0 0 0 0 2 2 9999 = 0
    ∧ tryBilinearInterpolation cornerGrid 0 0 0 0 2 2 9999 = some (0, false) := by
  refine ⟨by decide, by decide!, by decide!, by decide!, by decide!, by decide!⟩

theorem windowIndices_mem_range {x0 y0 : Int} (rc : Int × Int) (h : rc ∈ windowIndices x0 y0) :
    (y0 - 1 ≤ rc.1 ∧ rc.1 ≤ y0 + 2) ∧ (x0 - 1 ≤ rc.2 ∧ rc.2 ≤ x0 + 2) := by
  simp only [windowIndices, List.mem_cons, List.mem_singleton, List.not_mem_nil, or_false] at h
  rcases h with h | h | h | h | h | h | h | h | h | h | h | h | h | h | h | h <;>
    (subst h; simp only []; omega)

theorem cubicWeights_eq_spec (t : ℚ) :
    cubicWeights t = [specCubic 0 t, specCubic 1 t, specCubic 2 t, specCubic 3 t] := by
  simp only [cubicWeights, specCubic, List.cons.injEq, and_true]
  refine ⟨by ring, by ring, by ring, by ring⟩

theorem sampleGrid_bicubic {data : List ℚ} {width height : Int}
    (hlen : (data.length : Int) = width * height) (x y mv : ℚ)
    (hx0 : 3 ≤ ⌊x⌋) (hx1 : ⌊x⌋ < width - 4) (hy0 : 3 ≤ ⌊y⌋) (hy1 : ⌊y⌋ < height - 4)
    (hwin : ∀ row col : Int, ⌊y⌋ - 1 ≤ row → row ≤ ⌊y⌋ + 2 → ⌊x⌋ - 1 ≤ col → col ≤ ⌊x⌋ + 2 →
      sliceAt data (row * width + col) ≠ some mv) :
    sampleGrid data x y width height mv
      = some (weightedTotal
          ((windowIndices ⌊x⌋ ⌊y⌋).map (fun rc => cellValue data width rc.1 rc.2))
          (windowWeights (cubicWeights (x - (⌊x⌋ : ℚ))) (cubicWeights (y - (⌊y⌋ : ℚ))))) := by
  rw [sampleGrid_interior hlen x y mv hx0 hx1 hy0 hy1]
  have hany : ¬ (((windowIndices ⌊x⌋ ⌊y⌋).map (fun rc => cellValue data width rc.1 rc.2)).any
      (fun val => decide (val = mv)) = true) := by
    rw [List.any_eq_true]
    rintro ⟨val, hval, hvm⟩
    obtain ⟨rc, hrc, rfl⟩ := List.mem_map.1 hval
    have hr := windowIndices_in_range hx0 hx1 hy0 hy1 rc hrc
    obtain ⟨⟨r0, r1⟩, c0, c1⟩ := windowIndices_mem_range rc hrc
    have hs := sliceAt_cellValue hlen hr.1 hr.2.1 hr.2.2.1 hr.2.2.2
    apply hwin rc.1 rc.2 r0 r1 c0 c1
    rw [hs]
    simpa using hvm
  rw [if_neg hany]

theorem weightedTotal_window_eq (data : List ℚ) (width x0 y0 : Int) (u v : ℚ) :
    weightedTotal ((windowIndices x0 y0).map (fun rc => cellValue data width rc.1 rc.2))
        (windowWeights (cubicWeights u) (cubicWeights v))
      = cubicConvolution data width x0 y0 u v := by
  rw [cubicWeights_eq_spec u, cubicWeights_eq_spec v]
  simp only [windowIndices, List.map_cons, List.map_nil]
  rw [weightedTotal_expand]
  simp only [cubicConvolution, Fin.sum_univ_four, Fin.val_zero, Fin.val_one, Fin.val_two,
    Nat.cast_zero, Nat.cast_one, Nat.cast_ofNat, add_zero, sub_add_cancel]
  have e1 : y0 - 1 + 2 = y0 + 1 := by ring
  have e2 : x0 - 1 + 2 = x0 + 1 := by ring
  have e3 : y0 - 1 + ((3 : Fin 4).val : Int) = y0 + 2 := by
    have : ((3 : Fin 4).val : Int) = 3 := rfl
    rw [this]; ring
  have e4 : x0 - 1 + ((3 : Fin 4).val : Int) = x0 + 2 := by
    have : ((3 : Fin 4).val : Int) = 3 := rfl
    rw [this]; ring
  rw [e1, e2, e3, e4]
  generalize specCubic 0 u = a0
  generalize specCubic 1 u = a1
  generalize specCubic 2 u = a2
  generalize specCubic 3 u = a3
  generalize specCubic 0 v = b0
  generalize specCubic 1 v = b1
  generalize specCubic 2 v = b2
  generalize specCubic 3 v = b3
  ring

/-- C2 (as amended): for an in-envelope query whose floor cell `(x0, y0)` has
`x0 ≥ 3`, `y0 ≥ 3`, `Nx-1-x0 ≥ 4`, `Ny-1-y0 ≥ 4` and whose 4x4 neighbourhood
holds no `missingValue`, `GetInterpolatedData` returns the unclamped
cubic-convolution sum `Σ value[i][j]*wx[j]*wy[i]` with the weights `w0..w3` of
the specification at `u = x - x0` and `v = y - y0`. -/
theorem GetInterpolatedData_bicubic (g : GRIBFile)
    (hlen : (g.DataValues.length : Int) = g.Header.Nx * g.Header.Ny) (lat lng : ℚ)
    (hin : ¬ outsideEnvelope g lat (wrapLng lng))
    (hx0 : ⌊gridX g (wrapLng lng)⌋ ≥ 3) (hy0 : ⌊gridY g lat⌋ ≥ 3)
    (hx1 : g.Header.Nx - 1 - ⌊gridX g (wrapLng lng)⌋ ≥ 4)
    (hy1 : g.Header.Ny - 1 - ⌊gridY g lat⌋ ≥ 4)
    (hwin : ∀ row col : Int, ⌊gridY g lat⌋ - 1 ≤ row → row ≤ ⌊gridY g lat⌋ + 2 →
      ⌊gridX g (wrapLng lng)⌋ - 1 ≤ col → col ≤ ⌊gridX g (wrapLng lng)⌋ + 2 →
      sliceAt g.DataValues (row * g.Header.Nx + col) ≠ some g.Header.MissingValue) :
    GetInterpolatedData g lat lng
      = some (cubicConvolution g.DataValues g.Header.Nx
          ⌊gridX g (wrapLng lng)⌋ ⌊gridY g lat⌋
          (gridX g (wrapLng lng) - (⌊gridX g (wrapLng lng)⌋ : ℚ))
          (gridY g lat - (⌊gridY g lat⌋ : ℚ))) := by
  unfold GetInterpolatedData
  simp only []
  rw [if_neg hin, sampleGrid_bicubic hlen _ _ _ hx0 (by omega) hy0 (by omega) hwin,
    weightedTotal_window_eq]

/-- C2 (as amended) on `squareFieldWide` at row 4, column 4.5. -/
theorem GetInterpolatedData_bicubic_witness :
    GetInterpolatedData squareFieldWide 4 (9 / 2)
      = some (cubicConvolution squareFieldWide.DataValues squareFieldWide.Header.Nx
          ⌊gridX squareFieldWide (wrapLng (9 / 2))⌋ ⌊gridY squareFieldWide 4⌋
          (gridX squareFieldWide (wrapLng (9 / 2))
            - (⌊gridX squareFieldWide (wrapLng (9 / 2))⌋ : ℚ))
          (gridY squareFieldWide 4 - (⌊gridY squareFieldWide 4⌋ : ℚ))) :=
  GetInterpolatedData_bicubic squareFieldWide (by decide) 4 (9 / 2) (by decide!) (by decide!)
    (by decide!) (by decide!) (by decide!) (by
      intro row col _ _ _ _ h
      have hm : (9999 : ℚ) ∈ squareFieldWide.DataValues := sliceAt_mem h
      revert hm
      decide!)

/-- C2 as stated fails: in `squareField` (8 columns) the query at row 4,
column 4.5 is inside the envelope, its floor cell (4, 4) is 3 cells from the
right border (`Nx-1-x0 = 3`) and at least 3 from the others, its 4x4
neighbourhood holds no `missingValue`, yet the sampler returns the bilinear
value 41/2 and not the cubic-convolution sum 81/4. -/
theorem GetInterpolatedData_margin_counterexample :
    ¬ outsideEnvelope squareField 4 (wrapLng (9 / 2))
    ∧ ⌊gridX squareField (wrapLng (9 / 2))⌋ = 4 ∧ ⌊gridY squareField 4⌋ = 4
    ∧ squareField.Header.Nx - 1 - 4 ≥ 3 ∧ squareField.Header.Ny - 1 - 4 ≥ 3
    ∧ (∀ rc ∈ windowIndices 4 4,
        sliceAt squareField.DataValues (rc.1 * squareField.Header.Nx + rc.2)
          ≠ some squareField.Header.MissingValue)
    ∧ GetInterpolatedData squareField 4 (9 / 2) = some (41 / 2)
    ∧ cubicConvolution squareField.DataValues squareField.Header.Nx 4 4
        (gridX squareField (wrapLng (9 / 2)) - ((4 : Int) : ℚ))
        (gridY squareField 4 - ((4 : Int) : ℚ)) = 81 / 4 := by
  refine ⟨by decide!, by decide!, by decide!, by decide!, by decide!, by decide!, by decide!,
    by decide!⟩

theorem wrapLng_of_mem {lng : ℚ} (h0 : -180 ≤ lng) (h1 : lng ≤ 180) : wrapLng lng = lng := by
  unfold wrapLng
  rw [if_neg (not_lt.2 h1), if_neg (not_lt.2 h0)]

end Grib2

namespace Colormap

/-! ## Theorems: the colour map -/


theorem find_last_hit (p : ColorMapEntry → Bool) (pre post : List ColorMapEntry)
    (e : ColorMapEntry) (he : p e = true) (hpost : ∀ f ∈ post, p f = false) :
    (pre ++ e :: post).reverse.find? p = some e := by
  rw [List.reverse_append, List.reverse_cons, List.append_assoc, List.find?_append]
  have hnone : post.reverse.find? p = none := by
    rw [List.find?_eq_none]
    intro f hf
    rw [hpost f (List.mem_reverse.1 hf)]
    simp
  rw [hnone]
  simp [he]

theorem exists_last_hit (p : ColorMapEntry → Bool) :
    ∀ l : List ColorMapEntry, (∃ f ∈ l, p f = true) →
      ∃ pre e post, l = pre ++ e :: post ∧ p e = true ∧ ∀ f ∈ post, p f = false := by
  intro l
  induction l with
  | nil => rintro ⟨f, hf, -⟩; cases hf
  | cons a rest ih =>
    intro h
    by_cases hr : ∃ f ∈ rest, p f = true
    · obtain ⟨pre, e, post, hl, he, hpost⟩ := ih hr
      exact ⟨a :: pre, e, post, by rw [hl]; rfl, he, hpost⟩
    · obtain ⟨f, hf, hpf⟩ := h
      have hall : ∀ g ∈ rest, p g = false := by
        intro g hg
        cases hpg : p g with
        | false => rfl
        | true => exact absurd ⟨g, hg, hpg⟩ hr
      rcases List.mem_cons.1 hf with rfl | hf
      · exact ⟨[], f, rest, rfl, hpf, hall⟩
      · rw [hall f hf] at hpf; cases hpf

/-- C7: for a table in non-decreasing threshold order and `value > 0`:
if some entry has `threshold ≤ value`, there is a last such entry, `GetColor`
returns its colour and its threshold is the greatest threshold not exceeding
`value`; if no entry has `threshold ≤ value`, `GetColor` returns the colour of
the first-loaded entry; on the empty table it returns the default colour
`(13, 26, 43, 255)`. -/
theorem GetColor_sorted (colorMap : List ColorMapEntry) (value : ℚ)
    (hsorted : colorMap.Pairwise (fun a b => a.ValueThreshold ≤ b.ValueThreshold))
    (hpos : 0 < value) :
    ((∃ f ∈ colorMap, f.ValueThreshold ≤ (value : WithBot ℚ)) →
      ∃ pre e post, colorMap = pre ++ e :: post
        ∧ e.ValueThreshold ≤ (value : WithBot ℚ)
        ∧ (∀ f ∈ post, ¬ f.ValueThreshold ≤ (value : WithBot ℚ))
        ∧ GetColor colorMap value = e.Color
        ∧ (∀ f ∈ colorMap, f.ValueThreshold ≤ (value : WithBot ℚ) →
            f.ValueThreshold ≤ e.ValueThreshold))
    ∧ ((∀ f ∈ colorMap, ¬ f.ValueThreshold ≤ (value : WithBot ℚ)) →
        ∀ e rest, colorMap = e :: rest → GetColor colorMap value = e.Color)
    ∧ (colorMap = [] → GetColor colorMap value = ⟨13, 26, 43, 255⟩) := by
  have hnp : ¬ value ≤ 0 := not_le.2 hpos
  refine ⟨?_, ?_, ?_⟩
  · intro hex
    obtain ⟨pre, e, post, hl, he, hpost⟩ := exists_last_hit
      (fun e => decide (e.ValueThreshold ≤ (value : WithBot ℚ))) colorMap
      (by obtain ⟨f, hf, hfv⟩ := hex; exact ⟨f, hf, by simpa using hfv⟩)
    have he2 : e.ValueThreshold ≤ (value : WithBot ℚ) := by simpa using he
    have hpost2 : ∀ f ∈ post, ¬ f.ValueThreshold ≤ (value : WithBot ℚ) := by
      intro f hf; simpa using hpost f hf
    refine ⟨pre, e, post, hl, he2, hpost2, ?_, ?_⟩
    · unfold GetColor
      rw [if_neg hnp, hl, find_last_hit _ pre post e he hpost]
    · intro f hf hfv
      rw [hl] at hf hsorted
      rcases List.mem_append.1 hf with hfp | hfe
      · exact (List.pairwise_append.1 hsorted).2.2 f hfp e (List.mem_cons_self _ _)
      · rcases List.mem_cons.1 hfe with rfl | hfpost
        · exact le_refl _
        · exact absurd hfv (hpost2 f hfpost)
  · intro hnone e rest hl
    unfold GetColor
    have hfind : colorMap.reverse.find?
        (fun e => decide (e.ValueThreshold ≤ (value : WithBot ℚ))) = none := by
      rw [List.find?_eq_none]
      intro f hf
      simpa using hnone f (List.mem_reverse.1 hf)
    rw [if_neg hnp, hfind, hl]
  · intro hl
    subst hl
    unfold GetColor
    rw [if_neg hnp]
    rfl

/-- C7 on the two-entry scenario table at `value = 7`. -/
theorem GetColor_sorted_witness :
    GetColor scenarioTable 7 = red
    ∧ ((∃ f ∈ scenarioTable, f.ValueThreshold ≤ ((7 : ℚ) : WithBot ℚ)) →
      ∃ pre e post, scenarioTable = pre ++ e :: post
        ∧ e.ValueThreshold ≤ ((7 : ℚ) : WithBot ℚ)
        ∧ (∀ f ∈ post, ¬ f.ValueThreshold ≤ ((7 : ℚ) : WithBot ℚ))
        ∧ GetColor scenarioTable 7 = e.Color
        ∧ (∀ f ∈ scenarioTable, f.ValueThreshold ≤ ((7 : ℚ) : WithBot ℚ) →
            f.ValueThreshold ≤ e.ValueThreshold)) :=
  ⟨by decide!, (GetColor_sorted scenarioTable 7 (by simp [scenarioTable]) (by norm_num)).1⟩

/-- C9: for every `value ≤ 0` and every table, `GetColor` returns the fixed
default colour `(13, 26, 43, 255)`. -/
theorem GetColor_nonpositive (colorMap : List ColorMapEntry) (value : ℚ) (h : value ≤ 0) :
    GetColor colorMap value = ⟨13, 26, 43, 255⟩ := by
  unfold GetColor
  rw [if_pos h]
  rfl

/-- C9 on the scenario table (which has a `-inf` threshold) at `value = 0`. -/
theorem GetColor_nonpositive_witness :
    GetColor scenarioTable 0 = ⟨13, 26, 43, 255⟩ :=
  GetColor_nonpositive scenarioTable 0 (le_refl 0)

/-- C8 (as amended): for a non-empty table in non-decreasing threshold order
and every `value > 0` that exceeds every threshold, `GetColor` returns the
colour of the last entry, whose threshold is the greatest of the table. -/
theorem GetColor_above_all (colorMap : List ColorMapEntry) (value : ℚ)
    (hne : colorMap ≠ [])
    (hsorted : colorMap.Pairwise (fun a b => a.ValueThreshold ≤ b.ValueThreshold))
    (hpos : 0 < value)
    (habove : ∀ f ∈ colorMap, f.ValueThreshold < (value : WithBot ℚ)) :
    ∃ init e, colorMap = init ++ [e]
      ∧ GetColor colorMap value = e.Color
      ∧ ∀ f ∈ colorMap, f.ValueThreshold ≤ e.ValueThreshold := by
  have hnp : ¬ value ≤ 0 := not_le.2 hpos
  obtain ⟨init, e, hl⟩ : ∃ init e, colorMap = init ++ [e] :=
    ⟨colorMap.dropLast, colorMap.getLast hne, (List.dropLast_append_getLast hne).symm⟩
  refine ⟨init, e, hl, ?_, ?_⟩
  · unfold GetColor
    have he : decide (e.ValueThreshold ≤ (value : WithBot ℚ)) = true := by
      have := habove e (by rw [hl]; simp)
      simpa using le_of_lt this
    rw [if_neg hnp, hl, find_last_hit _ init [] e he (by simp)]
  · intro f hf
    rw [hl] at hf hsorted
    rcases List.mem_append.1 hf with hfp | hfe
    · exact (List.pairwise_append.1 hsorted).2.2 f hfp e (List.mem_singleton_self _)
    · rw [List.mem_singleton.1 hfe]

/-- C8 (as amended) on the scenario table at `value = 7`. -/
theorem GetColor_above_all_witness :
    ∃ init e, scenarioTable = init ++ [e]
      ∧ GetColor scenarioTable 7 = e.Color
      ∧ ∀ f ∈ scenarioTable, f.ValueThreshold ≤ e.ValueThreshold :=
  GetColor_above_all scenarioTable 7 (by simp [scenarioTable]) (by simp [scenarioTable])
    (by norm_num) (by
      intro f hf
      simp only [scenarioTable, List.mem_cons, List.mem_singleton, List.not_mem_nil,
        or_false] at hf
      rcases hf with rfl | rfl
      · exact WithBot.bot_lt_coe _
      · exact WithBot.coe_lt_coe.2 (by norm_num))

/-- C8 as stated fails twice.  In `negativeTable` the value -1 exceeds the only
threshold -5, yet `GetColor` returns the default colour and not the entry's
blue.  In `descendingTable` the value 10 exceeds both thresholds, the entry
with the greatest threshold is `(5, red)`, yet `GetColor` returns blue. -/
theorem GetColor_above_all_counterexample :
    (negativeTable ≠ []
      ∧ (∀ f ∈ negativeTable, f.ValueThreshold < (((-1 : ℚ)) : WithBot ℚ))
      ∧ GetColor negativeTable (-1) = defaultColor
      ∧ GetColor negativeTable (-1) ≠ blue)
    ∧ (descendingTable ≠ []
      ∧ (∀ f ∈ descendingTable, f.ValueThreshold < ((10 : ℚ) : WithBot ℚ))
      ∧ (∀ f ∈ descendingTable, f.ValueThreshold ≤ ((5 : ℚ) : WithBot ℚ))
      ∧ descendingTable.head? = some ⟨((5 : ℚ) : WithBot ℚ), red⟩
      ∧ GetColor descendingTable 10 = blue
      ∧ GetColor descendingTable 10 ≠ red) := by
  refine ⟨⟨List.cons_ne_nil _ _, ?_, by decide!, by decide!⟩,
    ⟨List.cons_ne_nil _ _, ?_, ?_, rfl, by decide!, by decide!⟩⟩
  · intro f hf
    simp only [negativeTable, List.mem_singleton] at hf
    subst hf
    exact WithBot.coe_lt_coe.2 (by norm_num)
  · intro f hf
    simp only [descendingTable, List.mem_cons, List.mem_singleton, List.not_mem_nil,
      or_false] at hf
    rcases hf with rfl | rfl <;> exact WithBot.coe_lt_coe.2 (by norm_num)
  · intro f hf
    simp only [descendingTable, List.mem_cons, List.mem_singleton, List.not_mem_nil,
      or_false] at hf
    rcases hf with rfl | rfl <;> exact WithBot.coe_le_coe.2 (by norm_num)

end Colormap

/-! ## Theorems: geodesy and tile enumeration -/

namespace Render

theorem two_zpow_cast (zoom : Int) (hz : 0 ≤ zoom) :
    (2 : ℚ) ^ zoom = (((2 : Int) ^ zoom.toNat : Int) : ℚ) := by
  obtain ⟨k, rfl⟩ := Int.eq_ofNat_of_zero_le hz
  simp

theorem truncToInt_two_zpow (zoom : Int) (hz : 0 ≤ zoom) :
    truncToInt ((2 : ℚ) ^ zoom) = (2 : Int) ^ zoom.toNat := by
  rw [two_zpow_cast zoom hz]
  unfold truncToInt
  have h : (0 : ℚ) ≤ (((2 : Int) ^ zoom.toNat : Int) : ℚ) := by
    exact_mod_cast (pow_nonneg (by norm_num : (0 : Int) ≤ 2) _)
  rw [if_pos h, Int.floor_intCast]

theorem LatLonToTile_fst_range (mercatorFraction : ℚ → ℚ) (lat lon : ℚ) (zoom : Int)
    (hz : 0 ≤ zoom) :
    0 ≤ (LatLonToTile mercatorFraction lat lon zoom).1
    ∧ (LatLonToTile mercatorFraction lat lon zoom).1 ≤ 2 ^ zoom.toNat - 1 := by
  have hN : (1 : Int) ≤ 2 ^ zoom.toNat := one_le_pow₀ (by norm_num)
  have hn := truncToInt_two_zpow zoom hz
  have hnpos : (0 : ℚ) ≤ (2 : ℚ) ^ zoom := by positivity
  unfold LatLonToTile
  simp only []
  rw [hn]
  have hlon : -180 ≤ (if lon < -180 then (-180 : ℚ) else if lon > 180 then 180 else lon) := by
    split
    · exact le_refl _
    · split
      · norm_num
      · rename_i h _; exact le_of_not_lt h
  generalize (if lon < -180 then (-180 : ℚ) else if lon > 180 then 180 else lon) = lon2 at hlon ⊢
  have hx0 : 0 ≤ ⌊(lon2 + 180) / 360 * (2 : ℚ) ^ zoom⌋ := by
    apply Int.floor_nonneg.2
    apply mul_nonneg _ hnpos
    apply div_nonneg _ (by norm_num)
    linarith
  constructor
  · split <;> omega
  · split <;> omega

theorem LatLonToTile_snd_range (mercatorFraction : ℚ → ℚ) (lat lon : ℚ) (zoom : Int)
    (hz : 0 ≤ zoom) :
    0 ≤ (LatLonToTile mercatorFraction lat lon zoom).2
    ∧ (LatLonToTile mercatorFraction lat lon zoom).2 ≤ 2 ^ zoom.toNat - 1 := by
  have hN : (1 : Int) ≤ 2 ^ zoom.toNat := one_le_pow₀ (by norm_num)
  have hn := truncToInt_two_zpow zoom hz
  unfold LatLonToTile
  simp only []
  rw [hn]
  generalize (if lat < -maxLat then -maxLat else if lat > maxLat then maxLat else lat) = lat2
  constructor
  · split
    · exact le_refl _
    · split <;> omega
  · split
    · omega
    · split <;> omega

/-- C10: for every `zoom ≥ 0` and every latitude and longitude (also outside
`±85.05112878` and `±180`), `LatLonToTile` returns `(x, y)` with
`0 ≤ x ≤ 2^zoom - 1` and `0 ≤ y ≤ 2^zoom - 1`, whatever the projection yields. -/
theorem LatLonToTile_in_range (mercatorFraction : ℚ → ℚ) (lat lon : ℚ) (zoom : Int)
    (hz : 0 ≤ zoom) :
    0 ≤ (LatLonToTile mercatorFraction lat lon zoom).1
    ∧ (LatLonToTile mercatorFraction lat lon zoom).1 ≤ 2 ^ zoom.toNat - 1
    ∧ 0 ≤ (LatLonToTile mercatorFraction lat lon zoom).2
    ∧ (LatLonToTile mercatorFraction lat lon zoom).2 ≤ 2 ^ zoom.toNat - 1 := by
  obtain ⟨hx0, hx1⟩ := LatLonToTile_fst_range mercatorFraction lat lon zoom hz
  obtain ⟨hy0, hy1⟩ := LatLonToTile_snd_range mercatorFraction lat lon zoom hz
  exact ⟨hx0, hx1, hy0, hy1⟩

/-- C10 at zoom 3 for a longitude beyond 180 on the equator. -/
theorem LatLonToTile_in_range_witness :
    0 ≤ (LatLonToTile equatorFraction 0 200 3).1
    ∧ (LatLonToTile equatorFraction 0 200 3).1 ≤ 2 ^ (3 : Int).toNat - 1
    ∧ 0 ≤ (LatLonToTile equatorFraction 0 200 3).2
    ∧ (LatLonToTile equatorFraction 0 200 3).2 ≤ 2 ^ (3 : Int).toNat - 1 :=
  LatLonToTile_in_range equatorFraction 0 200 3 (by decide)

end Render
namespace Render

/-- C12: for a result with zoom `z` in `[0, 31]` and XYZ row `y` in
`[0, 2^z - 1]`, the stored row `tmsY` is exactly `2^z - 1 - y` (the `uint32`
arithmetic does not wrap), it lies in `[0, 2^z - 1]`, flipping the stored row
again gives `y`, and distinct rows at one zoom are stored as distinct rows. -/
theorem tmsY_flip (z x y : Nat) (data : List Nat) (hz : z ≤ 31) (hy : y ≤ 2 ^ z - 1) :
    tmsY ⟨z, x, y, data⟩ = 2 ^ z - 1 - y
    ∧ tmsY ⟨z, x, y, data⟩ ≤ 2 ^ z - 1
    ∧ tmsY ⟨z, x, tmsY ⟨z, x, y, data⟩, data⟩ = y
    ∧ (∀ y2 : Nat, y2 ≤ 2 ^ z - 1 →
        tmsY ⟨z, x, y2, data⟩ = tmsY ⟨z, x, y, data⟩ → y2 = y) := by
  have hpow : (2 : Nat) ^ z ≤ 2 ^ 31 := Nat.pow_le_pow_right (by norm_num) hz
  have hpos : 1 ≤ (2 : Nat) ^ z := Nat.one_le_two_pow
  have key : ∀ w : Nat, w ≤ 2 ^ z - 1 → tmsY ⟨z, x, w, data⟩ = 2 ^ z - 1 - w := by
    intro w hw
    unfold tmsY
    simp only []
    have hc : ((2 : Int) ^ z) = (((2 : Nat) ^ z : Nat) : Int) := by push_cast; rfl
    rw [hc]
    generalize (2 : Nat) ^ z = N at hpow hpos hw ⊢
    norm_num at hpow
    omega
  have h1 := key y hy
  refine ⟨h1, by rw [h1]; omega, ?_, ?_⟩
  · rw [h1, key _ (by omega)]
    omega
  · intro y2 hy2 he
    rw [h1, key y2 hy2] at he
    omega

/-- C12 at zoom 3, row 2. -/
theorem tmsY_flip_witness :
    tmsY ⟨3, 0, 2, []⟩ = 2 ^ 3 - 1 - 2
    ∧ tmsY ⟨3, 0, 2, []⟩ ≤ 2 ^ 3 - 1
    ∧ tmsY ⟨3, 0, tmsY ⟨3, 0, 2, []⟩, []⟩ = 2
    ∧ (∀ y2 : Nat, y2 ≤ 2 ^ 3 - 1 →
        tmsY ⟨3, 0, y2, []⟩ = tmsY ⟨3, 0, 2, []⟩ → y2 = 2) :=
  tmsY_flip 3 0 2 [] (by decide) (by decide)

end Render

namespace Colormap

theorem uint8_Atoi (n : Int) :
    (minInt ≤ n → n ≤ maxInt → ((uint8 (Atoi n) : Nat) : Int) = n % 256)
    ∧ (maxInt < n → uint8 (Atoi n) = 255)
    ∧ (n < minInt → uint8 (Atoi n) = 0)
    ∧ (0 ≤ n → n ≤ 255 → ((uint8 (Atoi n) : Nat) : Int) = n
        ∧ uint8 (Atoi n) = clampByte n) := by
  unfold uint8 Atoi clampByte maxInt minInt
  refine ⟨?_, ?_, ?_, ?_⟩
  · intro h0 h1
    rw [if_neg (by omega), if_neg (by omega)]
    omega
  · intro h
    rw [if_pos h]
    rfl
  · intro h
    rw [if_neg (by omega), if_pos h]
    rfl
  · intro h0 h1
    rw [if_neg (by omega), if_neg (by omega)]
    omega

/-- C14 (as amended): for a colour-map line with a valid threshold and integer
channel fields, `Load` stores for a field denoting the integer `n` the
conversion `uint8(v)` of the value `v` that `strconv.Atoi` returns: `n` reduced
modulo 256 when `n` fits a 64-bit `int`, 255 when `n` is above `2^63 - 1` and 0
when `n` is below `-2^63` (the parse saturates and its error is dropped); a
channel already in `0..255` is stored unchanged, where it agrees with the clamp
`min(max(n, 0), 255)`. -/
theorem loadEntry_channels (threshold : WithBot ℚ) (r g b a : Int) :
    (loadEntry threshold r g b a).ValueThreshold = threshold
    ∧ (loadEntry threshold r g b a).Color
        = ⟨uint8 (Atoi r), uint8 (Atoi g), uint8 (Atoi b), uint8 (Atoi a)⟩
    ∧ (∀ n : Int, n = r ∨ n = g ∨ n = b ∨ n = a →
        (minInt ≤ n → n ≤ maxInt → ((uint8 (Atoi n) : Nat) : Int) = n % 256)
        ∧ (maxInt < n → uint8 (Atoi n) = 255)
        ∧ (n < minInt → uint8 (Atoi n) = 0)
        ∧ (0 ≤ n → n ≤ 255 → ((uint8 (Atoi n) : Nat) : Int) = n
            ∧ uint8 (Atoi n) = clampByte n)) :=
  ⟨rfl, rfl, fun n _ => uint8_Atoi n⟩

/-- C14 (as amended) on the channel fields 300, -1, 9223372036854775808 and
200: stored as 44, 255, 255 and 200. -/
theorem loadEntry_channels_witness :
    (loadEntry ⊥ 300 (-1) 9223372036854775808 200).Color = ⟨44, 255, 255, 200⟩
    ∧ ((uint8 (Atoi 300) : Nat) : Int) = 300 % 256
    ∧ ((uint8 (Atoi (-1)) : Nat) : Int) = -1 % 256
    ∧ uint8 (Atoi 9223372036854775808) = 255
    ∧ ((uint8 (Atoi 200) : Nat) : Int) = 200 ∧ uint8 (Atoi 200) = clampByte 200 :=
  have h := loadEntry_channels ⊥ 300 (-1) 9223372036854775808 200
  ⟨by decide,
    (h.2.2 300 (Or.inl rfl)).1 (by decide) (by decide),
    (h.2.2 (-1) (Or.inr (Or.inl rfl))).1 (by decide) (by decide),
    (h.2.2 9223372036854775808 (Or.inr (Or.inr (Or.inl rfl)))).2.1 (by decide),
    ((h.2.2 200 (Or.inr (Or.inr (Or.inr rfl)))).2.2.2 (by decide) (by decide)).1,
    ((h.2.2 200 (Or.inr (Or.inr (Or.inr rfl)))).2.2.2 (by decide) (by decide)).2⟩

/-- C14 as stated fails: the channel field 300 is stored as 44 and the field
-1 as 255, while the clamp `min(max(n, 0), 255)` gives 255 and 0. -/
theorem loadEntry_clamp_counterexample :
    (loadEntry ⊥ 300 (-1) 0 255).Color = ⟨44, 255, 0, 255⟩
    ∧ clampByte 300 = 255 ∧ clampByte (-1) = 0
    ∧ (loadEntry ⊥ 300 (-1) 0 255).Color.R ≠ clampByte 300
    ∧ (loadEntry ⊥ 300 (-1) 0 255).Color.G ≠ clampByte (-1) := by
  refine ⟨by decide, by decide, by decide, by decide, by decide⟩

end Colormap

namespace Render

/-- C13 (as amended): `computeBoundsFromGRIB` sets the box to
`[min(la1,la2) - |dy|, min(lo1',lo2) - |dx|, max(la1,la2) + |dy|,
max(lo1',lo2) + |dx|]` in the order `(minLat, minLon, maxLat, maxLon)`; the box
has `minLat ≤ maxLat` and `minLon ≤ maxLon`; it contains every pair
`(lat, lon')` that passes the envelope test of `GetInterpolatedData`, `lon'`
being the wrapped longitude the test sees, hence every accepted query
`(lat, lon)` with `-180 ≤ lon ≤ 180`. -/
theorem computeBoundsFromGRIB_box (g : Grib2.GRIBFile) :
    (computeBoundsFromGRIB g).b0 = min g.Header.La1 g.Header.La2 - |g.Header.DY|
    ∧ (computeBoundsFromGRIB g).b1
        = min (Grib2.normLo1 g.Header.Lo1) g.Header.Lo2 - |g.Header.DX|
    ∧ (computeBoundsFromGRIB g).b2 = max g.Header.La1 g.Header.La2 + |g.Header.DY|
    ∧ (computeBoundsFromGRIB g).b3
        = max (Grib2.normLo1 g.Header.Lo1) g.Header.Lo2 + |g.Header.DX|
    ∧ (computeBoundsFromGRIB g).b0 ≤ (computeBoundsFromGRIB g).b2
    ∧ (computeBoundsFromGRIB g).b1 ≤ (computeBoundsFromGRIB g).b3
    ∧ (∀ lat lng : ℚ, ¬ Grib2.outsideEnvelope g lat lng →
        (computeBoundsFromGRIB g).b0 ≤ lat ∧ lat ≤ (computeBoundsFromGRIB g).b2
        ∧ (computeBoundsFromGRIB g).b1 ≤ lng ∧ lng ≤ (computeBoundsFromGRIB g).b3)
    ∧ (∀ lat lng : ℚ, -180 ≤ lng → lng ≤ 180 →
        ¬ Grib2.outsideEnvelope g lat (Grib2.wrapLng lng) →
        (computeBoundsFromGRIB g).b0 ≤ lat ∧ lat ≤ (computeBoundsFromGRIB g).b2
        ∧ (computeBoundsFromGRIB g).b1 ≤ lng ∧ lng ≤ (computeBoundsFromGRIB g).b3) := by
  have hdy : 0 ≤ |g.Header.DY| := abs_nonneg _
  have hdx : 0 ≤ |g.Header.DX| := abs_nonneg _
  have hlat : min g.Header.La1 g.Header.La2 ≤ max g.Header.La1 g.Header.La2 :=
    le_trans (min_le_left _ _) (le_max_left _ _)
  have hlon : min (Grib2.normLo1 g.Header.Lo1) g.Header.Lo2
      ≤ max (Grib2.normLo1 g.Header.Lo1) g.Header.Lo2 :=
    le_trans (min_le_left _ _) (le_max_left _ _)
  have hin : ∀ lat lng : ℚ, ¬ Grib2.outsideEnvelope g lat lng →
      (computeBoundsFromGRIB g).b0 ≤ lat ∧ lat ≤ (computeBoundsFromGRIB g).b2
      ∧ (computeBoundsFromGRIB g).b1 ≤ lng ∧ lng ≤ (computeBoundsFromGRIB g).b3 := by
    intro lat lng h
    unfold Grib2.outsideEnvelope at h
    simp only [not_or, not_lt, gt_iff_lt] at h
    obtain ⟨h1, h2, h3, h4⟩ := h
    simp only [computeBoundsFromGRIB, Grib2.normLo1] at *
    refine ⟨by linarith, by linarith, by linarith, by linarith⟩
  refine ⟨rfl, rfl, rfl, rfl, ?_, ?_, hin, ?_⟩
  · simp only [computeBoundsFromGRIB]; linarith
  · simp only [computeBoundsFromGRIB, Grib2.normLo1] at *; linarith
  · intro lat lng h0 h1 h
    rw [Grib2.wrapLng_of_mem h0 h1] at h
    exact hin lat lng h

/-- C13 as stated fails: for `boxField` (longitudes 0..20) the query
`(5, 370)` is not rejected by the envelope test of `GetInterpolatedData`
(370 is wrapped to 10, and the sampler returns the sample 1), yet the derived
box ends at longitude 21 and does not contain `(5, 370)`. -/
theorem computeBoundsFromGRIB_wrap_counterexample :
    ¬ Grib2.outsideEnvelope boxField 5 (Grib2.wrapLng 370)
    ∧ Grib2.GetInterpolatedData boxField 5 370 = some 1
    ∧ Grib2.GetInterpolatedData boxField 5 370 ≠ some boxField.Header.MissingValue
    ∧ (computeBoundsFromGRIB boxField).b3 = 21
    ∧ ¬ ((370 : ℚ) ≤ (computeBoundsFromGRIB boxField).b3) := by
  refine ⟨by decide!, by decide!, by decide!, by decide!, by decide!⟩

end Render

namespace Render

theorem intRange_length (lo hi : Int) (h : lo ≤ hi) :
    ((intRange lo hi).length : Int) = hi - lo + 1 := by
  unfold intRange
  rw [List.length_map, List.length_range]
  omega

theorem mem_intRange (lo hi a : Int) : a ∈ intRange lo hi ↔ lo ≤ a ∧ a ≤ hi := by
  unfold intRange
  rw [List.mem_map]
  constructor
  · rintro ⟨k, hk, rfl⟩
    rw [List.mem_range] at hk
    omega
  · rintro ⟨h1, h2⟩
    refine ⟨(a - lo).toNat, ?_, ?_⟩
    · rw [List.mem_range]; omega
    · omega

theorem tileRange_ordered (mercatorFraction : ℚ → ℚ) (cfg : Config) (z : Int) :
    (tileRange mercatorFraction cfg z).1 ≤ (tileRange mercatorFraction cfg z).2.1
    ∧ (tileRange mercatorFraction cfg z).2.2.1 ≤ (tileRange mercatorFraction cfg z).2.2.2 := by
  unfold tileRange
  simp only []
  constructor
  · split
    · rename_i h; exact le_of_lt h
    · rename_i h; exact le_of_not_lt h
  · split
    · rename_i h; exact le_of_lt h
    · rename_i h; exact le_of_not_lt h

theorem tileRange_bounds (mercatorFraction : ℚ → ℚ) (cfg : Config) (z : Int) (hz : 0 ≤ z) :
    0 ≤ (tileRange mercatorFraction cfg z).1
    ∧ (tileRange mercatorFraction cfg z).2.1 ≤ 2 ^ z.toNat - 1
    ∧ 0 ≤ (tileRange mercatorFraction cfg z).2.2.1
    ∧ (tileRange mercatorFraction cfg z).2.2.2 ≤ 2 ^ z.toNat - 1 := by
  have a := LatLonToTile_fst_range mercatorFraction cfg.Bounds.b0 cfg.Bounds.b1 z hz
  have b := LatLonToTile_fst_range mercatorFraction cfg.Bounds.b2 cfg.Bounds.b3 z hz
  have c := LatLonToTile_snd_range mercatorFraction cfg.Bounds.b0 cfg.Bounds.b1 z hz
  have d := LatLonToTile_snd_range mercatorFraction cfg.Bounds.b2 cfg.Bounds.b3 z hz
  unfold tileRange
  simp only []
  refine ⟨?_, ?_, ?_, ?_⟩ <;> split <;> simp only [] <;> omega

theorem length_flatMap_const {α β : Type} (f : α → List β) (k : Nat) :
    ∀ l : List α, (∀ a ∈ l, (f a).length = k) → (l.flatMap f).length = l.length * k := by
  intro l
  induction l with
  | nil => intro _; simp
  | cons a rest ih =>
    intro h
    rw [List.flatMap_cons, List.length_append, h a (List.mem_cons_self _ _),
      ih (fun b hb => h b (List.mem_cons_of_mem _ hb)), List.length_cons]
    ring

theorem zoom_block_length (mercatorFraction : ℚ → ℚ) (cfg : Config) (z : Int) :
    ((((intRange (tileRange mercatorFraction cfg z).1
        (tileRange mercatorFraction cfg z).2.1).flatMap (fun x =>
      (intRange (tileRange mercatorFraction cfg z).2.2.1
        (tileRange mercatorFraction cfg z).2.2.2).map
          (fun y => (z, x, y)))).length : Nat) : Int)
      = tileCount mercatorFraction cfg z := by
  obtain ⟨hx, hy⟩ := tileRange_ordered mercatorFraction cfg z
  rw [length_flatMap_const _ (intRange (tileRange mercatorFraction cfg z).2.2.1
    (tileRange mercatorFraction cfg z).2.2.2).length _ (fun a _ => List.length_map _ _)]
  push_cast
  rw [intRange_length _ _ hx, intRange_length _ _ hy]
  rfl

theorem wrapInt64_of_range (n : Int) (h0 : -9223372036854775808 ≤ n)
    (h1 : n < 9223372036854775808) : wrapInt64 n = n := by
  unfold wrapInt64
  omega

theorem tileCount_bounds (mercatorFraction : ℚ → ℚ) (cfg : Config) (z : Int) (hz : 0 ≤ z) :
    1 ≤ tileCount mercatorFraction cfg z
    ∧ tileCount mercatorFraction cfg z ≤ 4 ^ z.toNat := by
  obtain ⟨hx, hy⟩ := tileRange_ordered mercatorFraction cfg z
  obtain ⟨bx0, bx1, by0, by1⟩ := tileRange_bounds mercatorFraction cfg z hz
  have h4 : (4 : Int) ^ z.toNat = 2 ^ z.toNat * 2 ^ z.toNat := by
    rw [← mul_pow]; norm_num
  unfold tileCount
  simp only []
  rw [h4]
  constructor
  · nlinarith
  · apply mul_le_mul <;> omega

theorem tilesAtZoom_eq_tileCount (mercatorFraction : ℚ → ℚ) (cfg : Config) (z : Int)
    (hz : 0 ≤ z) (hz31 : z ≤ 31) :
    tilesAtZoom mercatorFraction cfg z = tileCount mercatorFraction cfg z := by
  obtain ⟨h1, h2⟩ := tileCount_bounds mercatorFraction cfg z hz
  have hpow : (4 : Int) ^ z.toNat ≤ 4 ^ 31 :=
    pow_le_pow_right₀ (by norm_num) (by omega)
  norm_num at hpow
  have he : tilesAtZoom mercatorFraction cfg z
      = wrapInt64 (tileCount mercatorFraction cfg z) := rfl
  rw [he]
  exact wrapInt64_of_range _ (by omega) (by omega)

theorem intRange_cons (lo hi : Int) (h : lo ≤ hi) :
    intRange lo hi = lo :: intRange (lo + 1) hi := by
  unfold intRange
  have h1 : (hi + 1 - lo).toNat = (hi + 1 - (lo + 1)).toNat + 1 := by omega
  rw [h1, List.range_succ_eq_map, List.map_cons, List.map_map]
  congr 1
  · simp
  · apply List.map_congr_left
    intro k _
    simp only [Function.comp, Nat.succ_eq_add_one]
    push_cast
    ring

theorem intRange_nil (lo hi : Int) (h : hi < lo) : intRange lo hi = [] := by
  unfold intRange
  have h1 : (hi + 1 - lo).toNat = 0 := by omega
  rw [h1]
  rfl

theorem foldl_total_eq (mercatorFraction : ℚ → ℚ) (cfg : Config) (hi : Int) (hhi : hi ≤ 31) :
    ∀ (n : Nat) (lo acc : Int), (hi + 1 - lo).toNat = n → 0 ≤ lo → 0 ≤ acc →
      3 * acc + 1 ≤ 4 ^ lo.toNat →
      (intRange lo hi).foldl
          (fun acc z => wrapInt64 (acc + tilesAtZoom mercatorFraction cfg z)) acc
        = acc + ((((intRange lo hi).flatMap (fun z =>
            (intRange (tileRange mercatorFraction cfg z).1
              (tileRange mercatorFraction cfg z).2.1).flatMap (fun x =>
            (intRange (tileRange mercatorFraction cfg z).2.2.1
              (tileRange mercatorFraction cfg z).2.2.2).map
                (fun y => (z, x, y))))).length : Nat) : Int) := by
  intro n
  induction n with
  | zero =>
    intro lo acc hn _ _ _
    rw [intRange_nil lo hi (by omega)]
    simp
  | succ n ih =>
    intro lo acc hn hlo hacc hinv
    have hle : lo ≤ hi := by omega
    obtain ⟨h1, h2⟩ := tileCount_bounds mercatorFraction cfg lo hlo
    have hpow : (4 : Int) ^ lo.toNat ≤ 4 ^ 31 :=
      pow_le_pow_right₀ (by norm_num) (by omega)
    norm_num at hpow
    have hsucc : (4 : Int) ^ (lo + 1).toNat = 4 * 4 ^ lo.toNat := by
      have : (lo + 1).toNat = lo.toNat + 1 := by omega
      rw [this, pow_succ]; ring
    have hstep : wrapInt64 (acc + tilesAtZoom mercatorFraction cfg lo)
        = acc + tileCount mercatorFraction cfg lo := by
      rw [tilesAtZoom_eq_tileCount mercatorFraction cfg lo hlo (by omega)]
      exact wrapInt64_of_range _ (by omega) (by omega)
    rw [intRange_cons lo hi hle, List.foldl_cons, hstep,
      ih (lo + 1) (acc + tileCount mercatorFraction cfg lo) (by omega) (by omega) (by omega)
        (by rw [hsucc]; omega),
      List.flatMap_cons, List.length_append]
    push_cast
    rw [zoom_block_length]
    ring

theorem mem_enumerateCoords (mercatorFraction : ℚ → ℚ) (cfg : Config) (c : Int × Int × Int)
    (hc : c ∈ enumerateCoords mercatorFraction cfg) :
    cfg.MinZoom ≤ c.1 ∧ c.1 ≤ cfg.MaxZoom
    ∧ (tileRange mercatorFraction cfg c.1).1 ≤ c.2.1
    ∧ c.2.1 ≤ (tileRange mercatorFraction cfg c.1).2.1
    ∧ (tileRange mercatorFraction cfg c.1).2.2.1 ≤ c.2.2
    ∧ c.2.2 ≤ (tileRange mercatorFraction cfg c.1).2.2.2 := by
  unfold enumerateCoords at hc
  simp only [List.mem_flatMap, List.mem_map] at hc
  obtain ⟨z, hz, x, hx, y, hy, rfl⟩ := hc
  rw [mem_intRange] at hz hx hy
  exact ⟨hz.1, hz.2, hx.1, hx.2, hy.1, hy.2⟩

/-- C11 (as amended): for every bounds and every zoom range within `[0, 31]`,
the total computed before rendering (the sum over zooms of
`(maxX-minX+1)*(maxY-minY+1)`, min/max swapped when inverted, in 64-bit
arithmetic) equals the number of `TileJob`s the enumeration loop sends, and
each job sent at zoom `z` carries `Z = z` and coordinates with
`minX ≤ X ≤ maxX` and `minY ≤ Y ≤ maxY` for that zoom's range. -/
theorem enumerateJobs_total (mercatorFraction : ℚ → ℚ) (cfg : Config)
    (hmin : 0 ≤ cfg.MinZoom) (hmax : cfg.MaxZoom ≤ 31) :
    totalTiles mercatorFraction cfg = ((enumerateJobs mercatorFraction cfg).length : Int)
    ∧ ∀ c ∈ enumerateCoords mercatorFraction cfg,
        cfg.MinZoom ≤ c.1 ∧ c.1 ≤ cfg.MaxZoom
        ∧ ((makeJob c).Z : Int) = c.1
        ∧ (tileRange mercatorFraction cfg c.1).1 ≤ ((makeJob c).X : Int)
        ∧ ((makeJob c).X : Int) ≤ (tileRange mercatorFraction cfg c.1).2.1
        ∧ (tileRange mercatorFraction cfg c.1).2.2.1 ≤ ((makeJob c).Y : Int)
        ∧ ((makeJob c).Y : Int) ≤ (tileRange mercatorFraction cfg c.1).2.2.2 := by
  constructor
  · unfold totalTiles enumerateJobs enumerateCoords
    rw [foldl_total_eq mercatorFraction cfg cfg.MaxZoom hmax _ cfg.MinZoom 0 rfl hmin
      (le_refl 0) (by
        have : (1 : Int) ≤ 4 ^ cfg.MinZoom.toNat := one_le_pow₀ (by norm_num)
        omega),
      List.length_map, zero_add]
  · intro c hc
    obtain ⟨hz0, hz1, hx0, hx1, hy0, hy1⟩ := mem_enumerateCoords mercatorFraction cfg c hc
    have hz : 0 ≤ c.1 := le_trans hmin hz0
    obtain ⟨bx0, bx1, by0, by1⟩ := tileRange_bounds mercatorFraction cfg c.1 hz
    have hpow : (2 : Int) ^ c.1.toNat ≤ 2 ^ 31 :=
      pow_le_pow_right₀ (by norm_num) (by omega)
    norm_num at hpow
    have hX : ((makeJob c).X : Int) = c.2.1 := by
      unfold makeJob uint32; simp only []; omega
    have hY : ((makeJob c).Y : Int) = c.2.2 := by
      unfold makeJob uint32; simp only []; omega
    have hZ : ((makeJob c).Z : Int) = c.1 := by
      unfold makeJob uint8; simp only []; omega
    rw [hX, hY, hZ]
    exact ⟨hz0, hz1, rfl, hx0, hx1, hy0, hy1⟩

/-- C11 (as amended) on the full world at zoom levels 0 to 2: 7 jobs. -/
theorem enumerateJobs_total_witness :
    totalTiles equatorFraction worldConfig = 7
    ∧ totalTiles equatorFraction worldConfig
        = ((enumerateJobs equatorFraction worldConfig).length : Int) :=
  ⟨by decide!, (enumerateJobs_total equatorFraction worldConfig (by decide) (by decide)).1⟩

/-- C11 as stated fails on the coordinates: with the one-point box of
`deepZoomConfig` at zoom 33 the loop sends one job, for the column
`x = 8589932205 = minX = maxX`, but the job carries `X = uint32(x) = 4294964909`,
below `minX`.  The total fails from zoom 32 on: for a range of all `2^32`
columns and all `2^32` rows of zoom 32 the 64-bit product of line 162 is
`2^64`, which is reduced to 0. -/
theorem enumerateJobs_deep_zoom_counterexample :
    tileRange equatorFraction deepZoomConfig 33
        = (8589932205, 8589932205, 4294967296, 4294967296)
    ∧ enumerateCoords equatorFraction deepZoomConfig = [(33, 8589932205, 4294967296)]
    ∧ enumerateJobs equatorFraction deepZoomConfig = [⟨33, 4294964909, 0⟩]
    ∧ ¬ ((tileRange equatorFraction deepZoomConfig 33).1 ≤ ((4294964909 : Nat) : Int))
    ∧ wrapInt64 ((4294967295 - 0 + 1) * (4294967295 - 0 + 1)) = 0 := by
  refine ⟨by decide!, by decide!, by decide!, by decide!, by decide⟩

end Render

namespace Grib2

/-! ### Weighted means stay between the extreme samples -/

theorem exists_min_fst : ∀ l : List (ℚ × ℚ), l ≠ [] → ∃ a ∈ l, ∀ p ∈ l, a.1 ≤ p.1 := by
  intro l
  induction l with
  | nil => intro h; exact absurd rfl h
  | cons q rest ih =>
    intro _
    by_cases hr : rest = []
    · subst hr
      exact ⟨q, List.mem_singleton_self q, fun p hp => by rw [List.mem_singleton.1 hp]⟩
    · obtain ⟨a, ha, hmin⟩ := ih hr
      rcases le_total q.1 a.1 with h | h
      · refine ⟨q, List.mem_cons_self _ _, fun p hp => ?_⟩
        rcases List.mem_cons.1 hp with rfl | hp
        · exact le_refl _
        · exact le_trans h (hmin p hp)
      · refine ⟨a, List.mem_cons_of_mem _ ha, fun p hp => ?_⟩
        rcases List.mem_cons.1 hp with rfl | hp
        · exact h
        · exact hmin p hp

theorem exists_max_fst : ∀ l : List (ℚ × ℚ), l ≠ [] → ∃ b ∈ l, ∀ p ∈ l, p.1 ≤ b.1 := by
  intro l
  induction l with
  | nil => intro h; exact absurd rfl h
  | cons q rest ih =>
    intro _
    by_cases hr : rest = []
    · subst hr
      exact ⟨q, List.mem_singleton_self q, fun p hp => by rw [List.mem_singleton.1 hp]⟩
    · obtain ⟨b, hb, hmax⟩ := ih hr
      rcases le_total b.1 q.1 with h | h
      · refine ⟨q, List.mem_cons_self _ _, fun p hp => ?_⟩
        rcases List.mem_cons.1 hp with rfl | hp
        · exact le_refl _
        · exact le_trans (hmax p hp) h
      · refine ⟨b, List.mem_cons_of_mem _ hb, fun p hp => ?_⟩
        rcases List.mem_cons.1 hp with rfl | hp
        · exact h
        · exact hmax p hp

theorem weighted_sum_ge (lo : ℚ) : ∀ l : List (ℚ × ℚ), (∀ p ∈ l, 0 ≤ p.2) →
    (∀ p ∈ l, lo ≤ p.1) →
    lo * (l.map (fun p => p.2)).sum ≤ (l.map (fun p => p.1 * p.2)).sum := by
  intro l
  induction l with
  | nil => intro _ _; simp
  | cons q rest ih =>
    intro hw hlo
    have h1 := ih (fun p hp => hw p (List.mem_cons_of_mem _ hp))
      (fun p hp => hlo p (List.mem_cons_of_mem _ hp))
    have h2 : lo * q.2 ≤ q.1 * q.2 :=
      mul_le_mul_of_nonneg_right (hlo q (List.mem_cons_self _ _)) (hw q (List.mem_cons_self _ _))
    simp only [List.map_cons, List.sum_cons]
    linarith

theorem weighted_sum_le (hi : ℚ) : ∀ l : List (ℚ × ℚ), (∀ p ∈ l, 0 ≤ p.2) →
    (∀ p ∈ l, p.1 ≤ hi) →
    (l.map (fun p => p.1 * p.2)).sum ≤ hi * (l.map (fun p => p.2)).sum := by
  intro l
  induction l with
  | nil => intro _ _; simp
  | cons q rest ih =>
    intro hw hhi
    have h1 := ih (fun p hp => hw p (List.mem_cons_of_mem _ hp))
      (fun p hp => hhi p (List.mem_cons_of_mem _ hp))
    have h2 : q.1 * q.2 ≤ hi * q.2 :=
      mul_le_mul_of_nonneg_right (hhi q (List.mem_cons_self _ _)) (hw q (List.mem_cons_self _ _))
    simp only [List.map_cons, List.sum_cons]
    linarith

theorem weighted_mean_bounds (l : List (ℚ × ℚ)) (r : ℚ) (hw : ∀ p ∈ l, 0 ≤ p.2)
    (hW : 0 < (l.map (fun p => p.2)).sum)
    (hr : r * (l.map (fun p => p.2)).sum = (l.map (fun p => p.1 * p.2)).sum) :
    (∃ a ∈ l, a.1 ≤ r) ∧ (∃ b ∈ l, r ≤ b.1) := by
  have hne : l ≠ [] := by
    rintro rfl
    simp at hW
  obtain ⟨a, ha, hmin⟩ := exists_min_fst l hne
  obtain ⟨b, hb, hmax⟩ := exists_max_fst l hne
  have h1 := weighted_sum_ge a.1 l hw hmin
  have h2 := weighted_sum_le b.1 l hw hmax
  rw [← hr] at h1 h2
  exact ⟨⟨a, ha, le_of_mul_le_mul_right h1 hW⟩, ⟨b, hb, le_of_mul_le_mul_right h2 hW⟩⟩

theorem foldl_addPoint_sums : ∀ (pts : List DataPoint) (acc : ℚ × ℚ),
    pts.foldl addPoint acc
      = (acc.1 + ((pts.map (fun (p : DataPoint) => (p.value, 1 / (p.distSq + 1 / 1000)))).map
            (fun q => q.1 * q.2)).sum,
         acc.2 + ((pts.map (fun (p : DataPoint) => (p.value, 1 / (p.distSq + 1 / 1000)))).map
            (fun q => q.2)).sum) := by
  intro pts
  induction pts with
  | nil => intro acc; simp
  | cons p rest ih =>
    intro acc
    rw [List.foldl_cons, ih]
    simp only [addPoint, List.map_cons, List.sum_cons]
    ext <;> simp only [] <;> ring

theorem blendCorners_weighted (u v v00 v01 v10 v11 : ℚ) (b00 b01 b10 b11 : Bool) (r : ℚ)
    (h : blendCorners u v v00 b00 v01 b01 v10 b10 v11 b11 = (r, true)) :
    0 < (((([(b00, v00, (1 - u) * (1 - v)), (b01, v01, u * (1 - v)),
          (b10, v10, (1 - u) * v), (b11, v11, u * v)] : List (Bool × ℚ × ℚ)).filter
            (fun c => c.1)).map (fun c => c.2)).map (fun p => p.2)).sum
    ∧ r * (((([(b00, v00, (1 - u) * (1 - v)), (b01, v01, u * (1 - v)),
          (b10, v10, (1 - u) * v), (b11, v11, u * v)] : List (Bool × ℚ × ℚ)).filter
            (fun c => c.1)).map (fun c => c.2)).map (fun p => p.2)).sum
      = (((([(b00, v00, (1 - u) * (1 - v)), (b01, v01, u * (1 - v)),
          (b10, v10, (1 - u) * v), (b11, v11, u * v)] : List (Bool × ℚ × ℚ)).filter
            (fun c => c.1)).map (fun c => c.2)).map (fun p => p.1 * p.2)).sum := by
  cases b00 <;> cases b01 <;> cases b10 <;> cases b11 <;>
    simp only [blendCorners, validCount, addCorner, if_true, if_false, Bool.false_eq_true,
      Nat.reduceAdd, Nat.reduceLT, Nat.reduceEqDiff, Nat.reduceLeDiff, zero_add, add_zero,
      List.filter_cons, List.filter_nil, List.map_cons, List.map_nil, List.sum_cons,
      List.sum_nil, Prod.mk.injEq, and_false, false_and] at h ⊢
  all_goals try simp only [← add_assoc]
  all_goals first
    | contradiction
    | (obtain ⟨rfl, -⟩ := h
       constructor
       · have hW : (1 - u) * (1 - v) + u * (1 - v) + (1 - u) * v + u * v = 1 := by ring
         rw [hW]; norm_num
       · ring)
    | (split at h
       · rename_i hW
         simp only [Prod.mk.injEq, and_true] at h
         subst h
         exact ⟨hW, div_mul_cancel₀ _ (ne_of_gt hW)⟩
       · simp at h)

theorem neighbourSample_of_point {data : List ℚ} {width height : Int} {mv : ℚ} {x0 y0 : Int}
    {p : DataPoint}
    (h : ∃ d ∈ scanOffsets, cornerValid data width height mv (y0 + d.1) (x0 + d.2)
      ∧ p.value = cellValue data width (y0 + d.1) (x0 + d.2)
      ∧ p.value ∈ data ∧ p.value ≠ mv ∧ 0 ≤ p.distSq) :
    neighbourSample data width height mv x0 y0 p.value := by
  obtain ⟨d, hd, hv, he, -⟩ := h
  exact ⟨d, hd, hv, he⟩

theorem gradient_between {data : List ℚ} {width height : Int}
    (hlen : (data.length : Int) = width * height) (mv x y : ℚ) (x0 y0 : Int) (r : ℚ)
    (hres : gradientAdaptiveInterpolation data x y x0 y0 width height mv = some r)
    (hne : r ≠ mv) :
    ∃ lo hi, neighbourSample data width height mv x0 y0 lo
      ∧ neighbourSample data width height mv x0 y0 hi ∧ lo ≤ r ∧ r ≤ hi := by
  obtain ⟨pts, h1, h2⟩ := gradient_spec hlen mv x y x0 y0
  unfold gradientAdaptiveInterpolation at hres
  rw [h1] at hres
  match pts, h2, hres with
  | [], _, hres =>
    simp only [Option.some.injEq] at hres
    exact absurd hres.symm hne
  | [p], h2, hres =>
    simp only [Option.some.injEq] at hres
    subst hres
    have hp := neighbourSample_of_point (h2 p (List.mem_singleton_self p))
    exact ⟨p.value, p.value, hp, hp, le_refl _, le_refl _⟩
  | p :: q :: rest, h2, hres =>
    simp only [] at hres
    rw [foldl_addPoint_sums] at hres
    simp only [zero_add] at hres
    by_cases hW : (((p :: q :: rest).map
        (fun (p : DataPoint) => (p.value, 1 / (p.distSq + 1 / 1000)))).map
          (fun c => c.2)).sum > 0
    · rw [if_pos hW] at hres
      simp only [Option.some.injEq] at hres
      have hr : r * (((p :: q :: rest).map
          (fun (p : DataPoint) => (p.value, 1 / (p.distSq + 1 / 1000)))).map
            (fun c => c.2)).sum
          = (((p :: q :: rest).map
          (fun (p : DataPoint) => (p.value, 1 / (p.distSq + 1 / 1000)))).map
            (fun c => c.1 * c.2)).sum := by
        rw [← hres, div_mul_cancel₀ _ (ne_of_gt hW)]
      have hw : ∀ c ∈ (p :: q :: rest).map
          (fun (p : DataPoint) => (p.value, 1 / (p.distSq + 1 / 1000))), 0 ≤ c.2 := by
        intro c hc
        obtain ⟨s, hs, rfl⟩ := List.mem_map.1 hc
        obtain ⟨d, -, -, -, -, -, hd⟩ := h2 s hs
        simp only []
        apply div_nonneg (by norm_num)
        linarith
      obtain ⟨⟨a, ha, hle⟩, ⟨b, hb, hge⟩⟩ := weighted_mean_bounds _ r hw hW hr
      obtain ⟨sa, hsa, rfl⟩ := List.mem_map.1 ha
      obtain ⟨sb, hsb, rfl⟩ := List.mem_map.1 hb
      exact ⟨sa.value, sb.value, neighbourSample_of_point (h2 sa hsa),
        neighbourSample_of_point (h2 sb hsb), hle, hge⟩
    · rw [if_neg hW] at hres
      simp only [Option.some.injEq] at hres
      exact absurd hres.symm hne

theorem bilinear_between {data : List ℚ} {width height : Int}
    (hlen : (data.length : Int) = width * height) (mv x y : ℚ) (r : ℚ)
    (hres : tryBilinearInterpolation data x y ⌊x⌋ ⌊y⌋ width height mv = some (r, true)) :
    ∃ lo hi, neighbourSample data width height mv ⌊x⌋ ⌊y⌋ lo
      ∧ neighbourSample data width height mv ⌊x⌋ ⌊y⌋ hi ∧ lo ≤ r ∧ r ≤ hi := by
  obtain ⟨v00, v01, v10, v11, he, p00, p01, p10, p11⟩ := tryBilinear_eq hlen mv x y ⌊x⌋ ⌊y⌋
  rw [he] at hres
  have hb := Option.some.inj hres
  obtain ⟨hW, hr⟩ := blendCorners_weighted _ _ _ _ _ _ _ _ _ _ r hb
  have hu0 : 0 ≤ x - (⌊x⌋ : ℚ) := sub_nonneg.2 (Int.floor_le x)
  have hu1 : 0 ≤ 1 - (x - (⌊x⌋ : ℚ)) := by
    have := Int.lt_floor_add_one x
    linarith
  have hv0 : 0 ≤ y - (⌊y⌋ : ℚ) := sub_nonneg.2 (Int.floor_le y)
  have hv1 : 0 ≤ 1 - (y - (⌊y⌋ : ℚ)) := by
    have := Int.lt_floor_add_one y
    linarith
  have hmem : ∀ c ∈ ((([(decide (cornerValid data width height mv ⌊y⌋ ⌊x⌋), v00,
        (1 - (x - (⌊x⌋ : ℚ))) * (1 - (y - (⌊y⌋ : ℚ)))),
      (decide (cornerValid data width height mv ⌊y⌋ (⌊x⌋ + 1)), v01,
        (x - (⌊x⌋ : ℚ)) * (1 - (y - (⌊y⌋ : ℚ)))),
      (decide (cornerValid data width height mv (⌊y⌋ + 1) ⌊x⌋), v10,
        (1 - (x - (⌊x⌋ : ℚ))) * (y - (⌊y⌋ : ℚ))),
      (decide (cornerValid data width height mv (⌊y⌋ + 1) (⌊x⌋ + 1)), v11,
        (x - (⌊x⌋ : ℚ)) * (y - (⌊y⌋ : ℚ)))] : List (Bool × ℚ × ℚ)).filter
          (fun c => c.1)).map (fun c => c.2)),
      0 ≤ c.2 ∧ neighbourSample data width height mv ⌊x⌋ ⌊y⌋ c.1 := by
    intro c hc
    obtain ⟨t, ht, rfl⟩ := List.mem_map.1 hc
    obtain ⟨hin, hflag⟩ := List.mem_filter.1 ht
    simp only [List.mem_cons, List.mem_singleton, List.not_mem_nil, or_false] at hin
    have off : ∀ a b : Int, (0 ≤ a ∧ a ≤ 1) → (0 ≤ b ∧ b ≤ 1) → (a, b) ∈ scanOffsets := by
      intro a b ha hb
      exact (scanOffsets_mem (a, b)).2 ⟨by constructor <;> simp <;> omega,
        by constructor <;> simp <;> omega⟩
    rcases hin with rfl | rfl | rfl | rfl
    · have hv := of_decide_eq_true hflag
      refine ⟨mul_nonneg hu1 hv1, (0, 0), off 0 0 (by omega) (by omega), ?_, ?_⟩
      · simpa using hv
      · simpa using (p00 hv).1
    · have hv := of_decide_eq_true hflag
      refine ⟨mul_nonneg hu0 hv1, (0, 1), off 0 1 (by omega) (by omega), ?_, ?_⟩
      · simpa using hv
      · simpa using (p01 hv).1
    · have hv := of_decide_eq_true hflag
      refine ⟨mul_nonneg hu1 hv0, (1, 0), off 1 0 (by omega) (by omega), ?_, ?_⟩
      · simpa using hv
      · simpa using (p10 hv).1
    · have hv := of_decide_eq_true hflag
      refine ⟨mul_nonneg hu0 hv0, (1, 1), off 1 1 (by omega) (by omega), ?_, ?_⟩
      · simpa using hv
      · simpa using (p11 hv).1
  obtain ⟨⟨a, ha, hle⟩, ⟨b, hb2, hge⟩⟩ :=
    weighted_mean_bounds _ r (fun c hc => (hmem c hc).1) hW hr
  exact ⟨a.1, b.1, (hmem a ha).2, (hmem b hb2).2, hle, hge⟩

theorem adaptive_between (data : List ℚ) (width height : Int)
    (hlen : (data.length : Int) = width * height) (mv x y : ℚ) (edgeMargin : Int) (r : ℚ)
    (hres : adaptiveInterpolation data x y ⌊x⌋ ⌊y⌋ width height mv edgeMargin = some r)
    (hne : r ≠ mv) :
    ∃ lo hi, neighbourSample data width height mv ⌊x⌋ ⌊y⌋ lo
      ∧ neighbourSample data width height mv ⌊x⌋ ⌊y⌋ hi ∧ lo ≤ r ∧ r ≤ hi := by
  rcases adaptive_cases data x y ⌊x⌋ ⌊y⌋ width height mv edgeMargin with h | ⟨s, hb, h⟩ | ⟨-, h⟩
  · rw [h] at hres
    exact gradient_between hlen mv x y ⌊x⌋ ⌊y⌋ r hres hne
  · rw [h] at hres
    have hs : s = r := Option.some.inj hres
    subst hs
    exact bilinear_between hlen mv x y s hb
  · rw [h] at hres
    cases hres

end Grib2

/-! ## Theorems: the worker pool -/

namespace Render

theorem successCount_cons (render : TileJob → Option (List Nat)) (j : TileJob)
    (q : List TileJob) :
    successCount render (j :: q)
      = (if (render j).isSome then 1 else 0) + successCount render q := by
  unfold successCount
  rw [List.filter_cons]
  split <;> simp
  omega

theorem successCount_append (render : TileJob → Option (List Nat)) (l r : List TileJob) :
    successCount render (l ++ r) = successCount render l + successCount render r := by
  unfold successCount
  rw [List.filter_append, List.length_append]

theorem successCount_nil (render : TileJob → Option (List Nat)) :
    successCount render [] = 0 := rfl

theorem sendingCount_set (ws : List Worker) :
    ∀ (i : Nat) (w w2 : Worker), ws[i]? = some w →
      sendingCount (ws.set i w2) + sendingCount [w] = sendingCount ws + sendingCount [w2] := by
  induction ws with
  | nil => intro i w w2 h; simp at h
  | cons a rest ih =>
    intro i w w2 h
    cases i with
    | zero =>
      simp only [List.getElem?_cons_zero, Option.some.injEq] at h
      subst h
      simp only [List.set_cons_zero, sendingCount, List.filter_cons, List.filter_nil]
      split <;> split <;> simp
    | succ k =>
      simp only [List.getElem?_cons_succ] at h
      have := ih k w w2 h
      simp only [List.set_cons_succ, sendingCount, List.filter_cons, List.filter_nil] at this ⊢
      split <;> simp at this ⊢ <;> omega

theorem sendingCount_idle : sendingCount [Worker.idle] = 0 := by decide

theorem sendingCount_done : sendingCount [Worker.done] = 0 := by decide

theorem sendingCount_sending (r : TileResult) : sendingCount [Worker.sending r] = 1 := by
  simp [sendingCount]

theorem sendingCount_all_done (ws : List Worker) (h : ∀ w ∈ ws, w = Worker.done) :
    sendingCount ws = 0 := by
  unfold sendingCount
  rw [List.length_eq_zero, List.filter_eq_nil_iff]
  intro w hw
  rw [h w hw]
  simp

theorem init_inv (render : TileJob → Option (List Nat)) (numWorkers : Int)
    (jobs : List TileJob) :
    PipelineInv render numWorkers.toNat jobs (initPipeline numWorkers jobs) := by
  refine ⟨?_, ?_, ?_, ?_, ?_, ?_, ?_⟩
  · have : sendingCount (List.replicate numWorkers.toNat Worker.idle) = 0 := by
      unfold sendingCount
      rw [List.length_eq_zero, List.filter_eq_nil_iff]
      intro w hw
      rw [List.eq_of_mem_replicate hw]
      simp
    simp [initPipeline, this, successCount_nil]
  · simp [initPipeline]
  · intro h; cases h
  · intro h
    have := List.eq_of_mem_replicate h
    cases this
  · intro h; cases h
  · intro h; cases h
  · intro k h; cases h

theorem step_inv (render : TileJob → Option (List Nat)) (n : Nat) (jobs : List TileJob)
    (s t : Pipeline) (a : Action) (hs : PipelineInv render n jobs s)
    (ht : step render s a = some t) : PipelineInv render n jobs t := by
  obtain ⟨c1, c2, c3, c4, c5, c6, c7⟩ := hs
  cases a with
  | send =>
    simp only [step] at ht
    split at ht
    · rename_i j rest hp
      split at ht
      · simp only [Option.some.injEq] at ht
        subst ht
        rw [hp, successCount_cons] at c1
        refine ⟨?_, c2, ?_, ?_, ?_, c6, c7⟩
        · simp only [successCount_append, successCount_cons, successCount_nil]
          omega
        · intro h
          have := c3 h
          rw [hp] at this
          cases this
        · intro h
          have := (c4 h).1
          have := c3 this
          rw [hp] at this
          cases this
        · intro h
          have := c3 (c5 h).1
          rw [hp] at this
          cases this
      · cases ht
    · cases ht
  | closeJobs =>
    simp only [step] at ht
    split at ht
    · rename_i hc
      simp only [Option.some.injEq] at ht
      subst ht
      refine ⟨c1, c2, fun _ => hc.1, ?_, ?_, c6, c7⟩
      · intro h
        have := (c4 h).1
        rw [hc.2] at this
        cases this
      · intro h
        have := (c5 h).1
        rw [hc.2] at this
        cases this
    · cases ht
  | receive i =>
    simp only [step] at ht
    split at ht
    · rename_i j q hw hq
      have hnd : ¬ Worker.done ∈ s.workers := by
        intro h
        have := (c4 h).2
        rw [hq] at this
        cases this
      have hnc : s.resultClosed ≠ true := by
        intro h
        have := (c5 h).2 _ (List.getElem?_mem hw)
        cases this
      rw [hq, successCount_cons] at c1
      split at ht
      · rename_i hr
        simp only [Option.some.injEq] at ht
        subst ht
        rw [hr] at c1
        refine ⟨by simpa using c1, c2, c3, fun h => absurd h hnd, fun h => absurd h hnc, c6, c7⟩
      · rename_i data hr
        simp only [Option.some.injEq] at ht
        subst ht
        rw [hr] at c1
        have hset := sendingCount_set s.workers i Worker.idle
          (Worker.sending ⟨j.Z, j.X, j.Y, data⟩) hw
        rw [sendingCount_idle, sendingCount_sending] at hset
        refine ⟨?_, by simpa using c2, c3, ?_, fun h => absurd h hnc, c6, c7⟩
        · simp only [Option.isSome_some, if_true] at c1
          simp only []
          omega
        · intro h
          rcases List.mem_or_eq_of_mem_set h with h | h
          · exact absurd h hnd
          · cases h
    · cases ht
  | push i =>
    simp only [step] at ht
    split at ht
    · rename_i r hw
      have hnc : s.resultClosed ≠ true := by
        intro h
        have := (c5 h).2 _ (List.getElem?_mem hw)
        cases this
      split at ht
      · simp only [Option.some.injEq] at ht
        subst ht
        have hset := sendingCount_set s.workers i (Worker.sending r) Worker.idle hw
        rw [sendingCount_idle, sendingCount_sending] at hset
        refine ⟨?_, by simpa using c2, c3, ?_, fun h => absurd h hnc, ?_, c7⟩
        · simp only [List.length_append, List.length_singleton]
          omega
        · intro h
          rcases List.mem_or_eq_of_mem_set h with h | h
          · exact c4 h
          · cases h
        · intro h
          exact absurd (c6 h).1 hnc
      · cases ht
    · cases ht
  | workerExit i =>
    simp only [step] at ht
    split at ht
    · rename_i hw
      have hnc : s.resultClosed ≠ true := by
        intro h
        have := (c5 h).2 _ (List.getElem?_mem hw)
        cases this
      split at ht
      · rename_i hc
        simp only [Option.some.injEq] at ht
        subst ht
        have hset := sendingCount_set s.workers i Worker.idle Worker.done hw
        rw [sendingCount_idle, sendingCount_done] at hset
        refine ⟨?_, by simpa using c2, c3, fun _ => ⟨hc.2, hc.1⟩, fun h => absurd h hnc, c6, c7⟩
        simp only []
        omega
      · cases ht
    · cases ht
  | closeResults =>
    simp only [step] at ht
    split at ht
    · rename_i hc
      simp only [Option.some.injEq] at ht
      subst ht
      refine ⟨c1, c2, c3, c4, ?_, ?_, c7⟩
      · intro _
        refine ⟨hc.1, ?_⟩
        have := hc.2.1
        rw [List.all_eq_true] at this
        intro w hw
        simpa using this w hw
      · intro h
        have := (c6 h).1
        rw [hc.2.2] at this
        cases this
    · cases ht
  | write =>
    simp only [step] at ht
    split at ht
    · rename_i r q hq
      simp only [Option.some.injEq] at ht
      subst ht
      have hnw : s.writerDone ≠ true := by
        intro h
        have := (c6 h).2
        rw [hq] at this
        cases this
      rw [hq] at c1
      refine ⟨?_, c2, c3, c4, c5, fun h => absurd h hnw, fun k hk => absurd (c7 k hk).1 hnw⟩
      simp only [List.length_cons] at c1
      simp only []
      omega
    · cases ht
  | writerExit =>
    simp only [step] at ht
    split at ht
    · rename_i hc
      simp only [Option.some.injEq] at ht
      subst ht
      refine ⟨c1, c2, c3, c4, c5, fun _ => ⟨hc.2.1, hc.1⟩, ?_⟩
      intro k hk
      have := (c7 k hk).1
      rw [hc.2.2] at this
      cases this
    · cases ht
  | finish =>
    simp only [step] at ht
    split at ht
    · rename_i hc
      simp only [Option.some.injEq] at ht
      subst ht
      refine ⟨c1, c2, c3, c4, c5, c6, ?_⟩
      intro k hk
      simp only [Option.some.injEq] at hk
      exact ⟨hc.1, hk.symm⟩
    · cases ht

theorem run_inv (render : TileJob → Option (List Nat)) (n : Nat) (jobs : List TileJob) :
    ∀ (schedule : List Action) (s t : Pipeline), PipelineInv render n jobs s →
      run render schedule s = some t → PipelineInv render n jobs t := by
  intro schedule
  induction schedule with
  | nil =>
    intro s t hs ht
    simp only [run, Option.some.injEq] at ht
    subst ht
    exact hs
  | cons a rest ih =>
    intro s t hs ht
    simp only [run] at ht
    split at ht
    · cases ht
    · rename_i u hu
      exact ih u t (step_inv render n jobs s u a hs hu) ht

theorem final_count (render : TileJob → Option (List Nat)) (n : Nat) (jobs : List TileJob)
    (s : Pipeline) (hs : PipelineInv render n jobs s) (hn : 1 ≤ n) (k : Nat)
    (hk : s.final = some k) : k = successCount render jobs := by
  obtain ⟨c1, c2, c3, c4, c5, c6, c7⟩ := hs
  obtain ⟨hw, rfl⟩ := c7 k hk
  obtain ⟨hrc, hrq⟩ := c6 hw
  obtain ⟨hjc, hall⟩ := c5 hrc
  have hp := c3 hjc
  have hne : s.workers ≠ [] := by
    intro h
    rw [h] at c2
    simp at c2
    omega
  obtain ⟨w, hwm⟩ := List.exists_mem_of_ne_nil _ hne
  have hd : Worker.done ∈ s.workers := by
    have := hall w hwm
    rw [← this]
    exact hwm
  have hq := (c4 hd).2
  rw [hrq, hq, hp, sendingCount_all_done _ hall, successCount_nil] at c1
  simpa using c1

end Render
namespace Render

theorem notDone_set (ws : List Worker) :
    ∀ (i : Nat) (w w2 : Worker), ws[i]? = some w →
      ((ws.set i w2).filter (fun w => decide (w ≠ Worker.done))).length
        + ([w].filter (fun w => decide (w ≠ Worker.done))).length
      = (ws.filter (fun w => decide (w ≠ Worker.done))).length
        + ([w2].filter (fun w => decide (w ≠ Worker.done))).length := by
  induction ws with
  | nil => intro i w w2 h; simp at h
  | cons a rest ih =>
    intro i w w2 h
    cases i with
    | zero =>
      simp only [List.getElem?_cons_zero, Option.some.injEq] at h
      subst h
      simp only [List.set_cons_zero, List.filter_cons, List.filter_nil]
      split <;> split <;> simp
    | succ k =>
      simp only [List.getElem?_cons_succ] at h
      have := ih k w w2 h
      simp only [List.set_cons_succ, List.filter_cons, List.filter_nil] at this ⊢
      split <;> simp at this ⊢ <;> omega

theorem notDone_idle :
    ([Worker.idle].filter (fun w => decide (w ≠ Worker.done))).length = 1 := by decide

theorem notDone_done :
    ([Worker.done].filter (fun w => decide (w ≠ Worker.done))).length = 0 := by decide

theorem notDone_sending (r : TileResult) :
    ([Worker.sending r].filter (fun w => decide (w ≠ Worker.done))).length = 1 := by
  simp

theorem step_workLeft (render : TileJob → Option (List Nat)) (s t : Pipeline) (a : Action)
    (ht : step render s a = some t) : workLeft t < workLeft s := by
  cases a with
  | send =>
    simp only [step] at ht
    split at ht
    · rename_i j rest hp
      split at ht
      · simp only [Option.some.injEq] at ht
        subst ht
        simp only [workLeft, hp, List.length_cons, List.length_append, List.length_singleton,
          List.length_nil]
        omega
      · cases ht
    · cases ht
  | closeJobs =>
    simp only [step] at ht
    split at ht
    · rename_i hc
      simp only [Option.some.injEq] at ht
      subst ht
      simp only [workLeft, hc.2]
      simp
    · cases ht
  | receive i =>
    simp only [step] at ht
    split at ht
    · rename_i j q hw hq
      split at ht
      · simp only [Option.some.injEq] at ht
        subst ht
        simp only [workLeft, hq, List.length_cons]
        omega
      · rename_i data hr
        simp only [Option.some.injEq] at ht
        subst ht
        have h1 := sendingCount_set s.workers i Worker.idle
          (Worker.sending ⟨j.Z, j.X, j.Y, data⟩) hw
        rw [sendingCount_idle, sendingCount_sending] at h1
        have h2 := notDone_set s.workers i Worker.idle
          (Worker.sending ⟨j.Z, j.X, j.Y, data⟩) hw
        rw [notDone_idle, notDone_sending] at h2
        simp only [workLeft, hq, List.length_cons]
        omega
    · cases ht
  | push i =>
    simp only [step] at ht
    split at ht
    · rename_i r hw
      split at ht
      · simp only [Option.some.injEq] at ht
        subst ht
        have h1 := sendingCount_set s.workers i (Worker.sending r) Worker.idle hw
        rw [sendingCount_idle, sendingCount_sending] at h1
        have h2 := notDone_set s.workers i (Worker.sending r) Worker.idle hw
        rw [notDone_idle, notDone_sending] at h2
        simp only [workLeft, List.length_append, List.length_singleton]
        omega
      · cases ht
    · cases ht
  | workerExit i =>
    simp only [step] at ht
    split at ht
    · rename_i hw
      split at ht
      · simp only [Option.some.injEq] at ht
        subst ht
        have h1 := sendingCount_set s.workers i Worker.idle Worker.done hw
        rw [sendingCount_idle, sendingCount_done] at h1
        have h2 := notDone_set s.workers i Worker.idle Worker.done hw
        rw [notDone_idle, notDone_done] at h2
        simp only [workLeft]
        omega
      · cases ht
    · cases ht
  | closeResults =>
    simp only [step] at ht
    split at ht
    · rename_i hc
      simp only [Option.some.injEq] at ht
      subst ht
      simp only [workLeft, hc.2.2]
      simp
    · cases ht
  | write =>
    simp only [step] at ht
    split at ht
    · rename_i r q hq
      simp only [Option.some.injEq] at ht
      subst ht
      simp only [workLeft, hq, List.length_cons]
      omega
    · cases ht
  | writerExit =>
    simp only [step] at ht
    split at ht
    · rename_i hc
      simp only [Option.some.injEq] at ht
      subst ht
      simp only [workLeft, hc.2.2]
      simp
    · cases ht
  | finish =>
    simp only [step] at ht
    split at ht
    · rename_i hc
      simp only [Option.some.injEq] at ht
      subst ht
      simp only [workLeft, hc.2]
      simp
    · cases ht

theorem run_length_le (render : TileJob → Option (List Nat)) :
    ∀ (schedule : List Action) (s t : Pipeline), run render schedule s = some t →
      schedule.length + workLeft t ≤ workLeft s := by
  intro schedule
  induction schedule with
  | nil =>
    intro s t ht
    simp only [run, Option.some.injEq] at ht
    subst ht
    simp
  | cons a rest ih =>
    intro s t ht
    simp only [run] at ht
    split at ht
    · cases ht
    · rename_i u hu
      have h1 := ih u t ht
      have h2 := step_workLeft render s u a hu
      simp only [List.length_cons]
      omega

theorem worker_cases (ws : List Worker) :
    (∃ (i : Nat) (r : TileResult), ws[i]? = some (Worker.sending r))
      ∨ (∃ i : Nat, ws[i]? = some Worker.idle)
      ∨ (∀ w ∈ ws, w = Worker.done) := by
  induction ws with
  | nil => right; right; intro w hw; cases hw
  | cons a rest ih =>
    cases a with
    | sending r => left; exact ⟨0, r, List.getElem?_cons_zero⟩
    | idle => right; left; exact ⟨0, List.getElem?_cons_zero⟩
    | done =>
      rcases ih with ⟨i, r, h⟩ | ⟨i, h⟩ | h
      · left; exact ⟨i + 1, r, by simpa using h⟩
      · right; left; exact ⟨i + 1, by simpa using h⟩
      · right; right
        intro w hw
        rcases List.mem_cons.1 hw with rfl | hw
        · rfl
        · exact h w hw

theorem enabled_of (render : TileJob → Option (List Nat)) (s : Pipeline) (a : Action)
    (h : (step render s a).isSome = true) : ∃ a t, step render s a = some t := by
  obtain ⟨t, ht⟩ := Option.isSome_iff_exists.1 h
  exact ⟨a, t, ht⟩

theorem step_enabled (render : TileJob → Option (List Nat)) (n : Nat) (jobs : List TileJob)
    (s : Pipeline) (hs : PipelineInv render n jobs s) (hn : 1 ≤ n) (hf : s.final = none) :
    ∃ a t, step render s a = some t := by
  obtain ⟨c1, c2, c3, c4, c5, c6, c7⟩ := hs
  have hwrite : ∀ r q, s.resultQueue = r :: q → ∃ a t, step render s a = some t := by
    intro r q hq
    exact enabled_of render s Action.write (by simp only [step, hq, Option.isSome_some])
  rcases worker_cases s.workers with ⟨i, r, hw⟩ | ⟨i, hw⟩ | hall
  · by_cases hcap : s.resultQueue.length < queueCap
    · exact enabled_of render s (Action.push i)
        (by simp only [step, hw, hcap, if_true, Option.isSome_some])
    · cases hq : s.resultQueue with
      | nil => rw [hq] at hcap; simp [queueCap] at hcap
      | cons r2 q => exact hwrite r2 q hq
  · cases hq : s.jobQueue with
    | cons j q =>
      cases hr : render j with
      | none =>
        exact enabled_of render s (Action.receive i)
          (by simp only [step, hw, hq, hr, Option.isSome_some])
      | some data =>
        exact enabled_of render s (Action.receive i)
          (by simp only [step, hw, hq, hr, Option.isSome_some])
    | nil =>
      by_cases hc : s.jobClosed = true
      · exact enabled_of render s (Action.workerExit i)
          (by simp only [step, hw, hq, hc, and_self, if_true, Option.isSome_some])
      · cases hp : s.pending with
        | cons j rest =>
          exact enabled_of render s Action.send (by simp [step, hp, hq, queueCap])
        | nil =>
          have hc2 : s.jobClosed = false := by simpa using hc
          exact enabled_of render s Action.closeJobs
            (by simp only [step, hp, hc2, and_self, if_true, Option.isSome_some])
  · have hne : s.workers ≠ [] := by
      intro h
      rw [h] at c2
      simp at c2
      omega
    obtain ⟨w, hwm⟩ := List.exists_mem_of_ne_nil _ hne
    have hd : Worker.done ∈ s.workers := by
      have := hall w hwm
      rw [← this]
      exact hwm
    obtain ⟨hjc, hjq⟩ := c4 hd
    have hallb : s.workers.all (fun w => decide (w = Worker.done)) = true := by
      rw [List.all_eq_true]
      intro w hw
      simpa using hall w hw
    by_cases hrc : s.resultClosed = true
    · cases hq : s.resultQueue with
      | cons r2 q => exact hwrite r2 q hq
      | nil =>
        by_cases hwd : s.writerDone = true
        · exact enabled_of render s Action.finish
            (by simp only [step, hwd, hf, and_self, if_true, Option.isSome_some])
        · have hwd2 : s.writerDone = false := by simpa using hwd
          exact enabled_of render s Action.writerExit
            (by simp only [step, hq, hrc, hwd2, and_self, if_true, Option.isSome_some])
    · have hrc2 : s.resultClosed = false := by simpa using hrc
      exact enabled_of render s Action.closeResults
        (by simp only [step, hjc, hallb, hrc2, and_self, if_true, Option.isSome_some])

theorem exists_final (render : TileJob → Option (List Nat)) (n : Nat) (jobs : List TileJob)
    (hn : 1 ≤ n) :
    ∀ (m : Nat) (s : Pipeline), workLeft s ≤ m → PipelineInv render n jobs s →
      ∃ schedule t, run render schedule s = some t ∧ t.final ≠ none := by
  intro m
  induction m with
  | zero =>
    intro s hm hs
    cases hf : s.final with
    | some k => exact ⟨[], s, rfl, by rw [hf]; simp⟩
    | none =>
      obtain ⟨a, t, ht⟩ := step_enabled render n jobs s hs hn hf
      have := step_workLeft render s t a ht
      omega
  | succ m ih =>
    intro s hm hs
    cases hf : s.final with
    | some k => exact ⟨[], s, rfl, by rw [hf]; simp⟩
    | none =>
      obtain ⟨a, t, ht⟩ := step_enabled render n jobs s hs hn hf
      have hlt := step_workLeft render s t a ht
      obtain ⟨schedule, u, hu, huf⟩ := ih t (by omega) (step_inv render n jobs s t a hs ht)
      exact ⟨a :: schedule, u, by simp only [run, ht, hu], huf⟩

end Render
namespace Render

theorem successCount_all (render : TileJob → Option (List Nat)) (jobs : List TileJob)
    (h : ∀ j ∈ jobs, render j ≠ none) : successCount render jobs = jobs.length := by
  unfold successCount
  rw [List.filter_eq_self.2]
  intro j hj
  exact Option.isSome_iff_ne_none.2 (h j hj)

/-- C15 (as amended): for every run of `generateTiles` with `NumWorkers ≥ 1`
(a run is a schedule of the goroutines' actions), the count `final` reported at
the end equals the number of enumerated jobs whose render succeeded; a run that
reports it exists, no run is longer than `workLeft` of the start and none is
stuck before the end, where the function returns `nil`; the count is the
enumerated total when no render fails and the total minus 1 when exactly one
job's render fails. -/
theorem generateTiles_completed (render : TileJob → Option (List Nat)) (numWorkers : Int)
    (jobs : List TileJob) (hn : 1 ≤ numWorkers) :
    (∀ (schedule : List Action) (t : Pipeline) (k : Nat),
      run render schedule (initPipeline numWorkers jobs) = some t → t.final = some k →
      k = successCount render jobs)
    ∧ (∃ (schedule : List Action) (t : Pipeline),
      run render schedule (initPipeline numWorkers jobs) = some t
      ∧ t.final = some (successCount render jobs))
    ∧ (∀ (schedule : List Action) (t : Pipeline),
      run render schedule (initPipeline numWorkers jobs) = some t →
      schedule.length ≤ workLeft (initPipeline numWorkers jobs)
      ∧ (t.final = none → ∃ a u, step render t a = some u))
    ∧ ((∀ j ∈ jobs, render j ≠ none) → successCount render jobs = jobs.length)
    ∧ (∀ (pre : List TileJob) (j : TileJob) (post : List TileJob), jobs = pre ++ j :: post →
      render j = none → (∀ j2 ∈ pre ++ post, render j2 ≠ none) →
      successCount render jobs = jobs.length - 1) := by
  have hn1 : 1 ≤ numWorkers.toNat := by omega
  have hinit := init_inv render numWorkers jobs
  have hfinal : ∀ (schedule : List Action) (t : Pipeline) (k : Nat),
      run render schedule (initPipeline numWorkers jobs) = some t → t.final = some k →
      k = successCount render jobs := by
    intro schedule t k ht hk
    exact final_count render _ jobs t (run_inv render _ jobs schedule _ t hinit ht) hn1 k hk
  refine ⟨hfinal, ?_, ?_, successCount_all render jobs, ?_⟩
  · obtain ⟨schedule, t, ht, hf⟩ := exists_final render _ jobs hn1 _ _ (le_refl _) hinit
    refine ⟨schedule, t, ht, ?_⟩
    cases hk : t.final with
    | none => exact absurd hk hf
    | some k => rw [hfinal schedule t k ht hk]
  · intro schedule t ht
    constructor
    · have := run_length_le render schedule _ t ht
      omega
    · intro hf
      exact step_enabled render _ jobs t (run_inv render _ jobs schedule _ t hinit ht) hn1 hf
  · intro pre j post hj hr hothers
    subst hj
    rw [successCount_append, successCount_cons, hr,
      successCount_all render pre (fun a ha => hothers a (List.mem_append_left _ ha)),
      successCount_all render post (fun a ha => hothers a (List.mem_append_right _ ha))]
    simp only [Option.isSome_none, Bool.false_eq_true, if_false, List.length_append,
      List.length_cons]
    omega

/-- C15 (as amended) with one worker on `twoJobs`, the render of `(1, 0, 0)`
failing: the run `oneWorkerSchedule` reports 1 = 2 - 1 completed tiles. -/
theorem generateTiles_completed_witness :
    (run renderFailing oneWorkerSchedule (initPipeline 1 twoJobs)).map (fun s => s.final)
        = some (some 1)
    ∧ (∀ (schedule : List Action) (t : Pipeline) (k : Nat),
      run renderFailing schedule (initPipeline 1 twoJobs) = some t → t.final = some k →
      k = successCount renderFailing twoJobs)
    ∧ successCount renderFailing twoJobs = twoJobs.length - 1 :=
  ⟨by decide, (generateTiles_completed renderFailing 1 twoJobs (by decide)).1, by decide⟩

/-- C15 as stated fails: with `NumWorkers = 0` and one job whose render would
succeed, the run `noWorkerSchedule` (the job is buffered, both queues are
closed, no worker ever takes the job) ends with `final = 0`, not with the
enumerated total 1, although no render fails. -/
theorem generateTiles_no_worker_counterexample :
    (∀ j ∈ [(⟨0, 0, 0⟩ : TileJob)], renderAlways j ≠ none)
    ∧ ([(⟨0, 0, 0⟩ : TileJob)]).length = 1
    ∧ (run renderAlways noWorkerSchedule (initPipeline 0 [⟨0, 0, 0⟩])).map (fun s => s.final)
        = some (some 0) := by
  refine ⟨by decide, by decide, by decide⟩

end Render

/-! ## Theorems: the sampler in binary64 arithmetic -/

namespace Binary64

open Grib2

theorem nearest_zero : nearest 0 = 0 := by
  unfold nearest
  rw [if_pos rfl]

theorem log2Aux_le : ∀ (fuel k n : Nat), n < 2 ^ (k + 1) → log2Aux fuel n ≤ k := by
  intro fuel
  induction fuel with
  | zero => intro k n _; exact Nat.zero_le _
  | succ fuel ih =>
    intro k n hn
    unfold log2Aux
    split
    · rename_i h2
      cases k with
      | zero => omega
      | succ k =>
        have : n / 2 < 2 ^ (k + 1) := by
          rw [Nat.div_lt_iff_lt_mul (by norm_num)]
          rw [pow_succ] at hn
          exact hn
        have := ih k (n / 2) this
        omega
    · exact Nat.zero_le _

theorem roundHalfEven_intCast (z : Int) : roundHalfEven (z : ℚ) = z := by
  unfold roundHalfEven
  simp only [Int.floor_intCast, sub_self]
  rw [if_pos (by norm_num)]

theorem pow2_pos (e : Int) : 0 < pow2 e := by
  unfold pow2
  split
  · positivity
  · positivity

theorem nearest_intCast (i : Int) (h0 : -9007199254740992 < i) (h1 : i < 9007199254740992) :
    nearest (i : ℚ) = (i : ℚ) := by
  by_cases hi : i = 0
  · subst hi
    simpa using nearest_zero
  unfold nearest
  rw [if_neg (by exact_mod_cast hi)]
  simp only []
  have hlog : log2 i.natAbs ≤ 52 := log2Aux_le _ 52 _ (by norm_num; omega)
  have hexp : binExp (i : ℚ) ≤ 52 := by
    unfold binExp
    simp only [Rat.intCast_num, Rat.intCast_den]
    have h1 : log2 1 = 0 := rfl
    rw [h1]
    split <;> omega
  have ht : max (binExp (i : ℚ)) (-1022) - 52 ≤ 0 := by
    have : max (binExp (i : ℚ)) (-1022) ≤ 52 := max_le hexp (by norm_num)
    omega
  generalize max (binExp (i : ℚ)) (-1022) - 52 = t at ht
  have hp : pow2 t = 1 / ((2 ^ (-t).toNat : Nat) : ℚ) := by
    unfold pow2
    by_cases h : 0 ≤ t
    · have : t = 0 := by omega
      subst this
      simp
    · rw [if_neg h]
  have hq : (i : ℚ) / pow2 t = ((i * (2 ^ (-t).toNat : Nat) : Int) : ℚ) := by
    rw [hp]
    push_cast
    field_simp
  rw [hq, roundHalfEven_intCast, hp]
  push_cast
  field_simp

theorem ofInt_eq (i : Int) (h0 : -9007199254740992 < i) (h1 : i < 9007199254740992) :
    ofInt i = (i : ℚ) :=
  nearest_intCast i h0 h1

theorem bicubicWeights_zero :
    windowWeights (cubicWeights 0) (cubicWeights 0)
      = [0, 0, 0, 0, 0, 1, 0, 0, 0, 0, 0, 0, 0, 0, 0, 0] := by
  decide!

theorem weightedTotal_centre (v0 v1 v2 v3 v4 v5 v6 v7 v8 v9 v10 v11 v12 v13 v14 v15 : ℚ)
    (h : nearest v5 = v5) :
    weightedTotal [v0, v1, v2, v3, v4, v5, v6, v7, v8, v9, v10, v11, v12, v13, v14, v15]
        [0, 0, 0, 0, 0, 1, 0, 0, 0, 0, 0, 0, 0, 0, 0, 0] = v5 := by
  simp only [weightedTotal, List.zipWith_cons_cons, List.zipWith_nil_right, List.foldl_cons,
    List.foldl_nil, mul, add, mul_zero, mul_one, zero_add, add_zero, nearest_zero, h]

theorem sampleGrid_at_cell {data : List ℚ} {width height : Int}
    (hlen : (data.length : Int) = width * height) (mv : ℚ) (i j : Int)
    (hi0 : 3 ≤ i) (hi1 : i < width - 4) (hj0 : 3 ≤ j) (hj1 : j < height - 4)
    (hi53 : i < 9007199254740992) (hj53 : j < 9007199254740992)
    (hwin : ∀ row col : Int, j - 1 ≤ row → row ≤ j + 2 → i - 1 ≤ col → col ≤ i + 2 →
      sliceAt data (row * width + col) ≠ some mv)
    (hrep : ∀ v ∈ data, nearest v = v) :
    sampleGrid data (i : ℚ) (j : ℚ) width height mv = sliceAt data (j * width + i) := by
  have hfx : ⌊(i : ℚ)⌋ = i := Int.floor_intCast i
  have hfy : ⌊(j : ℚ)⌋ = j := Int.floor_intCast j
  have h2 : ¬ (i < 3 ∨ i ≥ width - (3 + 1) ∨ j < 3 ∨ j ≥ height - (3 + 1)) := by omega
  have hu : sub (i : ℚ) (ofInt i) = 0 := by
    rw [ofInt_eq i (by omega) hi53]
    unfold sub
    rw [sub_self, nearest_zero]
  have hv : sub (j : ℚ) (ofInt j) = 0 := by
    rw [ofInt_eq j (by omega) hj53]
    unfold sub
    rw [sub_self, nearest_zero]
  have hany : ¬ (((windowIndices i j).map (fun rc => cellValue data width rc.1 rc.2)).any
      (fun val => decide (val = mv)) = true) := by
    rw [List.any_eq_true]
    rintro ⟨val, hval, hvm⟩
    obtain ⟨rc, hrc, rfl⟩ := List.mem_map.1 hval
    have hr := windowIndices_in_range hi0 hi1 hj0 hj1 rc hrc
    obtain ⟨⟨r0, r1⟩, c0, c1⟩ := windowIndices_mem_range rc hrc
    have hs := sliceAt_cellValue hlen hr.1 hr.2.1 hr.2.2.1 hr.2.2.2
    apply hwin rc.1 rc.2 r0 r1 c0 c1
    rw [hs]
    simpa using hvm
  unfold sampleGrid
  simp only [hfx, hfy, h2, if_false, hu, hv,
    readWindow_eq hlen _ (windowIndices_in_range hi0 hi1 hj0 hj1)]
  rw [if_neg hany, bicubicWeights_zero]
  simp only [windowIndices, List.map_cons, List.map_nil]
  rw [weightedTotal_centre _ _ _ _ _ _ _ _ _ _ _ _ _ _ _ _
      (hrep _ (cellValue_mem hlen (by omega) (by omega) (by omega) (by omega))),
    sliceAt_cellValue hlen (by omega) (by omega) (by omega) (by omega)]

/-- C1 (as amended): in binary64 arithmetic, for a field with
`len(DataValues) = Nx*Ny` and `Nx, Ny ≤ 2^53` whose samples are `float64`
values, and a grid index `(i, j)` with `3 ≤ i ≤ Nx-5`, `3 ≤ j ≤ Ny-5` whose 4x4
neighbourhood holds no `missingValue`: if the query `GetLatLng(i, j)` passes the
envelope test of `GetInterpolatedData` (on the wrapped longitude) and the
fractional grid coordinates the code computes for it are exactly `x = i` and
`y = j`, then `GetInterpolatedData` returns exactly `DataValues[j*Nx + i]`. -/
theorem GetInterpolatedData_at_grid_point (g : GRIBFile)
    (hlen : (g.DataValues.length : Int) = g.Header.Nx * g.Header.Ny)
    (hNx : g.Header.Nx ≤ 9007199254740992) (hNy : g.Header.Ny ≤ 9007199254740992)
    (hrep : ∀ v ∈ g.DataValues, nearest v = v)
    (i j : Int) (hi0 : 3 ≤ i) (hi1 : i ≤ g.Header.Nx - 5) (hj0 : 3 ≤ j)
    (hj1 : j ≤ g.Header.Ny - 5)
    (hwin : ∀ row col : Int, j - 1 ≤ row → row ≤ j + 2 → i - 1 ≤ col → col ≤ i + 2 →
      sliceAt g.DataValues (row * g.Header.Nx + col) ≠ some g.Header.MissingValue)
    (hin : ¬ outsideEnvelope g (GetLatLng g i j).1 (wrapLng (GetLatLng g i j).2))
    (hx : gridX g (wrapLng (GetLatLng g i j).2) = (i : ℚ))
    (hy : gridY g (GetLatLng g i j).1 = (j : ℚ)) :
    GetInterpolatedData g (GetLatLng g i j).1 (GetLatLng g i j).2
      = sliceAt g.DataValues (j * g.Header.Nx + i) := by
  unfold GetInterpolatedData
  simp only []
  rw [if_neg hin, hx, hy]
  exact sampleGrid_at_cell hlen _ i j hi0 (by omega) hj0 (by omega) (by omega) (by omega)
    hwin hrep

/-- C1 (as amended) on `plainField` (unit spacing) at the grid index (3, 3). -/
theorem GetInterpolatedData_at_grid_point_witness :
    GetInterpolatedData plainField (GetLatLng plainField 3 3).1 (GetLatLng plainField 3 3).2
        = sliceAt plainField.DataValues (3 * plainField.Header.Nx + 3)
    ∧ sliceAt plainField.DataValues (3 * plainField.Header.Nx + 3) = some 7 :=
  ⟨GetInterpolatedData_at_grid_point plainField (by decide) (by decide) (by decide)
    (by decide!) 3 3 (by decide) (by decide) (by decide) (by decide)
    (by
      intro row col _ _ _ _ h
      have hm : (9999 : ℚ) ∈ plainField.DataValues := sliceAt_mem h
      revert hm
      decide!)
    (by decide!) (by decide!) (by decide!), by decide!⟩

/-- C1 as stated fails, for two reasons.  `wrapField` has `dx = dy = 1`, 64
samples for an 8x8 grid and a consistent header (`lo1 = 178`, `lo2 = 185`); the
grid index (3, 3) satisfies `3 ≤ i ≤ Nx-5`, `3 ≤ j ≤ Ny-5` and its 4x4
neighbourhood holds no `missingValue`, but `GetLatLng(3, 3)` is `(3, 181)`, the
sampler wraps 181 to -179, rejects it in the envelope test and returns
`missingValue`, not the sample 7.  `tenthField` has `dx = 0.1` (the `float64`
nearest to 1/10), a consistent header (`lo2 = 8*dx`, exactly and in binary64)
and no wrapped longitude; `GetLatLng(3, 3)` is `(3, 0.30000000000000004)`, whose
fractional column is computed as `3.0000000000000004`, and the sampler returns
`9.0000000000000036 = 9 + 2^-48`, not the sample 9. -/
theorem GetInterpolatedData_grid_point_counterexample :
    (wrapField.Header.DX ≠ 0 ∧ wrapField.Header.DY ≠ 0
      ∧ (wrapField.DataValues.length : Int) = wrapField.Header.Nx * wrapField.Header.Ny
      ∧ wrapField.Header.La2
          = wrapField.Header.La1 + ((wrapField.Header.Ny : ℚ) - 1) * wrapField.Header.DY
      ∧ wrapField.Header.Lo2
          = normLo1 wrapField.Header.Lo1
              + ((wrapField.Header.Nx : ℚ) - 1) * wrapField.Header.DX
      ∧ (3 : Int) ≤ wrapField.Header.Nx - 5 ∧ (3 : Int) ≤ wrapField.Header.Ny - 5
      ∧ (∀ rc ∈ windowIndices 3 3,
          sliceAt wrapField.DataValues (rc.1 * wrapField.Header.Nx + rc.2)
            ≠ some wrapField.Header.MissingValue)
      ∧ GetLatLng wrapField 3 3 = (3, 181)
      ∧ GetInterpolatedData wrapField (GetLatLng wrapField 3 3).1 (GetLatLng wrapField 3 3).2
          = some wrapField.Header.MissingValue
      ∧ sliceAt wrapField.DataValues (3 * wrapField.Header.Nx + 3) = some 7
      ∧ GetInterpolatedData wrapField (GetLatLng wrapField 3 3).1 (GetLatLng wrapField 3 3).2
          ≠ sliceAt wrapField.DataValues (3 * wrapField.Header.Nx + 3))
    ∧ (tenthField.Header.DX ≠ 0 ∧ tenthField.Header.DY ≠ 0
      ∧ (tenthField.DataValues.length : Int) = tenthField.Header.Nx * tenthField.Header.Ny
      ∧ tenthField.Header.La2
          = tenthField.Header.La1 + ((tenthField.Header.Ny : ℚ) - 1) * tenthField.Header.DY
      ∧ tenthField.Header.Lo2
          = normLo1 tenthField.Header.Lo1
              + ((tenthField.Header.Nx : ℚ) - 1) * tenthField.Header.DX
      ∧ tenthField.Header.La2
          = add tenthField.Header.La1 (mul (ofInt (tenthField.Header.Ny - 1)) tenthField.Header.DY)
      ∧ tenthField.Header.Lo2
          = add (normLo1 tenthField.Header.Lo1)
              (mul (ofInt (tenthField.Header.Nx - 1)) tenthField.Header.DX)
      ∧ (3 : Int) ≤ tenthField.Header.Nx - 5 ∧ (3 : Int) ≤ tenthField.Header.Ny - 5
      ∧ (∀ rc ∈ windowIndices 3 3,
          sliceAt tenthField.DataValues (rc.1 * tenthField.Header.Nx + rc.2)
            ≠ some tenthField.Header.MissingValue)
      ∧ GetLatLng tenthField 3 3 = (3, 1351079888211149 / 4503599627370496)
      ∧ wrapLng (GetLatLng tenthField 3 3).2 = (GetLatLng tenthField 3 3).2
      ∧ ¬ outsideEnvelope tenthField (GetLatLng tenthField 3 3).1 (GetLatLng tenthField 3 3).2
      ∧ gridX tenthField (GetLatLng tenthField 3 3).2 = 3 + 1 / 2251799813685248
      ∧ gridY tenthField (GetLatLng tenthField 3 3).1 = 3
      ∧ GetInterpolatedData tenthField (GetLatLng tenthField 3 3).1
            (GetLatLng tenthField 3 3).2
          = some (9 + 1 / 281474976710656)
      ∧ sliceAt tenthField.DataValues (3 * tenthField.Header.Nx + 3) = some 9
      ∧ GetInterpolatedData tenthField (GetLatLng tenthField 3 3).1
            (GetLatLng tenthField 3 3).2
          ≠ sliceAt tenthField.DataValues (3 * tenthField.Header.Nx + 3)) := by
  refine ⟨⟨by decide!, by decide!, by decide, by decide!, by decide!, by decide, by decide,
    by decide!, by decide!, by decide!, by decide!, by decide!⟩,
    ⟨by decide!, by decide!, by decide, by decide!, by decide!, by decide!, by decide!,
      by decide, by decide, by decide!, by decide!, by decide!, by decide!, by decide!,
      by decide!, by decide!, by decide!, by decide!⟩⟩

/-- C5 as stated fails in binary64 arithmetic: every sample of `scenarioField`
is 5 or `missingValue`, but the query `(9, 1)` over the missing cell returns
`5.0000000000000036 = 5 + 2^-48`, and the query `(7, 0.25)` returns
`4.999999999999999 = 5 - 2^-50`, neither 5 nor `missingValue`; the second value
is below the threshold 5 of the scenario's colour table and is coloured blue. -/
theorem GetInterpolatedData_const_counterexample :
    (scenarioField.DataValues.length : Int)
        = scenarioField.Header.Nx * scenarioField.Header.Ny
    ∧ scenarioField.Header.DX ≠ 0 ∧ scenarioField.Header.DY ≠ 0
    ∧ (∀ v ∈ scenarioField.DataValues, v = scenarioField.Header.MissingValue ∨ v = 5)
    ∧ GetInterpolatedData scenarioField 9 1 = some (5 + 1 / 281474976710656)
    ∧ GetInterpolatedData scenarioField 9 1 ≠ some 5
    ∧ GetInterpolatedData scenarioField 9 1 ≠ some scenarioField.Header.MissingValue
    ∧ GetInterpolatedData scenarioField 7 (1 / 4) = some (5 - 1 / 1125899906842624)
    ∧ GetInterpolatedData scenarioField 7 (1 / 4) ≠ some 5
    ∧ GetInterpolatedData scenarioField 7 (1 / 4) ≠ some scenarioField.Header.MissingValue
    ∧ Colormap.GetColor Colormap.scenarioTable (5 - 1 / 1125899906842624) = Colormap.blue := by
  refine ⟨by decide, by decide!, by decide!, by decide!, by decide!, by decide!, by decide!,
    by decide!, by decide!, by decide!, by decide!⟩

theorem scanNeighbours_valid {data : List ℚ} {width height : Int}
    (hlen : (data.length : Int) = width * height) (mv x y : ℚ) (x0 y0 : Int) :
    ∀ (offs : List (Int × Int)) (acc : List DataPoint),
      ∃ pts, scanNeighbours data x y x0 y0 width height mv offs acc = some (acc ++ pts)
        ∧ ∀ p ∈ pts, ∃ d ∈ offs,
            cornerValid data width height mv (y0 + d.1) (x0 + d.2)
            ∧ p.value = cellValue data width (y0 + d.1) (x0 + d.2) := by
  intro offs
  induction offs with
  | nil => intro acc; exact ⟨[], by simp [scanNeighbours], by simp⟩
  | cons d rest ih =>
    intro acc
    obtain ⟨dy, dx⟩ := d
    have lift : ∀ acc2 : List DataPoint,
        (∃ pts, scanNeighbours data x y x0 y0 width height mv rest acc2 = some (acc ++ pts)
          ∧ ∀ p ∈ pts, (∃ d ∈ rest,
            cornerValid data width height mv (y0 + d.1) (x0 + d.2)
            ∧ p.value = cellValue data width (y0 + d.1) (x0 + d.2))
            ∨ (cornerValid data width height mv (y0 + dy) (x0 + dx)
            ∧ p.value = cellValue data width (y0 + dy) (x0 + dx))) →
        ∃ pts, scanNeighbours data x y x0 y0 width height mv rest acc2 = some (acc ++ pts)
          ∧ ∀ p ∈ pts, ∃ d ∈ (dy, dx) :: rest,
            cornerValid data width height mv (y0 + d.1) (x0 + d.2)
            ∧ p.value = cellValue data width (y0 + d.1) (x0 + d.2) := by
      rintro acc2 ⟨pts, h1, h2⟩
      refine ⟨pts, h1, fun p hp => ?_⟩
      rcases h2 p hp with ⟨d, hd, hrest⟩ | hhere
      · exact ⟨d, List.mem_cons_of_mem _ hd, hrest⟩
      · exact ⟨(dy, dx), List.mem_cons_self _ _, hhere⟩
    have keep : ∃ pts, scanNeighbours data x y x0 y0 width height mv rest acc = some (acc ++ pts)
          ∧ ∀ p ∈ pts, ∃ d ∈ (dy, dx) :: rest,
            cornerValid data width height mv (y0 + d.1) (x0 + d.2)
            ∧ p.value = cellValue data width (y0 + d.1) (x0 + d.2) := by
      obtain ⟨pts, h1, h2⟩ := ih acc
      exact lift acc ⟨pts, h1, fun p hp => Or.inl (h2 p hp)⟩
    rw [scanNeighbours]
    by_cases hb : x0 + dx < 0 ∨ x0 + dx ≥ width ∨ y0 + dy < 0 ∨ y0 + dy ≥ height
    · simp only [hb, if_true]; exact keep
    · have hb2 : 0 ≤ y0 + dy ∧ y0 + dy < height ∧ 0 ≤ x0 + dx ∧ x0 + dx < width := by omega
      obtain ⟨v, hv, hmem⟩ := sliceAt_cell hlen hb2.1 hb2.2.1 hb2.2.2.1 hb2.2.2.2
      simp only [hb, if_false, hv]
      by_cases hvm : v ≠ mv
      · rw [if_pos hvm]
        split
        · obtain ⟨pts, h1, h2⟩ := ih (acc ++ [⟨v,
            Sqrt (add (mul (sub (add (ofInt (x0 + dx)) (1 / 2)) x)
                (sub (add (ofInt (x0 + dx)) (1 / 2)) x))
              (mul (sub (add (ofInt (y0 + dy)) (1 / 2)) y)
                (sub (add (ofInt (y0 + dy)) (1 / 2)) y)))⟩])
          apply lift
          rw [List.append_assoc] at h1
          refine ⟨_ :: pts, h1, ?_⟩
          intro p hp
          rcases List.mem_cons.1 hp with rfl | hp
          · right
            refine ⟨⟨hb2.1, hb2.2.1, hb2.2.2.1, hb2.2.2.2, ?_⟩, ?_⟩
            · rw [hv]; simpa using hvm
            · simp [cellValue, hv]
          · exact Or.inl (h2 p hp)
        · exact keep
      · rw [if_neg hvm]; exact keep

theorem blendCorners_ignores_invalid (u v v00 v01 v10 v11 w00 w01 w10 w11 : ℚ)
    (b00 b01 b10 b11 : Bool)
    (h00 : b00 = true → w00 = v00) (h01 : b01 = true → w01 = v01)
    (h10 : b10 = true → w10 = v10) (h11 : b11 = true → w11 = v11) :
    blendCorners u v w00 b00 w01 b01 w10 b10 w11 b11
      = blendCorners u v v00 b00 v01 b01 v10 b10 v11 b11 := by
  cases b00 <;> cases b01 <;> cases b10 <;> cases b11 <;>
    simp only [forall_true_left, Bool.false_eq_true, false_implies] at h00 h01 h10 h11 <;>
    subst_vars <;>
    simp only [blendCorners, validCount, addCorner, if_true, if_false, Bool.false_eq_true,
      Nat.reduceAdd, Nat.reduceLT, Nat.reduceEqDiff, Nat.reduceLeDiff, zero_add, add_zero]

theorem adaptive_excludes_missing {data : List ℚ} {width height : Int}
    (hlen : (data.length : Int) = width * height) (mv x y : ℚ) (x0 y0 : Int) :
    (∃ pts, scanNeighbours data x y x0 y0 width height mv scanOffsets [] = some pts
      ∧ ∀ p ∈ pts, neighbourSample data width height mv x0 y0 p.value)
    ∧ (∃ v00 v01 v10 v11 : ℚ,
        tryBilinearInterpolation data x y x0 y0 width height mv
          = some (blendCorners (sub x (ofInt x0)) (sub y (ofInt y0))
              v00 (decide (cornerValid data width height mv y0 x0))
              v01 (decide (cornerValid data width height mv y0 (x0 + 1)))
              v10 (decide (cornerValid data width height mv (y0 + 1) x0))
              v11 (decide (cornerValid data width height mv (y0 + 1) (x0 + 1))))
        ∧ ∀ w00 w01 w10 w11 : ℚ,
            (cornerValid data width height mv y0 x0 → w00 = cellValue data width y0 x0) →
            (cornerValid data width height mv y0 (x0 + 1) →
              w01 = cellValue data width y0 (x0 + 1)) →
            (cornerValid data width height mv (y0 + 1) x0 →
              w10 = cellValue data width (y0 + 1) x0) →
            (cornerValid data width height mv (y0 + 1) (x0 + 1) →
              w11 = cellValue data width (y0 + 1) (x0 + 1)) →
            blendCorners (sub x (ofInt x0)) (sub y (ofInt y0))
                w00 (decide (cornerValid data width height mv y0 x0))
                w01 (decide (cornerValid data width height mv y0 (x0 + 1)))
                w10 (decide (cornerValid data width height mv (y0 + 1) x0))
                w11 (decide (cornerValid data width height mv (y0 + 1) (x0 + 1)))
              = blendCorners (sub x (ofInt x0)) (sub y (ofInt y0))
                v00 (decide (cornerValid data width height mv y0 x0))
                v01 (decide (cornerValid data width height mv y0 (x0 + 1)))
                v10 (decide (cornerValid data width height mv (y0 + 1) x0))
                v11 (decide (cornerValid data width height mv (y0 + 1) (x0 + 1)))) := by
  constructor
  · obtain ⟨pts, h1, h2⟩ := scanNeighbours_valid hlen mv x y x0 y0 scanOffsets []
    refine ⟨pts, by simpa using h1, fun p hp => ?_⟩
    obtain ⟨d, hd, hv, he⟩ := h2 p hp
    exact ⟨d, hd, hv, he⟩
  · obtain ⟨v00, h00, p00⟩ := getPixel_eq hlen mv y0 x0
    obtain ⟨v01, h01, p01⟩ := getPixel_eq hlen mv y0 (x0 + 1)
    obtain ⟨v10, h10, p10⟩ := getPixel_eq hlen mv (y0 + 1) x0
    obtain ⟨v11, h11, p11⟩ := getPixel_eq hlen mv (y0 + 1) (x0 + 1)
    refine ⟨v00, v01, v10, v11, ?_, ?_⟩
    · unfold tryBilinearInterpolation
      simp only []
      rw [h00, h01, h10, h11]
    · intro w00 w01 w10 w11 q00 q01 q10 q11
      apply blendCorners_ignores_invalid
      · intro hb
        have hv := of_decide_eq_true hb
        rw [q00 hv, (p00 hv).1]
      · intro hb
        have hv := of_decide_eq_true hb
        rw [q01 hv, (p01 hv).1]
      · intro hb
        have hv := of_decide_eq_true hb
        rw [q10 hv, (p10 hv).1]
      · intro hb
        have hv := of_decide_eq_true hb
        rw [q11 hv, (p11 hv).1]

/-- C16 (as amended): for a grid with `len(data) = width*height` and a point
`(x, y)` with floor cell `(x0, y0)`.  In exact arithmetic, whenever
`adaptiveInterpolation` returns a value other than `missingValue`, that value
lies between two in-bounds samples different from `missingValue` of the 7x7
neighbourhood of `(x0, y0)`, hence between their minimum and maximum.  In the
binary64 arithmetic of the program, every point that
`gradientAdaptiveInterpolation` collects for its weighted sum holds such a
sample, and the result of `tryBilinearInterpolation` is the blend of its four
corner reads flagged by validity, which does not change when the values read
at the corners that are not valid are replaced by any others: the sentinel
takes no part in any average (the rounded mean itself can leave the interval
of the samples by rounding). -/
theorem adaptiveInterpolation_between (data : List ℚ) (width height : Int)
    (hlen : (data.length : Int) = width * height) (mv x y : ℚ) (edgeMargin : Int) :
    (∀ r : ℚ,
      Grib2.adaptiveInterpolation data x y ⌊x⌋ ⌊y⌋ width height mv edgeMargin = some r →
      r ≠ mv →
      ∃ lo hi, neighbourSample data width height mv ⌊x⌋ ⌊y⌋ lo
        ∧ neighbourSample data width height mv ⌊x⌋ ⌊y⌋ hi ∧ lo ≤ r ∧ r ≤ hi)
    ∧ (∃ pts, scanNeighbours data x y ⌊x⌋ ⌊y⌋ width height mv scanOffsets [] = some pts
      ∧ ∀ p ∈ pts, neighbourSample data width height mv ⌊x⌋ ⌊y⌋ p.value)
    ∧ (∃ v00 v01 v10 v11 : ℚ,
        tryBilinearInterpolation data x y ⌊x⌋ ⌊y⌋ width height mv
          = some (blendCorners (sub x (ofInt ⌊x⌋)) (sub y (ofInt ⌊y⌋))
              v00 (decide (cornerValid data width height mv ⌊y⌋ ⌊x⌋))
              v01 (decide (cornerValid data width height mv ⌊y⌋ (⌊x⌋ + 1)))
              v10 (decide (cornerValid data width height mv (⌊y⌋ + 1) ⌊x⌋))
              v11 (decide (cornerValid data width height mv (⌊y⌋ + 1) (⌊x⌋ + 1))))
        ∧ ∀ w00 w01 w10 w11 : ℚ,
            (cornerValid data width height mv ⌊y⌋ ⌊x⌋ → w00 = cellValue data width ⌊y⌋ ⌊x⌋) →
            (cornerValid data width height mv ⌊y⌋ (⌊x⌋ + 1) →
              w01 = cellValue data width ⌊y⌋ (⌊x⌋ + 1)) →
            (cornerValid data width height mv (⌊y⌋ + 1) ⌊x⌋ →
              w10 = cellValue data width (⌊y⌋ + 1) ⌊x⌋) →
            (cornerValid data width height mv (⌊y⌋ + 1) (⌊x⌋ + 1) →
              w11 = cellValue data width (⌊y⌋ + 1) (⌊x⌋ + 1)) →
            blendCorners (sub x (ofInt ⌊x⌋)) (sub y (ofInt ⌊y⌋))
                w00 (decide (cornerValid data width height mv ⌊y⌋ ⌊x⌋))
                w01 (decide (cornerValid data width height mv ⌊y⌋ (⌊x⌋ + 1)))
                w10 (decide (cornerValid data width height mv (⌊y⌋ + 1) ⌊x⌋))
                w11 (decide (cornerValid data width height mv (⌊y⌋ + 1) (⌊x⌋ + 1)))
              = blendCorners (sub x (ofInt ⌊x⌋)) (sub y (ofInt ⌊y⌋))
                v00 (decide (cornerValid data width height mv ⌊y⌋ ⌊x⌋))
                v01 (decide (cornerValid data width height mv ⌊y⌋ (⌊x⌋ + 1)))
                v10 (decide (cornerValid data width height mv (⌊y⌋ + 1) ⌊x⌋))
                v11 (decide (cornerValid data width height mv (⌊y⌋ + 1) (⌊x⌋ + 1)))) :=
  ⟨fun r hres hne => adaptive_between data width height hlen mv x y edgeMargin r hres hne,
    (adaptive_excludes_missing hlen mv x y ⌊x⌋ ⌊y⌋).1,
    (adaptive_excludes_missing hlen mv x y ⌊x⌋ ⌊y⌋).2⟩

/-- C16 (as amended) on `gapGrid` at the centre of the gap: in exact
arithmetic the fallback returns 5, between the samples 1 and 9. -/
theorem adaptiveInterpolation_between_witness :
    Grib2.adaptiveInterpolation gapGrid (3 / 2) (3 / 2) ⌊(3 / 2 : ℚ)⌋ ⌊(3 / 2 : ℚ)⌋ 3 3 9999 3
        = some 5
    ∧ ∃ lo hi, neighbourSample gapGrid 3 3 9999 ⌊(3 / 2 : ℚ)⌋ ⌊(3 / 2 : ℚ)⌋ lo
      ∧ neighbourSample gapGrid 3 3 9999 ⌊(3 / 2 : ℚ)⌋ ⌊(3 / 2 : ℚ)⌋ hi ∧ lo ≤ 5 ∧ 5 ≤ hi :=
  ⟨by decide!, (adaptiveInterpolation_between gapGrid 3 3 (by decide) 9999 (3 / 2) (3 / 2) 3).1 5
    (by decide!) (by decide!)⟩

/-- C16 as stated fails in binary64 arithmetic: on the samples of
`scenarioField` at `(x, y) = (1, 1)`, floor cell `(1, 1)`, the fallback returns
`5.0000000000000036 = 5 + 2^-48`, a value other than `missingValue`, although
every sample different from `missingValue` is 5. -/
theorem adaptiveInterpolation_between_counterexample :
    (scenarioField.DataValues.length : Int) = 4 * 4
    ∧ ⌊(1 : ℚ)⌋ = 1
    ∧ adaptiveInterpolation scenarioField.DataValues 1 1 1 1 4 4 9999 3
        = some (5 + 1 / 281474976710656)
    ∧ (5 + 1 / 281474976710656 : ℚ) ≠ 9999
    ∧ (∀ v ∈ scenarioField.DataValues, v ≠ 9999 → v = 5)
    ∧ ¬ ((5 + 1 / 281474976710656 : ℚ) ≤ 5) := by
  refine ⟨by decide, by decide!, by decide!, by decide!, by decide!, by decide!⟩

end Binary64
